import Mathlib

/-!
# svnadmin: tree printing and subcommand dispatch

A shallow embedding of `subversion/svnadmin/main.c`.

Conventions of the embedding.

* C strings and counted byte strings are Lean `String`s, one `Char` per byte.
* `svn_revnum_t`, `apr_off_t`, `long int` and `int` values are `Int`s; on the
  LP64 targets of the tool `apr_off_t` and `long int` have the same width, so the
  cast `(long int) len` is the identity.
* The filesystem library (`svn_fs_*`, `svn_repos_open`) and APR are not part of
  `main.c`.  They are represented by the answers they give: a record of
  answers for an opened filesystem, and, for a tree, the answers to the four
  queries `print_tree` issues for every node (`svn_fs_dir_entries`,
  `svn_fs_node_id` followed by `svn_fs_unparse_id`, `svn_fs_is_dir`,
  `svn_fs_file_length`).
* `printf` to standard output appends to `stdout`; every library call is
  appended to `calls`, so the order of calls can be observed.
-/

namespace Svnadmin

/-! ## Errors, calls and answers -/

/-- The fields of `svn_error_t` that `main.c` looks at. -/
structure svn_error_t where
  apr_err : Int
  src_err : Int
  message : String
deriving DecidableEq, Repr

/-- The library calls `main.c` makes that touch a repository or its lockfile.
A call on a transaction handle carries the name (or base revision) the handle
was obtained with. -/
inductive FsCall where
  | svn_fs_create_berkeley (path : String)
  | svn_repos_open (path : String)
  | svn_fs_open_berkeley (path : String)
  | svn_fs_youngest_rev
  | svn_fs_list_transactions
  | svn_fs_open_txn (name : String)
  | svn_fs_txn_root (txn_name : String)
  | svn_fs_txn_prop (txn_name : String) (propname : String)
  | svn_fs_revision_root (rev : Int)
  | svn_fs_revision_prop (rev : Int) (propname : String)
  | svn_fs_dir_entries (path : String)
  | svn_fs_node_id (path : String)
  | svn_fs_is_dir (path : String)
  | svn_fs_file_length (path : String)
  | svn_fs_abort_txn (txn_name : String)
  | svn_fs_begin_txn (rev : Int)
  | svn_fs_close_txn (base_rev : Int)
  | apr_file_open (path : String)
  | apr_file_lock
  | svn_fs_berkeley_recover (env_path : String)
  | apr_file_unlock
  | apr_file_close
  | svn_fs_close_fs
deriving DecidableEq, Repr

/-- One directory entry as `print_tree` sees it: its name, and the answers the
filesystem gives for the entry's full path.  `node_id` is the unparsed id
(`svn_fs_unparse_id` of the answer of `svn_fs_node_id`); `dir_entries` lists the
entries in the order `apr_hash_first` / `apr_hash_next` enumerate them. -/
inductive Entry where
  | mk (name : String)
       (node_id : Except svn_error_t String)
       (is_dir : Except svn_error_t Bool)
       (file_length : Except svn_error_t Int)
       (dir_entries : Except svn_error_t (List Entry))

/-- The answer of `svn_fs_dir_entries` for a path of a root, with the answers
for everything below it. -/
abbrev DirAnswer := Except svn_error_t (List Entry)

/-- Name of an entry (`this_entry->name`). -/
def Entry.name : Entry → String
  | .mk n _ _ _ _ => n

/-- What one run of `print_tree` did: the text written to standard output, the
filesystem calls made, and the value returned (`none` is `SVN_NO_ERROR`). -/
structure TreeRun where
  stdout : String
  calls : List FsCall
  err : Option svn_error_t

/-! ## print_tree -/

/-- The indentation loop `for (i = 0; i < indentation; i++) printf (" ");`. -/
def indent : Nat → String
  | 0 => ""
  | i + 1 => " " ++ indent i

mutual
/-- The function `print_tree (root, path, indentation, pool)`; `d` holds the answers
of the filesystem for `root:path` and below. -/
def print_tree (d : DirAnswer) (path : String) (indentation : Nat) : TreeRun :=
  match d with
  | .error e => ⟨"", [.svn_fs_dir_entries path], some e⟩
  | .ok entries =>
    let r := print_tree_loop entries path indentation
    ⟨r.stdout, .svn_fs_dir_entries path :: r.calls, r.err⟩
termination_by structural d
/-- The `for (hi = apr_hash_first ...; hi; hi = apr_hash_next (hi))` loop of
`print_tree`: an `SVN_ERR` in the body returns from the function. -/
def print_tree_loop (entries : List Entry) (path : String) (indentation : Nat) : TreeRun :=
  match entries with
  | [] => ⟨"", [], none⟩
  | this_entry :: rest =>
    let r1 := print_tree_body this_entry path indentation
    match r1.err with
    | some e => ⟨r1.stdout, r1.calls, some e⟩
    | none =>
      let r2 := print_tree_loop rest path indentation
      ⟨r1.stdout ++ r2.stdout, r1.calls ++ r2.calls, r2.err⟩
termination_by structural entries
/-- The body of the loop of `print_tree` for one entry.  The value returned by
the recursive call for a directory is not inspected by the source. -/
def print_tree_body (this_entry : Entry) (path : String) (indentation : Nat) : TreeRun :=
  match this_entry with
  | .mk name node_id is_dir file_length dir_entries =>
    let this_full_path := path ++ "/" ++ name
    let out := indent indentation ++ name
    match node_id with
    | .error e => ⟨out, [.svn_fs_node_id this_full_path], some e⟩
    | .ok id_str =>
      match is_dir with
      | .error e =>
        ⟨out, [.svn_fs_node_id this_full_path, .svn_fs_is_dir this_full_path], some e⟩
      | .ok true =>
        let sub := print_tree dir_entries this_full_path (indentation + 1)
        ⟨out ++ ("/ <" ++ id_str ++ ">\n") ++ sub.stdout,
         [.svn_fs_node_id this_full_path, .svn_fs_is_dir this_full_path] ++ sub.calls,
         none⟩
      | .ok false =>
        match file_length with
        | .error e =>
          ⟨out, [.svn_fs_node_id this_full_path, .svn_fs_is_dir this_full_path,
                 .svn_fs_file_length this_full_path], some e⟩
        | .ok len =>
          ⟨out ++ (" <" ++ id_str ++ "> [" ++ toString len ++ "]\n"),
           [.svn_fs_node_id this_full_path, .svn_fs_is_dir this_full_path,
            .svn_fs_file_length this_full_path], none⟩
termination_by structural this_entry
end

/-! ## The filesystem as `main` sees it -/

/-- The root of a revision or of a transaction (`svn_fs_root_t`): the answers
for its top directory `""` and everything below. -/
abbrev svn_fs_root_t := DirAnswer

/-- An open transaction (`svn_fs_txn_t`): the answers of `svn_fs_txn_root`,
`svn_fs_txn_prop` (a missing property is `none`, the C `NULL`),
`svn_fs_abort_txn` and `svn_fs_close_txn` (`none` is `SVN_NO_ERROR`). -/
structure svn_fs_txn_t where
  txn_root : Except svn_error_t svn_fs_root_t
  txn_prop : String → Except svn_error_t (Option String)
  abort_txn : Option svn_error_t
  close_txn : Option svn_error_t

/-- A filesystem object (`svn_fs_t`): the answers it gives to the calls of
`main`. -/
structure svn_fs_t where
  youngest_rev : Except svn_error_t Int
  list_transactions : Except svn_error_t (List String)
  open_txn : String → Except svn_error_t svn_fs_txn_t
  begin_txn : Int → Except svn_error_t svn_fs_txn_t
  revision_root : Int → Except svn_error_t svn_fs_root_t
  revision_prop : Int → String → Except svn_error_t (Option String)
  close_fs : Option svn_error_t
  db_lockfile : String
  db_env : String

/-- Everything outside `main.c` that a run depends on.  `open_berkeley` also
gives the filesystem object left behind when it fails, because `recover`
goes on using it.  `DB_RUNRECOVERY` is the constant of `db.h`.
`indeterminate` is the value of an uninitialised `svn_revnum_t`.
`handle_error` is the text `svn_handle_error` writes. -/
structure World where
  create_berkeley : String → Except svn_error_t svn_fs_t
  repos_open : String → Except svn_error_t svn_fs_t
  open_berkeley : String → Option svn_error_t × svn_fs_t
  DB_RUNRECOVERY : Int
  apr_file_open : String → Int
  apr_file_lock : Int
  berkeley_recover : String → Option svn_error_t
  apr_file_unlock : Int
  apr_file_close : Int
  indeterminate : Int
  handle_error : svn_error_t → String

/-- The constant `SVN_INVALID_REVNUM` of `svn_types.h`. -/
def SVN_INVALID_REVNUM : Int := -1

/-- The constant `SVN_PROP_REVISION_DATE` of `svn_types.h`. -/
def SVN_PROP_REVISION_DATE : String := "svn:date"

/-- The constant `SVN_PROP_REVISION_AUTHOR` of `svn_types.h`. -/
def SVN_PROP_REVISION_AUTHOR : String := "svn:author"

/-- The constant `SVN_PROP_REVISION_LOG` of `svn_types.h`. -/
def SVN_PROP_REVISION_LOG : String := "svn:log"

/-- The constant `APR_SUCCESS`. -/
def APR_SUCCESS : Int := 0

/-- The constant `EXIT_SUCCESS`. -/
def EXIT_SUCCESS : Int := 0

/-- The constant `EXIT_FAILURE`. -/
def EXIT_FAILURE : Int := 1

/-- What `printf ("%s", buf->data)` writes for a counted string: the bytes up
to the first NUL. -/
def c_str (s : String) : String := String.mk (s.data.takeWhile (fun c => c != '\x00'))

/-- The C predicate `isspace` in the "C" locale. -/
def isspace (c : Char) : Bool :=
  c == ' ' || c == '\t' || c == '\n' || c == '\x0b' || c == '\x0c' || c == '\r'

/-- The digit loop of `atoi`. -/
def atoi_digits : List Char → Int → Int
  | [], acc => acc
  | c :: cs, acc => if c.isDigit then atoi_digits cs (acc * 10 + ((c.toNat : Int) - 48)) else acc

/-- The constant `LONG_MAX` of a 64-bit `long`. -/
def LONG_MAX : Int := 9223372036854775807

/-- The constant `LONG_MIN` of a 64-bit `long`. -/
def LONG_MIN : Int := -9223372036854775808

/-- The constant `INT_MAX` of a 32-bit `int`. -/
def INT_MAX : Int := 2147483647

/-- The constant `INT_MIN` of a 32-bit `int`. -/
def INT_MIN : Int := -2147483648

/-- The C library function `strtol (nptr, NULL, 10)`: white space is skipped,
then an optional sign and the decimal digits are read; a value outside the
range of `long` is replaced by `LONG_MAX` or `LONG_MIN`. -/
def strtol (nptr : String) : Int :=
  let value : Int :=
    match nptr.data.dropWhile isspace with
    | '-' :: ds => - atoi_digits ds 0
    | '+' :: ds => atoi_digits ds 0
    | ds => atoi_digits ds 0
  if LONG_MAX < value then LONG_MAX
  else if value < LONG_MIN then LONG_MIN
  else value

/-- The conversion `(int) v` of a `long` to a 32-bit `int`: the low 32 bits in
signed (two-complement) form. -/
def to_int (v : Int) : Int := (v + 2147483648) % 4294967296 - 2147483648

/-- The C library function `atoi`, which is `(int) strtol (nptr, NULL, 10)`:
the decimal value of the argument when it fits an `int`, and the low 32 bits
of the `long` read otherwise (`4294967295` gives -1, `4294967297` gives 1). -/
def atoi (nptr : String) : Int := to_int (strtol nptr)

/-! ## main -/

/-- How a run of `main` ends: `exit (code)` or `return code`, or a
dereference of a null pointer. -/
inductive Status where
  | exit (code : Int)
  | segv
deriving DecidableEq, Repr

/-- What one run of `main` did. -/
structure MainRun where
  stdout : String
  stderr : String
  calls : List FsCall
  status : Status

/-- How one pass of a listing loop of `main` ends: it falls through to the
next pass, jumps to `error:` with `err`, or dereferences a null pointer. -/
inductive Outcome where
  | next
  | error (err : svn_error_t)
  | segv
deriving DecidableEq, Repr

/-- What one pass (or a whole loop) of a listing loop of `main` did. -/
structure BlockRun where
  stdout : String
  calls : List FsCall
  outcome : Outcome

/-- The text of the usage message. -/
def usage_text (progname : String) : String :=
  "usage: " ++ progname ++ " SUBCOMMAND REPOS_PATH [ARGS...]\n"
  ++ "\n"
  ++ "Subcommands are: \n"
  ++ "\n"
  ++ "  create    REPOS_PATH\n"
  ++ "                Create a new, empty repository at REPOS_PATH."
  ++ "\n"
  ++ "  youngest  REPOS_PATH\n"
  ++ "                Print the latest revision number."
  ++ "\n"
  ++ "  rmtxn     REPOS_PATH TXN_NAME\n"
  ++ "                Delete the transaction named TXN_NAME."
  ++ "\n"
  ++ "  createtxn REPOS_PATH BASE_REV\n"
  ++ "                Create a new transaction based on BASE_REV."
  ++ "\n"
  ++ "  lstxns    REPOS_PATH\n"
  ++ "                Print all txns and their trees.\n"
  ++ "\n"
  ++ "  lsrevs    REPOS_PATH [LOWER_REV [UPPER_REV]]\n"
  ++ "      If no revision is given, all revision trees are printed.\n"
  ++ "      If just LOWER_REV is given, that revision tree is printed.\n"
  ++ "      If two revisions are given, that range is printed, inclusive.\n"
  ++ "\n"
  ++ "  recover   REPOS_PATH\n"
  ++ "      Run the Berkeley DB recovery procedure on a repository.  Do\n"
  ++ "      this if you\x27ve been getting errors indicating that recovery\n"
  ++ "      ought to be run.\n"
  ++ "\n"
  ++ "Printing a tree shows its structure, node ids, and file sizes.\n"
  ++ "\n"

/-- The function `usage (progname, exit_code)`: the message goes to stderr when
`exit_code` is not zero, to stdout otherwise; then `exit (exit_code)`. -/
def usage (progname : String) (exit_code : Int) : MainRun :=
  if exit_code ≠ 0 then ⟨"", usage_text progname, [], .exit exit_code⟩
  else ⟨usage_text progname, "", [], .exit exit_code⟩

/-- The label `error:` of `main`: report `err`, return `EXIT_FAILURE`. -/
def goto_error (w : World) (out : String) (calls : List FsCall) (err : svn_error_t) : MainRun :=
  ⟨out, w.handle_error err, calls, .exit EXIT_FAILURE⟩

/-- The common tail of `main` after the subcommand: `svn_fs_close_fs`, then
`return EXIT_SUCCESS`. -/
def close_and_return (w : World) (fs : svn_fs_t) (out : String) (calls : List FsCall) : MainRun :=
  match fs.close_fs with
  | some err => goto_error w out (calls ++ [.svn_fs_close_fs]) err
  | none => ⟨out, "", calls ++ [.svn_fs_close_fs], .exit EXIT_SUCCESS⟩

/-- The four `printf`s after the title line of a block, the call of
`print_tree` on the root with indentation 1 (its return value is dropped) and
the closing empty line. -/
def print_block_rest (datestamp author log : String) (this_root : svn_fs_root_t) : String :=
  "Created: " ++ c_str datestamp ++ "\n"
  ++ ("Author: " ++ c_str author ++ "\n")
  ++ ("Log (" ++ toString log.length ++ " bytes):\n" ++ c_str log ++ "\n")
  ++ "==========================================\n"
  ++ (print_tree this_root "" 1).stdout
  ++ "\n"

/-- The body of the loop of `lsrevs` for the revision `this`. -/
def lsrevs_body (fs : svn_fs_t) (this : Int) : BlockRun :=
  match fs.revision_root this with
  | .error err => ⟨"", [.svn_fs_revision_root this], .error err⟩
  | .ok this_root =>
    match fs.revision_prop this SVN_PROP_REVISION_DATE with
    | .error err =>
      ⟨"", [.svn_fs_revision_root this,
            .svn_fs_revision_prop this SVN_PROP_REVISION_DATE], .error err⟩
    | .ok datestamp =>
      match fs.revision_prop this SVN_PROP_REVISION_AUTHOR with
      | .error err =>
        ⟨"", [.svn_fs_revision_root this,
              .svn_fs_revision_prop this SVN_PROP_REVISION_DATE,
              .svn_fs_revision_prop this SVN_PROP_REVISION_AUTHOR], .error err⟩
      | .ok author =>
        match fs.revision_prop this SVN_PROP_REVISION_LOG with
        | .error err =>
          ⟨"", [.svn_fs_revision_root this,
                .svn_fs_revision_prop this SVN_PROP_REVISION_DATE,
                .svn_fs_revision_prop this SVN_PROP_REVISION_AUTHOR,
                .svn_fs_revision_prop this SVN_PROP_REVISION_LOG], .error err⟩
        | .ok log =>
          let calls := [FsCall.svn_fs_revision_root this,
                .svn_fs_revision_prop this SVN_PROP_REVISION_DATE,
                .svn_fs_revision_prop this SVN_PROP_REVISION_AUTHOR,
                .svn_fs_revision_prop this SVN_PROP_REVISION_LOG]
          let title := "Revision " ++ toString this ++ "\n"
          match datestamp with
          | none => ⟨title, calls, .segv⟩
          | some datestamp =>
            ⟨title ++ print_block_rest datestamp (author.getD "") (log.getD "") this_root,
             calls ++ (print_tree this_root "" 1).calls, .next⟩

/-- The loop `for (this = lower; this <= upper; this++)` of `lsrevs`.  The
first argument bounds the number of passes; `main` supplies
`upper + 1 - lower`, the number of passes the loop can make. -/
def lsrevs_loop (fs : svn_fs_t) (upper : Int) : Nat → Int → BlockRun
  | 0, _ => ⟨"", [], .next⟩
  | fuel + 1, this =>
    if this ≤ upper then
      let b := lsrevs_body fs this
      match b.outcome with
      | .next =>
        let r := lsrevs_loop fs upper fuel (this + 1)
        ⟨b.stdout ++ r.stdout, b.calls ++ r.calls, r.outcome⟩
      | _ => b
    else ⟨"", [], .next⟩

/-- The body of the loop of `lstxns` for the transaction named `txn_name`. -/
def lstxns_body (fs : svn_fs_t) (txn_name : String) : BlockRun :=
  match fs.open_txn txn_name with
  | .error err => ⟨"", [.svn_fs_open_txn txn_name], .error err⟩
  | .ok txn =>
    match txn.txn_root with
    | .error err => ⟨"", [.svn_fs_open_txn txn_name, .svn_fs_txn_root txn_name], .error err⟩
    | .ok this_root =>
      match txn.txn_prop SVN_PROP_REVISION_DATE with
      | .error err =>
        ⟨"", [.svn_fs_open_txn txn_name, .svn_fs_txn_root txn_name,
              .svn_fs_txn_prop txn_name SVN_PROP_REVISION_DATE], .error err⟩
      | .ok datestamp =>
        match txn.txn_prop SVN_PROP_REVISION_AUTHOR with
        | .error err =>
          ⟨"", [.svn_fs_open_txn txn_name, .svn_fs_txn_root txn_name,
                .svn_fs_txn_prop txn_name SVN_PROP_REVISION_DATE,
                .svn_fs_txn_prop txn_name SVN_PROP_REVISION_AUTHOR], .error err⟩
        | .ok author =>
          match txn.txn_prop SVN_PROP_REVISION_LOG with
          | .error err =>
            ⟨"", [.svn_fs_open_txn txn_name, .svn_fs_txn_root txn_name,
                  .svn_fs_txn_prop txn_name SVN_PROP_REVISION_DATE,
                  .svn_fs_txn_prop txn_name SVN_PROP_REVISION_AUTHOR,
                  .svn_fs_txn_prop txn_name SVN_PROP_REVISION_LOG], .error err⟩
          | .ok log =>
            let calls := [FsCall.svn_fs_open_txn txn_name, .svn_fs_txn_root txn_name,
                  .svn_fs_txn_prop txn_name SVN_PROP_REVISION_DATE,
                  .svn_fs_txn_prop txn_name SVN_PROP_REVISION_AUTHOR,
                  .svn_fs_txn_prop txn_name SVN_PROP_REVISION_LOG]
            let title := "Txn " ++ txn_name ++ ":\n"
            match datestamp with
            | none => ⟨title, calls, .segv⟩
            | some datestamp =>
              ⟨title ++ print_block_rest datestamp (author.getD "") (log.getD "") this_root,
               calls ++ (print_tree this_root "" 1).calls, .next⟩

/-- The loop `while ((txn_name = *txns++))` of `lstxns`. -/
def lstxns_loop (fs : svn_fs_t) : List String → BlockRun
  | [] => ⟨"", [], .next⟩
  | txn_name :: txns =>
    let b := lstxns_body fs txn_name
    match b.outcome with
    | .next =>
      let r := lstxns_loop fs txns
      ⟨b.stdout ++ r.stdout, b.calls ++ r.calls, r.outcome⟩
    | _ => b

/-- After a listing loop: `error:` on an error, a crash on a null pointer,
otherwise the common tail. -/
def after_loop (w : World) (fs : svn_fs_t) (pre : List FsCall) (r : BlockRun) : MainRun :=
  match r.outcome with
  | .next => close_and_return w fs r.stdout (pre ++ r.calls)
  | .error err => goto_error w r.stdout (pre ++ r.calls) err
  | .segv => ⟨r.stdout, "", pre ++ r.calls, .segv⟩

/-- The subcommand `lsrevs` after the repository was opened: `argv3` and
`argv4` are `argv[3]` and `argv[4]` (`none` is `NULL`; `argv[4]` is read only
when `argv[3]` is present). -/
def main_lsrevs (w : World) (fs : svn_fs_t) (pre : List FsCall)
    (argv3 argv4 : Option String) : MainRun :=
  let lower0 : Int :=
    match argv3 with
    | some a => atoi a
    | none => SVN_INVALID_REVNUM
  let upper0 : Int :=
    match argv3, argv4 with
    | some _, some b => atoi b
    | _, _ => SVN_INVALID_REVNUM
  if lower0 = SVN_INVALID_REVNUM then
    -- lower = 0; svn_fs_youngest_rev (&upper, fs, pool);  (the error is dropped)
    let upper : Int :=
      match fs.youngest_rev with
      | .ok y => y
      | .error _ => upper0
    after_loop w fs (pre ++ [.svn_fs_youngest_rev])
      (lsrevs_loop fs upper (upper + 1 - 0).toNat 0)
  else
    let upper : Int := if upper0 = SVN_INVALID_REVNUM then lower0 else upper0
    after_loop w fs pre (lsrevs_loop fs upper (upper + 1 - lower0).toNat lower0)

/-- The subcommand `recover`. -/
def main_recover (w : World) (progname path : String) : MainRun :=
  let opened := w.open_berkeley path
  let fs := opened.2
  let calls1 := [FsCall.svn_fs_open_berkeley path]
  let locked (_ : Unit) : MainRun :=
    let lockfile_path := fs.db_lockfile
    let calls2 := calls1 ++ [.apr_file_open lockfile_path]
    if w.apr_file_open lockfile_path ≠ APR_SUCCESS then
      goto_error w "" calls2
        ⟨w.apr_file_open lockfile_path, 0,
         progname ++ ": error opening db lockfile \x60" ++ lockfile_path ++ "\x27"⟩
    else
      let calls3 := calls2 ++ [.apr_file_lock]
      if w.apr_file_lock ≠ APR_SUCCESS then
        goto_error w "" calls3
          ⟨w.apr_file_lock, 0,
           progname ++ ": exclusive lock on \x60" ++ lockfile_path ++ "\x27 failed"⟩
      else
        let env_path := fs.db_env
        let calls4 := calls3 ++ [.svn_fs_berkeley_recover env_path]
        match w.berkeley_recover env_path with
        | some err => goto_error w "" calls4 err
        | none =>
          let calls5 := calls4 ++ [.apr_file_unlock]
          if w.apr_file_unlock ≠ APR_SUCCESS then
            goto_error w "" calls5
              ⟨w.apr_file_unlock, 0,
               progname ++ ": error unlocking \x60" ++ lockfile_path ++ "\x27"⟩
          else
            let calls6 := calls5 ++ [.apr_file_close]
            if w.apr_file_close ≠ APR_SUCCESS then
              goto_error w "" calls6
                ⟨w.apr_file_close, 0,
                 progname ++ ": error closing \x60" ++ lockfile_path ++ "\x27"⟩
            else close_and_return w fs "" calls6
  match opened.1 with
  | some err =>
    if err.src_err ≠ w.DB_RUNRECOVERY then goto_error w "" calls1 err
    else locked ()
  | none => locked ()

/-- The function `main (argc, argv)`, with `argc = argv.length` and
`argv[argc] = NULL`. -/
def main (w : World) (argv : List String) : MainRun :=
  let argc := argv.length
  let progname := argv.getD 0 "(null)"
  if argc < 3 then usage progname 1
  else
    let path := argv.getD 2 ""
    let subcommand := argv.getD 1 ""
    let is_create := subcommand == "create"
    let is_youngest := subcommand == "youngest"
    let is_lstxn := subcommand == "lstxns"
    let is_lsrevs := subcommand == "lsrevs"
    let is_rmtxn := subcommand == "rmtxn"
    let is_createtxn := subcommand == "createtxn"
    let is_recover := subcommand == "recover"
    if !(is_create || is_youngest || is_lstxn || is_lsrevs || is_rmtxn
          || is_createtxn || is_recover) then
      usage progname 1
    else if is_create then
      match w.create_berkeley path with
      | .error err => goto_error w "" [.svn_fs_create_berkeley path] err
      | .ok fs => close_and_return w fs "" [.svn_fs_create_berkeley path]
    else if is_youngest then
      match w.repos_open path with
      | .error err => goto_error w "" [.svn_repos_open path] err
      | .ok fs =>
        let youngest_rev : Int :=
          match fs.youngest_rev with
          | .ok y => y
          | .error _ => w.indeterminate
        close_and_return w fs (toString youngest_rev ++ "\n")
          [.svn_repos_open path, .svn_fs_youngest_rev]
    else if is_lstxn then
      match w.repos_open path with
      | .error err => goto_error w "" [.svn_repos_open path] err
      | .ok fs =>
        match fs.list_transactions with
        | .error err =>
          goto_error w "" [.svn_repos_open path, .svn_fs_list_transactions] err
        | .ok txns =>
          after_loop w fs [.svn_repos_open path, .svn_fs_list_transactions]
            (lstxns_loop fs txns)
    else if is_lsrevs then
      match w.repos_open path with
      | .error err => goto_error w "" [.svn_repos_open path] err
      | .ok fs => main_lsrevs w fs [.svn_repos_open path] (argv.get? 3) (argv.get? 4)
    else if is_rmtxn then
      match argv.get? 3 with
      | none => usage progname 1
      | some txn_name =>
        match w.repos_open path with
        | .error err => goto_error w "" [.svn_repos_open path] err
        | .ok fs =>
          match fs.open_txn txn_name with
          | .error err =>
            goto_error w "" [.svn_repos_open path, .svn_fs_open_txn txn_name] err
          | .ok txn =>
            match txn.abort_txn with
            | some err =>
              goto_error w ""
                [.svn_repos_open path, .svn_fs_open_txn txn_name, .svn_fs_abort_txn txn_name] err
            | none =>
              close_and_return w fs ""
                [.svn_repos_open path, .svn_fs_open_txn txn_name, .svn_fs_abort_txn txn_name]
    else if is_createtxn then
      match argv.get? 3 with
      | none => usage progname 1
      | some base_rev =>
        match w.repos_open path with
        | .error err => goto_error w "" [.svn_repos_open path] err
        | .ok fs =>
          match fs.begin_txn (atoi base_rev) with
          | .error err =>
            goto_error w "" [.svn_repos_open path, .svn_fs_begin_txn (atoi base_rev)] err
          | .ok txn =>
            match txn.close_txn with
            | some err =>
              goto_error w ""
                [.svn_repos_open path, .svn_fs_begin_txn (atoi base_rev),
                 .svn_fs_close_txn (atoi base_rev)] err
            | none =>
              close_and_return w fs ""
                [.svn_repos_open path, .svn_fs_begin_txn (atoi base_rev),
                 .svn_fs_close_txn (atoi base_rev)]
    else main_recover w progname path

/-! ## Notions used to state the properties of print_tree -/

/-- Whether the loop body of `print_tree` returns an error for this entry: one
of its own queries failed (an error inside a subdirectory does not count, the
body drops it). -/
def Entry.fails : Entry → Bool
  | .mk _ (.error _) _ _ _ => true
  | .mk _ (.ok _) (.error _) _ _ => true
  | .mk _ (.ok _) (.ok false) (.error _) _ => true
  | .mk _ (.ok _) (.ok false) (.ok _) _ => false
  | .mk _ (.ok _) (.ok true) _ _ => false

/-- The text of the line of an entry, from its name on, as far as the answers
of the filesystem let it be printed. -/
def Entry.text : Entry → String
  | .mk n (.ok s) (.ok true) _ _ => n ++ ("/ <" ++ s ++ ">\n")
  | .mk n (.ok s) (.ok false) (.ok len) _ => n ++ (" <" ++ s ++ "> [" ++ toString len ++ "]\n")
  | .mk n (.ok _) (.ok false) (.error _) _ => n
  | .mk n (.ok _) (.error _) _ _ => n
  | .mk n (.error _) _ _ _ => n

mutual
/-- The entries `print_tree` reaches in a directory, in the order it reaches
them, each with its depth; `k` is the depth of the direct children. -/
def reached_dir (k : Nat) (d : DirAnswer) : List (Nat × Entry) :=
  match d with
  | .error _ => []
  | .ok entries => reached_list k entries
termination_by structural d
/-- The entries reached in a list of siblings: the loop stops at the first
entry whose own queries fail. -/
def reached_list (k : Nat) (entries : List Entry) : List (Nat × Entry) :=
  match entries with
  | [] => []
  | e :: rest =>
    reached_entry k e ++ (if e.fails then [] else reached_list k rest)
termination_by structural entries
/-- An entry followed by what is reached below it when it is a directory. -/
def reached_entry (k : Nat) (e : Entry) : List (Nat × Entry) :=
  match e with
  | .mk n id isd len sub =>
    (k, .mk n id isd len sub) ::
      (match id with
       | .error _ => []
       | .ok _ =>
         match isd with
         | .ok true => reached_dir (k + 1) sub
         | .ok false => []
         | .error _ => [])
termination_by structural e
end

mutual
/-- All entries of a tree in depth-first pre-order, each with its depth; `k`
is the depth of the direct children.  Only entries the filesystem reports as
directories have entries below them. -/
def tree_dir (k : Nat) (d : DirAnswer) : List (Nat × Entry) :=
  match d with
  | .error _ => []
  | .ok entries => tree_list k entries
termination_by structural d
/-- All entries at and below a list of siblings. -/
def tree_list (k : Nat) (entries : List Entry) : List (Nat × Entry) :=
  match entries with
  | [] => []
  | e :: rest => tree_entry k e ++ tree_list k rest
termination_by structural entries
/-- An entry and all entries below it. -/
def tree_entry (k : Nat) (e : Entry) : List (Nat × Entry) :=
  match e with
  | .mk n id isd len sub =>
    (k, .mk n id isd len sub) ::
      (match isd with
       | .ok true => tree_dir (k + 1) sub
       | .ok false => []
       | .error _ => [])
termination_by structural e
end

/-- The queries `print_tree` issues for one entry all succeed. -/
def Entry.answers_ok : Entry → Bool
  | .mk _ (.ok _) (.ok true) _ (.ok _) => true
  | .mk _ (.ok _) (.ok false) (.ok _) _ => true
  | _ => false

/-- Every filesystem query of `print_tree` on this tree succeeds. -/
def queries_succeed (d : DirAnswer) : Prop :=
  d.isOk = true ∧ ∀ p ∈ tree_dir 0 d, p.2.answers_ok = true

/-- The unparsed id of an entry (empty when the query fails). -/
def Entry.id_str : Entry → String
  | .mk _ (.ok s) _ _ _ => s
  | .mk _ (.error _) _ _ _ => ""

/-- No entry name and no id string of the tree contains a newline. -/
def no_newline (d : DirAnswer) : Prop :=
  ∀ p ∈ tree_dir 0 d, '\n' ∉ p.2.name.data ∧ '\n' ∉ p.2.id_str.data

/-- The number of file and directory entries at all depths of a tree. -/
def entry_count (d : DirAnswer) : Nat := (tree_dir 0 d).length

/-- The line of an entry at depth `p.1` when the listing starts with
indentation `i`: `i + p.1` spaces, then the text of the entry. -/
def line_at (i : Nat) (p : Nat × Entry) : String := indent (i + p.1) ++ p.2.text

/-! ## Sample data -/

/-- A file entry. -/
def sample_file (n s : String) (len : Int) : Entry :=
  .mk n (.ok s) (.ok false) (.ok len) (.error ⟨0, 0, "not a directory"⟩)

/-- A directory entry. -/
def sample_subdir (n s : String) (entries : List Entry) : Entry :=
  .mk n (.ok s) (.ok true) (.error ⟨0, 0, "not a file"⟩) (.ok entries)

/-- The tree of the end-to-end scenario of the specification: one file
`a.txt` of 5 bytes. -/
def sample_root1 : DirAnswer := .ok [sample_file "a.txt" "id1" 5]

/-- A tree with a directory between two files, and a nested directory. -/
def sample_root2 : DirAnswer :=
  .ok [sample_file "a.txt" "id1" 5,
       sample_subdir "trunk" "id2"
         [sample_file "b.c" "id3" 12, sample_subdir "doc" "id4" [sample_file "README" "id5" 0]],
       sample_file "z" "id6" 7]

/-- The error a sample filesystem gives for an unknown revision or
transaction. -/
def sample_not_found : svn_error_t := ⟨160006, 0, "not found"⟩

/-- An open transaction holding the tree `sample_root2`; it has a date but no
author and no log message yet. -/
def sample_txn : svn_fs_txn_t where
  txn_root := .ok sample_root2
  txn_prop := fun name => if name = SVN_PROP_REVISION_DATE then .ok (some "d2") else .ok none
  abort_txn := none
  close_txn := none

/-- A filesystem after one commit (the end-to-end scenario): revision 0 is
empty, revision 1 holds `a.txt`; lookups of other revisions fail.  One
transaction, named `2`, is open. -/
def sample_fs : svn_fs_t where
  youngest_rev := .ok 1
  list_transactions := .ok ["2"]
  open_txn := fun name => if name = "2" then .ok sample_txn else .error sample_not_found
  begin_txn := fun r => if r = 0 ∨ r = 1 then .ok sample_txn else .error sample_not_found
  revision_root := fun r =>
    if r = 0 then .ok (.ok []) else if r = 1 then .ok sample_root1 else .error sample_not_found
  revision_prop := fun r name =>
    if r = 0 then
      (if name = SVN_PROP_REVISION_DATE then .ok (some "d0") else .ok none)
    else if r = 1 then
      (if name = SVN_PROP_REVISION_DATE then .ok (some "d1")
       else if name = SVN_PROP_REVISION_AUTHOR then .ok (some "jrandom")
       else if name = SVN_PROP_REVISION_LOG then .ok (some "add a.txt")
       else .ok none)
    else .error sample_not_found
  close_fs := none
  db_lockfile := "repo/db/lock"
  db_env := "repo/db"

/-- A world in which every path holds the sample repository. -/
def sample_world : World where
  create_berkeley := fun _ => .ok sample_fs
  repos_open := fun _ => .ok sample_fs
  open_berkeley := fun _ => (none, sample_fs)
  DB_RUNRECOVERY := -30982
  apr_file_open := fun _ => 0
  apr_file_lock := 0
  berkeley_recover := fun _ => none
  apr_file_unlock := 0
  apr_file_close := 0
  indeterminate := 0
  handle_error := fun err => err.message ++ "\n"

/-! ## Notions used to state the properties of lsrevs -/

/-- The loop body of `lsrevs` can print revision `r`: its root opens, its
three properties are read without error and the date is set. -/
def revision_listable (fs : svn_fs_t) (r : Int) : Prop :=
  (∃ root, fs.revision_root r = .ok root) ∧
  (∃ date, fs.revision_prop r SVN_PROP_REVISION_DATE = .ok (some date)) ∧
  (∃ author, fs.revision_prop r SVN_PROP_REVISION_AUTHOR = .ok author) ∧
  (∃ log, fs.revision_prop r SVN_PROP_REVISION_LOG = .ok log)

/-- The text `lsrevs` prints for the revisions `lower`, `lower + 1`, ...,
`lower + n - 1`: their blocks, one after the other. -/
def revision_blocks (fs : svn_fs_t) (lower : Int) (n : Nat) : String :=
  String.join ((List.range n).map (fun (k : Nat) => (lsrevs_body fs (lower + (k : Int))).stdout))

/-! ## Sample data for the error paths -/

/-- The error a sample backend gives when something goes wrong. -/
def sample_failure : svn_error_t := ⟨160029, 0, "backend failure"⟩

/-- The sample world, except that the Berkeley DB recovery fails. -/
def sample_world_recover_fails : World :=
  { sample_world with berkeley_recover := fun _ => some sample_failure }

/-- The sample filesystem, except that reading the youngest revision fails. -/
def sample_fs_youngest_fails : svn_fs_t :=
  { sample_fs with youngest_rev := .error sample_failure }

/-- A world in which every path holds `sample_fs_youngest_fails`. -/
def sample_world_youngest_fails : World :=
  { sample_world with repos_open := fun _ => .ok sample_fs_youngest_fails }

/-- The sample filesystem, except that listing the top directory of
revision 1 fails. -/
def sample_fs_listing_fails : svn_fs_t :=
  { sample_fs with
    revision_root := fun r =>
      if r = 0 then .ok (.ok []) else if r = 1 then .ok (.error sample_failure)
      else .error sample_not_found }

/-- A world in which every path holds `sample_fs_listing_fails`. -/
def sample_world_listing_fails : World :=
  { sample_world with repos_open := fun _ => .ok sample_fs_listing_fails }

/-! ## Sample data for the listing of damaged trees and odd properties -/

/-- A tree whose directory `trunk` cannot be listed, between two files. -/
def sample_root_unlistable : DirAnswer :=
  .ok [sample_file "a.txt" "id1" 5,
       .mk "trunk" (.ok "id2") (.ok true) (.error sample_failure) (.error sample_failure),
       sample_file "z" "id6" 7]

/-- A tree in which the id of a file two levels down cannot be read. -/
def sample_root_deep_failure : DirAnswer :=
  .ok [sample_subdir "trunk" "id2"
         [sample_subdir "doc" "id4"
            [.mk "README" (.error sample_failure) (.ok false) (.ok 0) (.ok [])]]]

/-- The sample filesystem, except that revision 0 has no `svn:date` and the
log message of revision 1 holds a NUL byte. -/
def sample_fs_odd_props : svn_fs_t :=
  { sample_fs with
    revision_prop := fun r name =>
      if r = 0 then .ok none
      else if r = 1 then
        (if name = SVN_PROP_REVISION_DATE then .ok (some "d1")
         else if name = SVN_PROP_REVISION_LOG then .ok (some "ab\x00cd")
         else .ok none)
      else .error sample_not_found }

/-- A world in which every path holds `sample_fs_odd_props`. -/
def sample_world_odd_props : World :=
  { sample_world with repos_open := fun _ => .ok sample_fs_odd_props }

/-- The error of a backend that asks for recovery: its `src_err` is the
`DB_RUNRECOVERY` of the sample world. -/
def sample_runrecovery : svn_error_t := ⟨160029, -30982, "DB_RUNRECOVERY: run database recovery"⟩

/-- The sample world, except that opening the filesystem fails with
`DB_RUNRECOVERY`. -/
def sample_world_runrecovery : World :=
  { sample_world with open_berkeley := fun _ => (some sample_runrecovery, sample_fs) }

/-- The sample world, except that opening the filesystem fails with another
error. -/
def sample_world_open_fails : World :=
  { sample_world with open_berkeley := fun _ => (some sample_failure, sample_fs) }

/-! ## Notions used to state termination and the paths of print_tree -/

mutual
/-- The function `print_tree` run with room for `stack` nested calls of itself:
`none` when a call would have to be nested deeper than that. -/
def print_tree_bounded (stack : Nat) (d : DirAnswer) (path : String) (indentation : Nat) :
    Option TreeRun :=
  match d with
  | .error e =>
    match stack with
    | 0 => none
    | _ + 1 => some ⟨"", [.svn_fs_dir_entries path], some e⟩
  | .ok entries =>
    match stack with
    | 0 => none
    | s + 1 =>
      match print_tree_loop_bounded s entries path indentation with
      | none => none
      | some r => some ⟨r.stdout, .svn_fs_dir_entries path :: r.calls, r.err⟩
termination_by structural d
/-- The loop of `print_tree`, with room for `stack` further nested calls. -/
def print_tree_loop_bounded (stack : Nat) (entries : List Entry) (path : String)
    (indentation : Nat) : Option TreeRun :=
  match entries with
  | [] => some ⟨"", [], none⟩
  | this_entry :: rest =>
    match print_tree_body_bounded stack this_entry path indentation with
    | none => none
    | some r1 =>
      match r1.err with
      | some e => some ⟨r1.stdout, r1.calls, some e⟩
      | none =>
        match print_tree_loop_bounded stack rest path indentation with
        | none => none
        | some r2 => some ⟨r1.stdout ++ r2.stdout, r1.calls ++ r2.calls, r2.err⟩
termination_by structural entries
/-- The body of the loop of `print_tree`, with room for `stack` further nested
calls. -/
def print_tree_body_bounded (stack : Nat) (this_entry : Entry) (path : String)
    (indentation : Nat) : Option TreeRun :=
  match this_entry with
  | .mk name node_id is_dir file_length dir_entries =>
    let this_full_path := path ++ "/" ++ name
    let out := indent indentation ++ name
    match node_id with
    | .error e => some ⟨out, [.svn_fs_node_id this_full_path], some e⟩
    | .ok id_str =>
      match is_dir with
      | .error e =>
        some ⟨out, [.svn_fs_node_id this_full_path, .svn_fs_is_dir this_full_path], some e⟩
      | .ok true =>
        match print_tree_bounded stack dir_entries this_full_path (indentation + 1) with
        | none => none
        | some sub =>
          some ⟨out ++ ("/ <" ++ id_str ++ ">\n") ++ sub.stdout,
                [.svn_fs_node_id this_full_path, .svn_fs_is_dir this_full_path] ++ sub.calls,
                none⟩
      | .ok false =>
        match file_length with
        | .error e =>
          some ⟨out, [.svn_fs_node_id this_full_path, .svn_fs_is_dir this_full_path,
                      .svn_fs_file_length this_full_path], some e⟩
        | .ok len =>
          some ⟨out ++ (" <" ++ id_str ++ "> [" ++ toString len ++ "]\n"),
                [.svn_fs_node_id this_full_path, .svn_fs_is_dir this_full_path,
                 .svn_fs_file_length this_full_path], none⟩
termination_by structural this_entry
end

mutual
/-- The depth of a tree: the number of directory levels, the starting
directory counting as the first. -/
def tree_depth (d : DirAnswer) : Nat :=
  match d with
  | .error _ => 1
  | .ok entries => 1 + tree_depth_list entries
termination_by structural d
/-- The largest depth below a list of siblings (0 when none is a directory). -/
def tree_depth_list (entries : List Entry) : Nat :=
  match entries with
  | [] => 0
  | e :: rest => max (tree_depth_entry e) (tree_depth_list rest)
termination_by structural entries
/-- The depth below an entry: that of its tree when it is a directory, 0
otherwise. -/
def tree_depth_entry (e : Entry) : Nat :=
  match e with
  | .mk _ _ isd _ sub =>
    match isd with
    | .ok true => tree_depth sub
    | .ok false => 0
    | .error _ => 0
termination_by structural e
end

/-- Whether an entry is reported as a directory. -/
def Entry.is_directory : Entry → Bool
  | .mk _ _ (.ok true) _ _ => true
  | .mk _ _ (.ok false) _ _ => false
  | .mk _ _ (.error _) _ _ => false

/-- The number of directory entries at all depths of a tree. -/
def directory_count (d : DirAnswer) : Nat :=
  ((tree_dir 0 d).filter (fun p => p.2.is_directory)).length

/-- Whether a call is `svn_fs_dir_entries`. -/
def FsCall.is_dir_entries : FsCall → Bool
  | .svn_fs_dir_entries _ => true
  | _ => false


/-- The path reached from the starting path `P` through the names `n1, ..., nk`:
`P` followed by `/n1`, `/n2`, ..., `/nk`, built the way the loop builds
`this_full_path` from `path` at each level. -/
def chain_path (P : String) (names : List String) : String :=
  names.foldl (fun p n => p ++ "/" ++ n) P

mutual
/-- The entries `print_tree` reaches in a directory, in the order it reaches
them, each with the names through which it is reached from the starting
directory (its own name last); `pre` holds the names leading to the directory. -/
def chains_dir (pre : List String) (d : DirAnswer) : List (List String × Entry) :=
  match d with
  | .error _ => []
  | .ok entries => chains_list pre entries
termination_by structural d
/-- The entries reached in a list of siblings, with their names. -/
def chains_list (pre : List String) (entries : List Entry) : List (List String × Entry) :=
  match entries with
  | [] => []
  | e :: rest =>
    chains_entry pre e ++ (if e.fails then [] else chains_list pre rest)
termination_by structural entries
/-- An entry followed by what is reached below it when it is a directory. -/
def chains_entry (pre : List String) (e : Entry) : List (List String × Entry) :=
  match e with
  | .mk n id isd len sub =>
    (pre ++ [n], .mk n id isd len sub) ::
      (match id with
       | .error _ => []
       | .ok _ =>
         match isd with
         | .ok true => chains_dir (pre ++ [n]) sub
         | .ok false => []
         | .error _ => [])
termination_by structural e
end

/-- The filesystem calls the loop body makes for the entry itself, all on its
full path `p`: the id, the kind, and then the entries of a directory or the
length of a file; a failing query is the last one. -/
def entry_calls (p : String) : Entry → List FsCall
  | .mk _ (.error _) _ _ _ => [.svn_fs_node_id p]
  | .mk _ (.ok _) (.error _) _ _ => [.svn_fs_node_id p, .svn_fs_is_dir p]
  | .mk _ (.ok _) (.ok true) _ _ => [.svn_fs_node_id p, .svn_fs_is_dir p, .svn_fs_dir_entries p]
  | .mk _ (.ok _) (.ok false) _ _ =>
    [.svn_fs_node_id p, .svn_fs_is_dir p, .svn_fs_file_length p]

/-- Whether the loop body enters the entry as a directory: its id is found and
it is reported as a directory. -/
def Entry.entered : Entry → Bool
  | .mk _ (.ok _) (.ok true) _ _ => true
  | .mk _ (.ok _) (.ok false) _ _ => false
  | .mk _ (.ok _) (.error _) _ _ => false
  | .mk _ (.error _) _ _ _ => false

/-- An entry name that is non-empty and holds no slash. -/
def good_name (n : String) : Prop := n.data ≠ [] ∧ '/' ∉ n.data

instance (n : String) : Decidable (good_name n) :=
  inferInstanceAs (Decidable (n.data ≠ [] ∧ '/' ∉ n.data))

/-- Whether two slashes stand next to each other in a path. -/
def double_slash : List Char → Bool
  | a :: b :: rest => (a == '/' && b == '/') || double_slash (b :: rest)
  | [_] => false
  | [] => false

end Svnadmin

/-!
# libsvn_wc/wc.h: format version and cached properties

The header defines constants only.  The property names `SVN_PROP_*` come from
another header and are parameters here.
-/

namespace LibsvnWc

/-- The constant `SVN_WC__VERSION`: "we can handle this format or anything
lower, and we (should) error on anything higher". -/
def SVN_WC__VERSION : Int := 6

/-- The constant `SVN_WC__NO_PROPCACHING_VERSION`. -/
def SVN_WC__NO_PROPCACHING_VERSION : Int := 5

/-- The format versions whose introduction the comment above `SVN_WC__VERSION`
documents: "there is no format version 0; we started with 1", then the changes
from 1 to 2, 2 to 3, 3 to 4, 4 to 5 and 5 to 6. -/
def documented_formats : List Int := [1, 2, 3, 4, 5, 6]

/-- The macro `SVN_WC__CACHABLE_PROPS`: the three string literals
`SVN_PROP_SPECIAL " " SVN_PROP_EXTERNALS " " SVN_PROP_NEEDS_LOCK` pasted
together by the compiler. -/
def SVN_WC__CACHABLE_PROPS (SVN_PROP_SPECIAL SVN_PROP_EXTERNALS SVN_PROP_NEEDS_LOCK : String) :
    String :=
  SVN_PROP_SPECIAL ++ " " ++ SVN_PROP_EXTERNALS ++ " " ++ SVN_PROP_NEEDS_LOCK

/-- The entries of a space separated list: the pieces between the spaces. -/
def space_separated (list : String) : List String :=
  (list.data.splitOn ' ').map String.mk

/-- The error kinds of opening a stored working area. -/
inductive OpenError where
  | FormatUnsupported
deriving DecidableEq, Repr

/-- Modelled from the spec: the check of the stored format version made on
`open(location)`, which is not part of the header: it "fails with
`FormatUnsupported` if it exceeds the maximum this implementation
understands; succeeds (read/write) for any version <= maximum".  The maximum
is `SVN_WC__VERSION`. -/
def open_format (stored : Int) : Except OpenError Unit :=
  if stored > SVN_WC__VERSION then .error .FormatUnsupported else .ok ()

/-- A stored format version is handled when opening it succeeds. -/
def handled (stored : Int) : Prop := open_format stored = .ok ()

end LibsvnWc

/-!
# tests/libsvn_subr/stream-test.c: the test read stream

Bytes are `Nat`s.  `svn_filesize_t` values are `Int`s, `apr_size_t` values are
`Nat`s.  The loop counter `int i` of `read_handler` is assumed not to overflow.
-/

namespace StreamTest

/-- The struct `stream_baton_t`. -/
structure stream_baton_t where
  capacity_left : Int
  current : Nat
  max_read : Nat
deriving DecidableEq, Repr

/-- The conversion of a `svn_filesize_t` (signed, 64 bits) to `apr_size_t`
(unsigned, 64 bits) that C applies in `btn->capacity_left < *len` and in the
cast `(apr_size_t)btn->capacity_left`. -/
def to_apr_size_t (x : Int) : Nat :=
  if x < 0 then (x + 2 ^ 64).toNat else x.toNat

/-- The loop `for (i = 0; i < *len; ++i)` of `read_handler`: the bytes written
to `buffer[0 .. len - 1]` and the baton afterwards. -/
def read_handler_loop : Nat → stream_baton_t → List Nat × stream_baton_t
  | 0, btn => ([], btn)
  | n + 1, btn =>
    let byte := btn.current + 1
    let btn1 : stream_baton_t :=
      { btn with current := (btn.current + 1) &&& 0x3f,
                 capacity_left := btn.capacity_left - 1 }
    let r := read_handler_loop n btn1
    (byte :: r.1, r.2)

/-- What a call of `read_handler` leaves behind: the bytes in `buffer`, the
value of `*len` and the baton. -/
structure ReadResult where
  buffer : List Nat
  len : Nat
  baton : stream_baton_t
deriving DecidableEq, Repr

/-- The function `read_handler (baton, buffer, len)`; it always returns
`SVN_NO_ERROR`. -/
def read_handler (btn : stream_baton_t) (len : Nat) : ReadResult :=
  let len1 := if btn.max_read < len then btn.max_read else len
  let len2 :=
    if to_apr_size_t btn.capacity_left < len1 then to_apr_size_t btn.capacity_left else len1
  let r := read_handler_loop len2 btn
  ⟨r.1, len2, r.2⟩

/-- The function `data_available_handler`: the value stored in
`*data_available`. -/
def data_available_handler (btn : stream_baton_t) : Bool :=
  decide (btn.capacity_left > 0)

/-- The function `create_test_read_stream (capacity, max_read, result_pool)`:
the baton of the stream, whose read function is `read_handler`. -/
def create_test_read_stream (capacity : Int) (max_read : Nat) : stream_baton_t :=
  { capacity_left := capacity, current := 0, max_read := max_read }

/-- Reading a stream to its end: request `req j` bytes in the `j`-th read and
stop at the first read that delivers no byte; the result is the
concatenation of the chunks.  The first argument bounds the number of
reads; `none` means the bound was reached before the end. -/
def read_until_empty (req : Nat → Nat) : Nat → Nat → stream_baton_t → Option (List Nat)
  | 0, _, _ => none
  | fuel + 1, j, btn =>
    let r := read_handler btn (req j)
    if r.len = 0 then some []
    else (read_until_empty req fuel (j + 1) r.baton).map (fun bytes => r.buffer ++ bytes)

/-! ## generate_test_bytes -/

/-- The variables of the loop of `generate_test_bytes`: the string buffer and
`repeat`, `repeat_iter`, `c`. -/
structure GenState where
  buffer : List Nat
  rep : Int
  rep_iter : Int
  c : Nat
deriving DecidableEq, Repr

/-- One pass of the loop of `generate_test_bytes`. -/
def generate_test_bytes_step (st : GenState) : GenState :=
  let buffer := st.buffer ++ [st.c]
  let rep_iter := st.rep_iter - 1
  if rep_iter = 0 then
    let rep := if st.c = 127 then st.rep + 1 else st.rep
    { buffer := buffer, rep := rep, rep_iter := rep, c := (st.c + 1) % 127 }
  else
    { buffer := buffer, rep := st.rep, rep_iter := rep_iter, c := st.c }

/-- The loop `for (total = 0, ...; total < num_bytes; total++)`, as many
passes as the first argument says. -/
def generate_test_bytes_loop : Nat → GenState → GenState
  | 0, st => st
  | n + 1, st => generate_test_bytes_loop n (generate_test_bytes_step st)

/-- The variables of `generate_test_bytes (num_bytes, pool)` when its loop
ends; the loop makes no pass for `num_bytes <= 0`. -/
def generate_test_bytes_run (num_bytes : Int) : GenState :=
  generate_test_bytes_loop num_bytes.toNat { buffer := [], rep := 1, rep_iter := 1, c := 0 }

/-- The function `generate_test_bytes (num_bytes, pool)`: the bytes of the
returned string buffer. -/
def generate_test_bytes (num_bytes : Int) : List Nat :=
  (generate_test_bytes_run num_bytes).buffer

/-! ## expect_line_content and the checks of test_stream_buffered_wrapper -/

/-- The loop of `expect_line_content` over the bytes of the line, with the
variable `c`; `false` is a failed `SVN_TEST_ASSERT`. -/
def expect_line_content_loop : List Nat → Int → Bool
  | [], _ => true
  | x :: rest, c =>
    if (x : Int) = c + 1 then
      expect_line_content_loop rest (((c + 1).toNat &&& 0x3f : Nat) : Int)
    else false

/-- The function `expect_line_content (line, start, length)`: `true` is
`SVN_NO_ERROR`.  The length is asserted first, so the loop over
`i < length` runs over the bytes of the line. -/
def expect_line_content (line : List Nat) (start : Nat) (length : Nat) : Bool :=
  if line.length = length then expect_line_content_loop line ((start : Int) - 1) else false

/-- The lines of a byte sequence: the pieces between the newline bytes
(value 10); the last piece is the unterminated rest. -/
def lines_of (bytes : List Nat) : List (List Nat) :=
  bytes.splitOnP (fun b => b == 10)

/-- The checks in the reading loop of `test_stream_buffered_wrapper`, applied to
the lines in order; `read` counts the bytes consumed so far and the last
line is the one read with `eof` set. -/
def buffered_wrapper_checks (stream_length : Nat) : Nat → List (List Nat) → Bool
  | _, [] => true
  | read, [line] =>
    if read = 0 then expect_line_content line 1 (10 - 1)
    else expect_line_content line (10 + 1) (stream_length - read)
  | read, line :: next :: rest =>
    (if read = 0 then expect_line_content line 1 (10 - 1)
     else expect_line_content line (10 + 1) 63)
    && buffered_wrapper_checks stream_length (read + (line.length + 1)) (next :: rest)

/-- The bytes `off mod 64 + 1`, `(off + 1) mod 64 + 1`, ...: `n` bytes of the
cycle of the test stream, from offset `off` on. -/
def cycle_from (off n : Nat) : List Nat :=
  (List.range n).map (fun k => (off + k) % 64 + 1)

/-! ## Streams over a string buffer and test_stream_from_string -/

/-- Modelled from the spec: the stream `svn_stream_from_stringbuf` makes, which
is not part of the test file.  The spec calls a stream "an opaque
readable/writable byte channel"; over a string buffer that is the buffer
(`buf`) and the position of the next byte to read (`pos`). -/
structure stringbuf_stream where
  buf : List Nat
  pos : Nat
deriving DecidableEq, Repr

/-- Modelled from the spec: `svn_stream_from_stringbuf (str, pool)`, missing from
the sources: the byte channel over `str`, read from its first byte on. -/
def svn_stream_from_stringbuf (str : List Nat) : stringbuf_stream :=
  { buf := str, pos := 0 }

/-- Modelled from the spec: `svn_stream_read_full (stream, buffer, &len)`, missing
from the sources: the channel delivers the next `len` bytes, fewer only when
the buffer ends; the length of the chunk is the new `*len`. -/
def svn_stream_read_full (stream : stringbuf_stream) (len : Nat) :
    List Nat × stringbuf_stream :=
  let chunk := (stream.buf.drop stream.pos).take len
  (chunk, { stream with pos := stream.pos + chunk.length })

/-- Modelled from the spec: `svn_stream_write (stream, data, &len)`, missing from
the sources: the channel takes all `len` bytes and appends them to the
buffer. -/
def svn_stream_write (stream : stringbuf_stream) (data : List Nat) : stringbuf_stream :=
  { stream with buf := stream.buf ++ data }

/-- The constant `TEST_BUF_SIZE` of `test_stream_from_string`. -/
def TEST_BUF_SIZE : Nat := 10

/-- The reading loop of `test_stream_from_string`,
`while (len == TEST_BUF_SIZE) { read a chunk; append it to outbuf }`, for a
buffer of `buf_size` bytes: the final `outbuf`.  The first argument bounds the
number of passes; `none` means the bound was reached while the loop would go
on. -/
def read_test_loop (buf_size : Nat) :
    Nat → Nat → stringbuf_stream → List Nat → Option (List Nat)
  | 0, len, _, outbuf => if len = buf_size then none else some outbuf
  | fuel + 1, len, stream, outbuf =>
    if len = buf_size then
      let r := svn_stream_read_full stream len
      read_test_loop buf_size fuel r.1.length r.2 (outbuf ++ r.1)
    else some outbuf

/-- The writing loop of `test_stream_from_string`,
`while (amt_read < inbuf->len) { write a chunk of at most TEST_BUF_SIZE bytes }`,
for chunks of at most `buf_size` bytes: the stream afterwards.  The first
argument bounds the number of passes. -/
def write_test_loop (buf_size : Nat) (inbuf : List Nat) :
    Nat → Nat → stringbuf_stream → Option stringbuf_stream
  | 0, amt_read, stream => if amt_read < inbuf.length then none else some stream
  | fuel + 1, amt_read, stream =>
    if amt_read < inbuf.length then
      let len := if buf_size < inbuf.length - amt_read then buf_size
                 else inbuf.length - amt_read
      write_test_loop buf_size inbuf fuel (amt_read + len)
        (svn_stream_write stream ((inbuf.drop amt_read).take len))
    else some stream

end StreamTest

namespace Svnadmin

/-! ## Auxiliary lemmas -/

theorem Entry.induct3 (P : Entry → Prop) (Q : List Entry → Prop) (R : DirAnswer → Prop)
    (hmk : ∀ n a b c d, R d → P (.mk n a b c d))
    (hnil : Q []) (hcons : ∀ e es, P e → Q es → Q (e :: es))
    (herr : ∀ e, R (.error e)) (hok : ∀ es, Q es → R (.ok es)) :
    (∀ e, P e) ∧ (∀ es, Q es) ∧ (∀ d, R d) := by
  refine ⟨fun e => ?_, fun es => ?_, fun d => ?_⟩
  · exact @Entry.rec P R Q hmk herr (fun es h => hok es h) hnil
      (fun e es h1 h2 => hcons e es h1 h2) e
  · exact @Entry.rec_2 P R Q hmk herr (fun es h => hok es h) hnil
      (fun e es h1 h2 => hcons e es h1 h2) es
  · exact @Entry.rec_1 P R Q hmk herr (fun es h => hok es h) hnil
      (fun e es h1 h2 => hcons e es h1 h2) d

theorem join_nil : String.join [] = "" := rfl

theorem join_cons (s : String) (ss : List String) : String.join (s :: ss) = s ++ String.join ss := by
  apply String.ext
  simp [String.join_eq]

theorem join_append (a b : List String) : String.join (a ++ b) = String.join a ++ String.join b := by
  apply String.ext
  simp [String.join_eq]

theorem indent_data (i : Nat) : (indent i).data = List.replicate i ' ' := by
  induction i with
  | zero => rfl
  | succ n ih =>
    rw [indent, String.data_append, ih, List.replicate_succ]
    rfl

theorem loop_nil (path : String) (i : Nat) : print_tree_loop [] path i = ⟨"", [], none⟩ := by
  rw [print_tree_loop]

theorem loop_cons (e : Entry) (es : List Entry) (path : String) (i : Nat) :
    print_tree_loop (e :: es) path i =
      match (print_tree_body e path i).err with
      | some err => ⟨(print_tree_body e path i).stdout, (print_tree_body e path i).calls, some err⟩
      | none => ⟨(print_tree_body e path i).stdout ++ (print_tree_loop es path i).stdout,
                 (print_tree_body e path i).calls ++ (print_tree_loop es path i).calls,
                 (print_tree_loop es path i).err⟩ := by
  rw [print_tree_loop]

theorem tree_ok (es : List Entry) (path : String) (i : Nat) :
    print_tree (.ok es) path i =
      ⟨(print_tree_loop es path i).stdout,
       .svn_fs_dir_entries path :: (print_tree_loop es path i).calls,
       (print_tree_loop es path i).err⟩ := by
  rw [print_tree]

theorem tree_error (e : svn_error_t) (path : String) (i : Nat) :
    print_tree (.error e) path i = ⟨"", [.svn_fs_dir_entries path], some e⟩ := by
  rw [print_tree]

theorem body_file (n s : String) (L : Int) (sub : DirAnswer) (path : String) (i : Nat) :
    print_tree_body (.mk n (.ok s) (.ok false) (.ok L) sub) path i =
      ⟨indent i ++ n ++ (" <" ++ s ++ "> [" ++ toString L ++ "]\n"),
       [.svn_fs_node_id (path ++ "/" ++ n), .svn_fs_is_dir (path ++ "/" ++ n),
        .svn_fs_file_length (path ++ "/" ++ n)], none⟩ := by
  rw [print_tree_body]

theorem body_dir (n s : String) (len : Except svn_error_t Int) (sub : DirAnswer)
    (path : String) (i : Nat) :
    print_tree_body (.mk n (.ok s) (.ok true) len sub) path i =
      ⟨indent i ++ n ++ ("/ <" ++ s ++ ">\n") ++ (print_tree sub (path ++ "/" ++ n) (i + 1)).stdout,
       [.svn_fs_node_id (path ++ "/" ++ n), .svn_fs_is_dir (path ++ "/" ++ n)]
         ++ (print_tree sub (path ++ "/" ++ n) (i + 1)).calls, none⟩ := by
  rw [print_tree_body]

theorem body_err (e : Entry) (path : String) (i : Nat) :
    (print_tree_body e path i).err.isSome = e.fails := by
  match e with
  | .mk n (.error _) _ _ _ => rw [print_tree_body]; rfl
  | .mk n (.ok _) (.error _) _ _ => rw [print_tree_body]; rfl
  | .mk n (.ok _) (.ok false) (.error _) _ => rw [print_tree_body]; rfl
  | .mk n (.ok _) (.ok false) (.ok _) _ => rw [print_tree_body]; rfl
  | .mk n (.ok _) (.ok true) _ _ => rw [print_tree_body]; rfl

theorem loop_append (pre post : List Entry) (path : String) (i : Nat)
    (h : (print_tree_loop pre path i).err = none) :
    print_tree_loop (pre ++ post) path i =
      ⟨(print_tree_loop pre path i).stdout ++ (print_tree_loop post path i).stdout,
       (print_tree_loop pre path i).calls ++ (print_tree_loop post path i).calls,
       (print_tree_loop post path i).err⟩ := by
  induction pre with
  | nil => simp [loop_nil]
  | cons e es ih =>
    rw [List.cons_append, loop_cons, loop_cons] at *
    cases hb : (print_tree_body e path i).err with
    | some err => simp [hb] at h
    | none =>
      simp only [hb] at h ⊢
      rw [ih h]
      simp [String.append_assoc]

theorem stdout_reached_all :
    (∀ e : Entry, ∀ (k : Nat) (path : String) (i : Nat),
        (print_tree_body e path (i + k)).stdout
          = String.join ((reached_entry k e).map (line_at i))) ∧
    (∀ es : List Entry, ∀ (k : Nat) (path : String) (i : Nat),
        (print_tree_loop es path (i + k)).stdout
          = String.join ((reached_list k es).map (line_at i))) ∧
    (∀ d : DirAnswer, ∀ (k : Nat) (path : String) (i : Nat),
        (print_tree d path (i + k)).stdout
          = String.join ((reached_dir k d).map (line_at i))) := by
  apply Entry.induct3
  · intro n a b c d ih k path i
    cases a with
    | error ea =>
      rw [print_tree_body, reached_entry]; simp [join_cons, join_nil, line_at, Entry.text]
    | ok s =>
      cases b with
      | error eb =>
        rw [print_tree_body, reached_entry]; simp [join_cons, join_nil, line_at, Entry.text]
      | ok isd =>
        cases isd with
        | false =>
          cases c with
          | error ec =>
            rw [print_tree_body, reached_entry]
            simp [join_cons, join_nil, line_at, Entry.text]
          | ok len =>
            rw [print_tree_body, reached_entry]
            simp [join_cons, join_nil, line_at, Entry.text, String.append_assoc]
        | true =>
          rw [body_dir, reached_entry]
          have h := ih (k + 1) (path ++ "/" ++ n) i
          rw [← Nat.add_assoc] at h
          simp only [List.map_cons, join_cons, line_at, Entry.text]
          rw [h]
          simp [String.append_assoc, line_at]
  · intro k path i
    rw [loop_nil, reached_list]; rfl
  · intro e es ihe ihes k path i
    rw [loop_cons, reached_list, List.map_append, join_append, ← ihe k path i]
    have hb := body_err e path (i + k)
    cases hf : e.fails with
    | true =>
      rw [hf] at hb
      obtain ⟨err, herr⟩ := Option.isSome_iff_exists.mp hb
      simp [herr, join_nil]
    | false =>
      rw [hf] at hb
      have hnone : (print_tree_body e path (i + k)).err = none := by
        cases h : (print_tree_body e path (i + k)).err with
        | none => rfl
        | some x => rw [h] at hb; simp at hb
      simp [hnone, ihes k path i]
  · intro e k path i
    rw [tree_error, reached_dir]; rfl
  · intro es ih k path i
    rw [tree_ok, reached_dir]
    exact ih k path i

theorem chain_path_snoc (P : String) (pre : List String) (n : String) :
    chain_path P (pre ++ [n]) = chain_path P pre ++ "/" ++ n := by
  simp [chain_path, List.foldl_append]

theorem calls_chains_all (P : String) :
    (∀ e : Entry, ∀ (pre : List String) (i : Nat),
        (print_tree_body e (chain_path P pre) i).calls
          = (chains_entry pre e).flatMap (fun ce => entry_calls (chain_path P ce.1) ce.2)) ∧
    (∀ es : List Entry, ∀ (pre : List String) (i : Nat),
        (print_tree_loop es (chain_path P pre) i).calls
          = (chains_list pre es).flatMap (fun ce => entry_calls (chain_path P ce.1) ce.2)) ∧
    (∀ d : DirAnswer, ∀ (pre : List String) (i : Nat),
        (print_tree d (chain_path P pre) i).calls
          = .svn_fs_dir_entries (chain_path P pre) ::
            (chains_dir pre d).flatMap (fun ce => entry_calls (chain_path P ce.1) ce.2)) := by
  apply Entry.induct3
  · intro n a b c d ih pre i
    cases a with
    | error ea =>
      rw [print_tree_body, chains_entry]
      simp [entry_calls, chain_path_snoc]
    | ok s =>
      cases b with
      | error eb =>
        rw [print_tree_body, chains_entry]
        simp [entry_calls, chain_path_snoc]
      | ok isd =>
        cases isd with
        | false =>
          cases c with
          | error ec =>
            rw [print_tree_body, chains_entry]
            simp [entry_calls, chain_path_snoc]
          | ok len =>
            rw [print_tree_body, chains_entry]
            simp [entry_calls, chain_path_snoc]
        | true =>
          have h := ih (pre ++ [n]) (i + 1)
          rw [chain_path_snoc] at h
          rw [body_dir, chains_entry, h]
          simp [entry_calls, chain_path_snoc]
  · intro pre i
    rw [loop_nil, chains_list]; rfl
  · intro e es ihe ihes pre i
    rw [loop_cons, chains_list, List.flatMap_append, ← ihe pre i]
    have hb := body_err e (chain_path P pre) i
    cases hf : e.fails with
    | true =>
      rw [hf] at hb
      obtain ⟨err, herr⟩ := Option.isSome_iff_exists.mp hb
      simp [herr]
    | false =>
      rw [hf] at hb
      have hnone : (print_tree_body e (chain_path P pre) i).err = none := by
        cases h : (print_tree_body e (chain_path P pre) i).err with
        | none => rfl
        | some x => rw [h] at hb; simp at hb
      simp [hnone, ihes pre i]
  · intro e pre i
    rw [tree_error, chains_dir]; rfl
  · intro es ih pre i
    rw [tree_ok, chains_dir]
    simp [ih pre i]

theorem digitChar_ne_newline : ∀ d : Nat, d < 10 → Nat.digitChar d ≠ '\n' := by
  decide

theorem toDigitsCore_no_newline (fuel n : Nat) (acc : List Char) (h : '\n' ∉ acc) :
    '\n' ∉ Nat.toDigitsCore 10 fuel n acc := by
  induction fuel generalizing n acc with
  | zero => simpa [Nat.toDigitsCore] using h
  | succ f ih =>
    rw [Nat.toDigitsCore]
    have hacc : '\n' ∉ Nat.digitChar (n % 10) :: acc := by
      intro hm
      rcases List.mem_cons.mp hm with h1 | h1
      · exact digitChar_ne_newline _ (Nat.mod_lt n (by decide)) h1.symm
      · exact h h1
    split
    · exact hacc
    · exact ih _ _ hacc

theorem nat_repr_no_newline (n : Nat) : '\n' ∉ (toString n).data := by
  show '\n' ∉ (Nat.repr n).data
  unfold Nat.repr Nat.toDigits
  simpa [List.asString] using toDigitsCore_no_newline (n + 1) n [] (by simp)

theorem int_repr_no_newline (z : Int) : '\n' ∉ (toString z).data := by
  cases z with
  | ofNat n => exact nat_repr_no_newline n
  | negSucc n =>
    show '\n' ∉ ("-" ++ toString (n + 1)).data
    rw [String.data_append]
    intro hm
    rcases List.mem_append.mp hm with h1 | h1
    · simp at h1
    · exact nat_repr_no_newline _ h1

theorem indent_no_newline (i : Nat) : '\n' ∉ (indent i).data := by
  rw [indent_data]
  intro h
  have := List.eq_of_mem_replicate h
  revert this
  decide

theorem tree_entry_head (k : Nat) (n : String) (a : Except svn_error_t String)
    (b : Except svn_error_t Bool) (c : Except svn_error_t Int) (d : DirAnswer) :
    (k, Entry.mk n a b c d) ∈ tree_entry k (.mk n a b c d) := by
  cases b with
  | error eb => rw [tree_entry]; exact List.mem_cons_self _ _
  | ok isd => cases isd <;> (rw [tree_entry]; exact List.mem_cons_self _ _)

theorem reached_eq_tree_all :
    (∀ e : Entry, ∀ k : Nat, (∀ p ∈ tree_entry k e, p.2.answers_ok = true) →
        reached_entry k e = tree_entry k e ∧ e.fails = false) ∧
    (∀ es : List Entry, ∀ k : Nat, (∀ p ∈ tree_list k es, p.2.answers_ok = true) →
        reached_list k es = tree_list k es ∧
        ∀ (path : String) (i : Nat), (print_tree_loop es path i).err = none) ∧
    (∀ d : DirAnswer, ∀ k : Nat, d.isOk = true → (∀ p ∈ tree_dir k d, p.2.answers_ok = true) →
        reached_dir k d = tree_dir k d ∧
        ∀ (path : String) (i : Nat), (print_tree d path i).err = none) := by
  apply Entry.induct3
  · intro n a b c d ih k h
    have hself : (Entry.mk n a b c d).answers_ok = true :=
      h (k, .mk n a b c d) (tree_entry_head k n a b c d)
    cases a with
    | error ea => simp [Entry.answers_ok] at hself
    | ok s =>
      cases b with
      | error eb => simp [Entry.answers_ok] at hself
      | ok isd =>
        cases isd with
        | false =>
          cases c with
          | error ec => simp [Entry.answers_ok] at hself
          | ok len => rw [reached_entry, tree_entry]; exact ⟨rfl, rfl⟩
        | true =>
          cases d with
          | error ed => simp [Entry.answers_ok] at hself
          | ok sub =>
            have hsub : ∀ p ∈ tree_dir (k + 1) (.ok sub), p.2.answers_ok = true := by
              intro p hp
              apply h p
              rw [tree_entry]
              exact List.mem_cons_of_mem _ hp
            rw [reached_entry, tree_entry]
            refine ⟨?_, rfl⟩
            rw [(ih (k + 1) rfl hsub).1]
  · intro k _
    refine ⟨by rw [reached_list, tree_list], fun path i => by rw [loop_nil]⟩
  · intro e es ihe ihes k h
    have he := ihe k (fun p hp => h p (by rw [tree_list]; exact List.mem_append_left _ hp))
    have hes := ihes k (fun p hp => h p (by rw [tree_list]; exact List.mem_append_right _ hp))
    refine ⟨?_, fun path i => ?_⟩
    · rw [reached_list, tree_list, he.1, he.2, hes.1]; rfl
    · have hb := body_err e path i
      rw [he.2] at hb
      have hnone : (print_tree_body e path i).err = none := by
        cases hx : (print_tree_body e path i).err with
        | none => rfl
        | some x => rw [hx] at hb; simp at hb
      rw [loop_cons]
      simp [hnone, hes.2 path i]
  · intro e k h
    simp [Except.isOk, Except.toBool] at h
  · intro es ih k _ h
    have hes := ih k (fun p hp => h p (by rw [tree_dir]; exact hp))
    refine ⟨by rw [reached_dir, tree_dir]; exact hes.1, fun path i => ?_⟩
    rw [tree_ok]
    exact hes.2 path i

theorem line_one_newline (i : Nat) (p : Nat × Entry) (hok : p.2.answers_ok = true)
    (hn : '\n' ∉ p.2.name.data) (hs : '\n' ∉ p.2.id_str.data) :
    ∃ body : String, line_at i p = body ++ "\n" ∧ '\n' ∉ body.data := by
  obtain ⟨k, e⟩ := p
  match e, hok, hn, hs with
  | .mk n (.ok s) (.ok true) _ (.ok _), _, hn, hs =>
    refine ⟨indent (i + k) ++ n ++ "/ <" ++ s ++ ">", ?_, ?_⟩
    · simp [line_at, Entry.text, String.append_assoc]
    · have h1 := indent_no_newline (i + k)
      simp only [Entry.name, Entry.id_str] at hn hs
      simp [String.data_append, h1, hn, hs]
  | .mk n (.ok s) (.ok false) (.ok len) _, _, hn, hs =>
    refine ⟨indent (i + k) ++ n ++ " <" ++ s ++ "> [" ++ toString len ++ "]", ?_, ?_⟩
    · simp [line_at, Entry.text, String.append_assoc]
    · have h1 := indent_no_newline (i + k)
      have h2 := int_repr_no_newline len
      simp only [Entry.name, Entry.id_str] at hn hs
      simp [String.data_append, h1, h2, hn, hs]

theorem count_newline_join (lines : List String)
    (h : ∀ l ∈ lines, ∃ body : String, l = body ++ "\n" ∧ '\n' ∉ body.data) :
    (String.join lines).data.count '\n' = lines.length := by
  induction lines with
  | nil => rfl
  | cons l ls ih =>
    obtain ⟨body, hl, hb⟩ := h l (List.mem_cons_self _ _)
    have ih2 := ih (fun x hx => h x (List.mem_cons_of_mem _ hx))
    rw [join_cons, String.data_append, List.count_append, ih2, hl, String.data_append,
      List.count_append, List.count_eq_zero.mpr hb, List.length_cons]
    have h1 : List.count '\n' ("\n" : String).data = 1 := by decide
    omega

theorem line_at_eq (i : Nat) :
    line_at i = fun p => String.mk (List.replicate (i + p.1) ' ') ++ p.2.text := by
  funext p
  have h : indent (i + p.1) = String.mk (List.replicate (i + p.1) ' ') :=
    String.ext (indent_data _)
  rw [line_at, h]

/-! ## The listing format of print_tree -/

/-- C1: wherever the loop of `print_tree` reaches a file entry with name `n`,
id string `s` and byte length `L` (the earlier siblings returned no error), the
text written for the entry is the indentation followed by exactly `n`, one
space, `<s>`, one space, `[L]` in decimal and a newline; the output of the
later siblings follows it. -/
theorem print_tree_file_line (pre post : List Entry) (n s : String) (L : Nat)
    (sub : DirAnswer) (path : String) (i : Nat)
    (hpre : (print_tree_loop pre path i).err = none) :
    (print_tree_loop (pre ++ Entry.mk n (.ok s) (.ok false) (.ok (L : Int)) sub :: post)
        path i).stdout
      = (print_tree_loop pre path i).stdout
        ++ indent i ++ (n ++ " " ++ "<" ++ s ++ ">" ++ " " ++ "[" ++ toString L ++ "]" ++ "\n")
        ++ (print_tree_loop post path i).stdout := by
  rw [loop_append pre _ path i hpre, loop_cons, body_file]
  simp [String.append_assoc]
  rfl

/-- Witness of C1: the entry of the end-to-end scenario, `a.txt <id1> [5]`. -/
theorem print_tree_file_line_witness :
    (print_tree_loop [] "" 1).err = none ∧
    (print_tree_loop ([] ++ Entry.mk "a.txt" (.ok "id1") (.ok false) (.ok ((5 : Nat) : Int))
        (.ok []) :: []) "" 1).stdout
      = (print_tree_loop [] "" 1).stdout
        ++ indent 1
        ++ ("a.txt" ++ " " ++ "<" ++ "id1" ++ ">" ++ " " ++ "[" ++ toString 5 ++ "]" ++ "\n")
        ++ (print_tree_loop [] "" 1).stdout :=
  ⟨by decide, print_tree_file_line [] [] "a.txt" "id1" 5 (.ok []) "" 1 (by decide)⟩

/-- C2: wherever the loop of `print_tree` reaches a directory entry with name
`n` and id string `s`, the text written for the entry is the indentation
followed by exactly `n`, a slash, one space, `<s>` and a newline, whatever the
file-length query would answer; the listing of the directory and the
output of the later siblings follow it. -/
theorem print_tree_dir_line (pre post : List Entry) (n s : String)
    (len : Except svn_error_t Int) (sub : DirAnswer) (path : String) (i : Nat)
    (hpre : (print_tree_loop pre path i).err = none) :
    (print_tree_loop (pre ++ Entry.mk n (.ok s) (.ok true) len sub :: post) path i).stdout
      = (print_tree_loop pre path i).stdout
        ++ indent i ++ (n ++ "/" ++ " " ++ "<" ++ s ++ ">" ++ "\n")
        ++ (print_tree sub (path ++ "/" ++ n) (i + 1)).stdout
        ++ (print_tree_loop post path i).stdout := by
  rw [loop_append pre _ path i hpre, loop_cons, body_dir]
  simp [String.append_assoc]

/-- Witness of C2: an empty directory `trunk` with id `id2`. -/
theorem print_tree_dir_line_witness :
    (print_tree_loop [] "" 1).err = none ∧
    (print_tree_loop ([] ++ Entry.mk "trunk" (.ok "id2") (.ok true) (.ok 0) (.ok []) :: [])
        "" 1).stdout
      = (print_tree_loop [] "" 1).stdout
        ++ indent 1 ++ ("trunk" ++ "/" ++ " " ++ "<" ++ "id2" ++ ">" ++ "\n")
        ++ (print_tree (.ok []) ("" ++ "/" ++ "trunk") (1 + 1)).stdout
        ++ (print_tree_loop [] "" 1).stdout :=
  ⟨by decide, print_tree_dir_line [] [] "trunk" "id2" (.ok 0) (.ok []) "" 1 (by decide)⟩

/-- C3: when every filesystem query succeeds and no entry name or id string
holds a newline, `print_tree` returns no error and prints exactly one
newline-terminated line per entry of the whole tree: the output is the
concatenation of as many lines as the tree has entries at all depths, each
line ending in its only newline, so the output holds that many newlines. -/
theorem print_tree_one_line_per_entry (d : DirAnswer) (path : String) (i : Nat)
    (hok : queries_succeed d) (hnl : no_newline d) :
    (print_tree d path i).err = none ∧
    (print_tree d path i).stdout.data.count '\n' = entry_count d ∧
    ∃ lines : List String,
      (print_tree d path i).stdout = String.join lines ∧
      lines.length = entry_count d ∧
      ∀ l ∈ lines, ∃ body : String, l = body ++ "\n" ∧ '\n' ∉ body.data := by
  have h1 := stdout_reached_all.2.2 d 0 path i
  have h2 := reached_eq_tree_all.2.2 d 0 hok.1 hok.2
  rw [Nat.add_zero, h2.1] at h1
  have hlines : ∀ l ∈ (tree_dir 0 d).map (line_at i),
      ∃ body : String, l = body ++ "\n" ∧ '\n' ∉ body.data := by
    intro l hl
    obtain ⟨p, hp, rfl⟩ := List.mem_map.mp hl
    exact line_one_newline i p (hok.2 p hp) (hnl p hp).1 (hnl p hp).2
  refine ⟨h2.2 path i, ?_, (tree_dir 0 d).map (line_at i), h1, ?_, hlines⟩
  · rw [h1, count_newline_join _ hlines, List.length_map, entry_count]
  · rw [List.length_map, entry_count]

/-- Witness of C3: a tree of six entries on three levels. -/
theorem print_tree_one_line_per_entry_witness :
    (print_tree sample_root2 "" 1).err = none ∧
    (print_tree sample_root2 "" 1).stdout.data.count '\n' = entry_count sample_root2 ∧
    ∃ lines : List String,
      (print_tree sample_root2 "" 1).stdout = String.join lines ∧
      lines.length = entry_count sample_root2 ∧
      ∀ l ∈ lines, ∃ body : String, l = body ++ "\n" ∧ '\n' ∉ body.data :=
  print_tree_one_line_per_entry sample_root2 "" 1
    ⟨by decide, by decide⟩ (by unfold no_newline; decide)

/-- C4: in the output of `print_tree` started with indentation `i`, the text
of every entry reached at depth `k` (direct children have depth 0) comes
right after exactly `i + k` spaces, the lines following one another in the
order the entries are reached; and the blocks printed by `lsrevs` and
`lstxns` contain the listing of the root started with indentation 1. -/
theorem print_tree_indentation (d : DirAnswer) (path : String) (i : Nat) :
    (print_tree d path i).stdout
      = String.join ((reached_dir 0 d).map
          (fun p => String.mk (List.replicate (i + p.1) ' ') ++ p.2.text)) ∧
    (∀ (fs : svn_fs_t) (this : Int) (root : svn_fs_root_t) (date : String)
        (author log : Option String),
        fs.revision_root this = .ok root →
        fs.revision_prop this SVN_PROP_REVISION_DATE = .ok (some date) →
        fs.revision_prop this SVN_PROP_REVISION_AUTHOR = .ok author →
        fs.revision_prop this SVN_PROP_REVISION_LOG = .ok log →
        (lsrevs_body fs this).stdout
          = "Revision " ++ toString this ++ "\n"
            ++ ("Created: " ++ c_str date ++ "\n"
                ++ ("Author: " ++ c_str (author.getD "") ++ "\n")
                ++ ("Log (" ++ toString (log.getD "").length ++ " bytes):\n"
                    ++ c_str (log.getD "") ++ "\n")
                ++ "==========================================\n"
                ++ (print_tree root "" 1).stdout
                ++ "\n")) ∧
    (∀ (fs : svn_fs_t) (txn_name : String) (txn : svn_fs_txn_t) (root : svn_fs_root_t)
        (date : String) (author log : Option String),
        fs.open_txn txn_name = .ok txn →
        txn.txn_root = .ok root →
        txn.txn_prop SVN_PROP_REVISION_DATE = .ok (some date) →
        txn.txn_prop SVN_PROP_REVISION_AUTHOR = .ok author →
        txn.txn_prop SVN_PROP_REVISION_LOG = .ok log →
        (lstxns_body fs txn_name).stdout
          = "Txn " ++ txn_name ++ ":\n"
            ++ ("Created: " ++ c_str date ++ "\n"
                ++ ("Author: " ++ c_str (author.getD "") ++ "\n")
                ++ ("Log (" ++ toString (log.getD "").length ++ " bytes):\n"
                    ++ c_str (log.getD "") ++ "\n")
                ++ "==========================================\n"
                ++ (print_tree root "" 1).stdout
                ++ "\n")) := by
  refine ⟨?_, ?_, ?_⟩
  · have h := stdout_reached_all.2.2 d 0 path i
    rw [Nat.add_zero, line_at_eq] at h
    exact h
  · intro fs this root date author log h1 h2 h3 h4
    simp only [lsrevs_body, h1, h2, h3, h4, print_block_rest]
  · intro fs txn_name txn root date author log h0 h1 h2 h3 h4
    simp only [lstxns_body, h0, h1, h2, h3, h4, print_block_rest]

/-- C5: `print_tree` walks depth-first in pre-order.  Siblings are handled in
the order of enumeration.  For a directory among the entries listed, the
output of `print_tree` is: the lines of the earlier siblings and of what is
reached below them, then the line of the directory, then as one block the
lines of everything reached below the directory, and only then the lines of
the later siblings and of what is below them; each block holds one text per
entry reached, in pre-order, so nothing is left out.  The calls are ordered
the same way.  When every query succeeds the entries reached are all entries
of the tree, so the output is the lines of the whole tree in depth-first
pre-order, the descendants of the directory directly after its line. -/
theorem print_tree_preorder (pre post : List Entry) (n s : String)
    (len : Except svn_error_t Int) (sub : DirAnswer) (path : String) (i : Nat)
    (hpre : (print_tree_loop pre path i).err = none) :
    (∀ later : List Entry,
      (print_tree_loop (pre ++ later) path i).stdout
        = (print_tree_loop pre path i).stdout ++ (print_tree_loop later path i).stdout ∧
      (print_tree_loop (pre ++ later) path i).calls
        = (print_tree_loop pre path i).calls ++ (print_tree_loop later path i).calls) ∧
    (print_tree_loop (pre ++ Entry.mk n (.ok s) (.ok true) len sub :: post) path i).stdout
      = (print_tree_loop pre path i).stdout
        ++ (indent i ++ n ++ "/ <" ++ s ++ ">\n")
        ++ (print_tree sub (path ++ "/" ++ n) (i + 1)).stdout
        ++ (print_tree_loop post path i).stdout ∧
    (print_tree_loop (pre ++ Entry.mk n (.ok s) (.ok true) len sub :: post) path i).calls
      = (print_tree_loop pre path i).calls
        ++ [.svn_fs_node_id (path ++ "/" ++ n), .svn_fs_is_dir (path ++ "/" ++ n)]
        ++ (print_tree sub (path ++ "/" ++ n) (i + 1)).calls
        ++ (print_tree_loop post path i).calls ∧
    (print_tree (.ok (pre ++ Entry.mk n (.ok s) (.ok true) len sub :: post)) path i).stdout
      = String.join ((reached_list 0 pre).map (line_at i))
        ++ (indent i ++ n ++ "/ <" ++ s ++ ">\n")
        ++ String.join ((reached_dir 1 sub).map (line_at i))
        ++ String.join ((reached_list 0 post).map (line_at i)) ∧
    (print_tree (.ok (pre ++ Entry.mk n (.ok s) (.ok true) len sub :: post)) path i).calls
      = .svn_fs_dir_entries path
        :: ((chains_list [] pre).flatMap (fun ce => entry_calls (chain_path path ce.1) ce.2)
            ++ [.svn_fs_node_id (path ++ "/" ++ n), .svn_fs_is_dir (path ++ "/" ++ n),
                .svn_fs_dir_entries (path ++ "/" ++ n)]
            ++ (chains_dir [n] sub).flatMap (fun ce => entry_calls (chain_path path ce.1) ce.2)
            ++ (chains_list [] post).flatMap
                (fun ce => entry_calls (chain_path path ce.1) ce.2)) ∧
    (queries_succeed (.ok (pre ++ Entry.mk n (.ok s) (.ok true) len sub :: post)) →
      tree_dir 0 (.ok (pre ++ Entry.mk n (.ok s) (.ok true) len sub :: post))
        = tree_list 0 pre ++ (0, Entry.mk n (.ok s) (.ok true) len sub) :: tree_dir 1 sub
          ++ tree_list 0 post ∧
      (print_tree (.ok (pre ++ Entry.mk n (.ok s) (.ok true) len sub :: post)) path i).stdout
        = String.join ((tree_list 0 pre).map (line_at i))
          ++ (indent i ++ n ++ "/ <" ++ s ++ ">\n")
          ++ String.join ((tree_dir 1 sub).map (line_at i))
          ++ String.join ((tree_list 0 post).map (line_at i)) ∧
      (print_tree (.ok (pre ++ Entry.mk n (.ok s) (.ok true) len sub :: post)) path i).stdout
        = String.join
            ((tree_dir 0 (.ok (pre ++ Entry.mk n (.ok s) (.ok true) len sub :: post))).map
              (line_at i))) := by
  have hsplit : (print_tree_loop (pre ++ Entry.mk n (.ok s) (.ok true) len sub :: post)
        path i).stdout
      = (print_tree_loop pre path i).stdout
        ++ (indent i ++ n ++ "/ <" ++ s ++ ">\n")
        ++ (print_tree sub (path ++ "/" ++ n) (i + 1)).stdout
        ++ (print_tree_loop post path i).stdout := by
    rw [loop_append pre _ path i hpre, loop_cons, body_dir]
    simp [String.append_assoc]
  have hcalls : (print_tree_loop (pre ++ Entry.mk n (.ok s) (.ok true) len sub :: post)
        path i).calls
      = (print_tree_loop pre path i).calls
        ++ [.svn_fs_node_id (path ++ "/" ++ n), .svn_fs_is_dir (path ++ "/" ++ n)]
        ++ (print_tree sub (path ++ "/" ++ n) (i + 1)).calls
        ++ (print_tree_loop post path i).calls := by
    rw [loop_append pre _ path i hpre, loop_cons, body_dir]
    simp [List.append_assoc]
  have hlines : (print_tree (.ok (pre ++ Entry.mk n (.ok s) (.ok true) len sub :: post))
        path i).stdout
      = String.join ((reached_list 0 pre).map (line_at i))
        ++ (indent i ++ n ++ "/ <" ++ s ++ ">\n")
        ++ String.join ((reached_dir 1 sub).map (line_at i))
        ++ String.join ((reached_list 0 post).map (line_at i)) := by
    rw [tree_ok]
    show (print_tree_loop (pre ++ Entry.mk n (.ok s) (.ok true) len sub :: post) path i).stdout
      = _
    rw [hsplit, ← stdout_reached_all.2.1 pre 0 path i, ← stdout_reached_all.2.1 post 0 path i,
      ← stdout_reached_all.2.2 sub 1 (path ++ "/" ++ n) i]
    rfl
  refine ⟨fun later => ?_, hsplit, hcalls, hlines, ?_, fun hok => ?_⟩
  · rw [loop_append pre later path i hpre]
    exact ⟨rfl, rfl⟩
  · rw [tree_ok]
    show FsCall.svn_fs_dir_entries path
        :: (print_tree_loop (pre ++ Entry.mk n (.ok s) (.ok true) len sub :: post) path i).calls
      = _
    have h1 := (calls_chains_all path).2.1 pre [] i
    have h2 := (calls_chains_all path).2.1 post [] i
    have h3 := (calls_chains_all path).2.2 sub [n] (i + 1)
    have hp : chain_path path [] = path := rfl
    have hp2 : chain_path path [n] = path ++ "/" ++ n := rfl
    rw [hp] at h1 h2
    rw [hp2] at h3
    rw [hcalls, h1, h2, h3]
    simp [List.append_assoc]
  · have hall := hok.2
    rw [tree_dir] at hall
    have happ : ∀ (a b : List Entry) (k : Nat), tree_list k (a ++ b)
        = tree_list k a ++ tree_list k b := by
      intro a b k
      induction a with
      | nil => rw [List.nil_append, tree_list, List.nil_append]
      | cons e es ih => rw [List.cons_append, tree_list, tree_list, ih, List.append_assoc]
    have hshape : tree_list 0 (pre ++ Entry.mk n (.ok s) (.ok true) len sub :: post)
        = tree_list 0 pre ++ (0, Entry.mk n (.ok s) (.ok true) len sub) :: tree_dir 1 sub
          ++ tree_list 0 post := by
      rw [happ, tree_list, tree_entry]
      simp
    have hpre2 : ∀ p ∈ tree_list 0 pre, p.2.answers_ok = true :=
      fun p hp => hall p (by rw [hshape]; simp [hp])
    have hpost2 : ∀ p ∈ tree_list 0 post, p.2.answers_ok = true :=
      fun p hp => hall p (by rw [hshape]; simp [hp])
    have hsub2 : ∀ p ∈ tree_dir 1 sub, p.2.answers_ok = true :=
      fun p hp => hall p (by rw [hshape]; simp [hp])
    have hself : (Entry.mk n (.ok s) (.ok true) len sub).answers_ok = true :=
      hall (0, Entry.mk n (.ok s) (.ok true) len sub) (by rw [hshape]; simp)
    have hsubok : sub.isOk = true := by
      cases sub with
      | error e => simp [Entry.answers_ok] at hself
      | ok es => rfl
    have e1 := (reached_eq_tree_all.2.1 pre 0 hpre2).1
    have e2 := (reached_eq_tree_all.2.1 post 0 hpost2).1
    have e3 := (reached_eq_tree_all.2.2 sub 1 hsubok hsub2).1
    have hfull : (print_tree (.ok (pre ++ Entry.mk n (.ok s) (.ok true) len sub :: post))
          path i).stdout
        = String.join ((tree_list 0 pre).map (line_at i))
          ++ (indent i ++ n ++ "/ <" ++ s ++ ">\n")
          ++ String.join ((tree_dir 1 sub).map (line_at i))
          ++ String.join ((tree_list 0 post).map (line_at i)) := by
      rw [hlines, e1, e2, e3]
    refine ⟨by rw [tree_dir]; exact hshape, hfull, ?_⟩
    rw [hfull, tree_dir, hshape]
    simp only [List.map_append, List.map_cons, join_append, join_cons, line_at, Entry.text,
      Nat.add_zero]
    simp [String.append_assoc]

/-- Witness of C4: the listing of `sample_root2`, and the blocks of revision 1
and of the transaction `2` of the sample repository. -/
theorem print_tree_indentation_witness :
    (print_tree sample_root2 "" 1).stdout
      = String.join ((reached_dir 0 sample_root2).map
          (fun p => String.mk (List.replicate (1 + p.1) ' ') ++ p.2.text)) ∧
    (lsrevs_body sample_fs 1).stdout
      = "Revision " ++ toString (1 : Int) ++ "\n"
        ++ ("Created: " ++ c_str "d1" ++ "\n"
            ++ ("Author: " ++ c_str ((some "jrandom").getD "") ++ "\n")
            ++ ("Log (" ++ toString ((some "add a.txt").getD "").length ++ " bytes):\n"
                ++ c_str ((some "add a.txt").getD "") ++ "\n")
            ++ "==========================================\n"
            ++ (print_tree sample_root1 "" 1).stdout
            ++ "\n") ∧
    (lstxns_body sample_fs "2").stdout
      = "Txn " ++ "2" ++ ":\n"
        ++ ("Created: " ++ c_str "d2" ++ "\n"
            ++ ("Author: " ++ c_str ((none : Option String).getD "") ++ "\n")
            ++ ("Log (" ++ toString ((none : Option String).getD "").length ++ " bytes):\n"
                ++ c_str ((none : Option String).getD "") ++ "\n")
            ++ "==========================================\n"
            ++ (print_tree sample_root2 "" 1).stdout
            ++ "\n") :=
  ⟨(print_tree_indentation sample_root2 "" 1).1,
   (print_tree_indentation sample_root2 "" 1).2.1 sample_fs 1 sample_root1 "d1"
      (some "jrandom") (some "add a.txt") rfl rfl rfl rfl,
   (print_tree_indentation sample_root2 "" 1).2.2 sample_fs "2" sample_txn sample_root2 "d2"
      none none rfl rfl rfl rfl rfl⟩

/-- Witness of C5: the directory `trunk` between the files `a.txt` and `z`:
the line of `trunk`, then the line of `b.c` beneath it, then the line of `z`. -/
theorem print_tree_preorder_witness :
    (print_tree_loop [sample_file "a.txt" "id1" 5] "" 1).err = none ∧
    (print_tree_loop ([sample_file "a.txt" "id1" 5]
        ++ Entry.mk "trunk" (.ok "id2") (.ok true) (.ok 0) (.ok [sample_file "b.c" "id3" 12])
          :: [sample_file "z" "id6" 7]) "" 1).stdout
      = (print_tree_loop [sample_file "a.txt" "id1" 5] "" 1).stdout
        ++ (indent 1 ++ "trunk" ++ "/ <" ++ "id2" ++ ">\n")
        ++ (print_tree (.ok [sample_file "b.c" "id3" 12]) ("" ++ "/" ++ "trunk") (1 + 1)).stdout
        ++ (print_tree_loop [sample_file "z" "id6" 7] "" 1).stdout ∧
    (print_tree (.ok ([sample_file "a.txt" "id1" 5]
        ++ Entry.mk "trunk" (.ok "id2") (.ok true) (.ok 0) (.ok [sample_file "b.c" "id3" 12])
          :: [sample_file "z" "id6" 7])) "" 1).stdout
      = String.join ((reached_list 0 [sample_file "a.txt" "id1" 5]).map (line_at 1))
        ++ (indent 1 ++ "trunk" ++ "/ <" ++ "id2" ++ ">\n")
        ++ String.join ((reached_dir 1 (.ok [sample_file "b.c" "id3" 12])).map (line_at 1))
        ++ String.join ((reached_list 0 [sample_file "z" "id6" 7]).map (line_at 1)) ∧
    (print_tree (.ok ([sample_file "a.txt" "id1" 5]
        ++ Entry.mk "trunk" (.ok "id2") (.ok true) (.ok 0) (.ok [sample_file "b.c" "id3" 12])
          :: [sample_file "z" "id6" 7])) "" 1).stdout
      = " a.txt <id1> [5]\n trunk/ <id2>\n  b.c <id3> [12]\n z <id6> [7]\n" ∧
    (print_tree (.ok ([sample_file "a.txt" "id1" 5]
        ++ Entry.mk "trunk" (.ok "id2") (.ok true) (.ok 0) (.ok [sample_file "b.c" "id3" 12])
          :: [sample_file "z" "id6" 7])) "" 1).calls
      = [.svn_fs_dir_entries "",
         .svn_fs_node_id "/a.txt", .svn_fs_is_dir "/a.txt", .svn_fs_file_length "/a.txt",
         .svn_fs_node_id "/trunk", .svn_fs_is_dir "/trunk", .svn_fs_dir_entries "/trunk",
         .svn_fs_node_id "/trunk/b.c", .svn_fs_is_dir "/trunk/b.c",
         .svn_fs_file_length "/trunk/b.c",
         .svn_fs_node_id "/z", .svn_fs_is_dir "/z", .svn_fs_file_length "/z"] ∧
    queries_succeed (.ok ([sample_file "a.txt" "id1" 5]
        ++ Entry.mk "trunk" (.ok "id2") (.ok true) (.ok 0) (.ok [sample_file "b.c" "id3" 12])
          :: [sample_file "z" "id6" 7])) ∧
    (print_tree (.ok ([sample_file "a.txt" "id1" 5]
        ++ Entry.mk "trunk" (.ok "id2") (.ok true) (.ok 0) (.ok [sample_file "b.c" "id3" 12])
          :: [sample_file "z" "id6" 7])) "" 1).stdout
      = String.join
          ((tree_dir 0 (.ok ([sample_file "a.txt" "id1" 5]
              ++ Entry.mk "trunk" (.ok "id2") (.ok true) (.ok 0)
                  (.ok [sample_file "b.c" "id3" 12])
                :: [sample_file "z" "id6" 7]))).map (line_at 1)) :=
  have hok : queries_succeed (.ok ([sample_file "a.txt" "id1" 5]
      ++ Entry.mk "trunk" (.ok "id2") (.ok true) (.ok 0) (.ok [sample_file "b.c" "id3" 12])
        :: [sample_file "z" "id6" 7])) := ⟨by decide, by decide⟩
  ⟨by decide,
   (print_tree_preorder [sample_file "a.txt" "id1" 5] [sample_file "z" "id6" 7] "trunk" "id2"
      (.ok 0) (.ok [sample_file "b.c" "id3" 12]) "" 1 (by decide)).2.1,
   (print_tree_preorder [sample_file "a.txt" "id1" 5] [sample_file "z" "id6" 7] "trunk" "id2"
      (.ok 0) (.ok [sample_file "b.c" "id3" 12]) "" 1 (by decide)).2.2.2.1,
   by decide, by decide, hok,
   ((print_tree_preorder [sample_file "a.txt" "id1" 5] [sample_file "z" "id6" 7] "trunk" "id2"
      (.ok 0) (.ok [sample_file "b.c" "id3" 12]) "" 1 (by decide)).2.2.2.2.2 hok).2.2⟩

/-- The listing of the end-to-end scenario of the specification. -/
theorem sample_root1_listing :
    (print_tree sample_root1 "" 1).stdout = " a.txt <id1> [5]\n" := by decide

/-- The listing of a tree with three levels. -/
theorem sample_root2_listing :
    (print_tree sample_root2 "" 1).stdout
      = " a.txt <id1> [5]\n trunk/ <id2>\n  b.c <id3> [12]\n  doc/ <id4>\n   README <id5> [0]\n z <id6> [7]\n" := by
  decide

/-! ## Lemmas about lsrevs -/

theorem main_lsrevs_eq (w : World) (prog path : String) (rest : List String) :
    main w (prog :: "lsrevs" :: path :: rest) =
      match w.repos_open path with
      | .error err => goto_error w "" [.svn_repos_open path] err
      | .ok fs => main_lsrevs w fs [.svn_repos_open path] (rest.get? 0) (rest.get? 1) := by
  simp [main]

/-! ## The value atoi reads -/

theorem digitChar_digit : ∀ k : Nat, k < 10 →
    (Nat.digitChar k).isDigit = true ∧ (((Nat.digitChar k).toNat : Int) - 48 = (k : Int)) ∧
    isspace (Nat.digitChar k) = false ∧ Nat.digitChar k ≠ '-' ∧ Nat.digitChar k ≠ '+' := by
  decide

theorem toDigitsCore_value (fuel : Nat) : ∀ (n : Nat) (acc : List Char), n < fuel →
    ∃ ds : List Char, Nat.toDigitsCore 10 fuel n acc = ds ++ acc ∧
      (∃ k : Nat, k < 10 ∧ ds.head? = some (Nat.digitChar k)) ∧
      ∀ (a : Int) (rest : List Char),
        atoi_digits (ds ++ rest) a = atoi_digits rest (a * 10 ^ ds.length + (n : Int)) := by
  induction fuel with
  | zero => intro n acc h; exact absurd h (Nat.not_lt_zero _)
  | succ f ih =>
    intro n acc h
    have hd := digitChar_digit (n % 10) (Nat.mod_lt _ (by decide))
    rw [Nat.toDigitsCore]
    by_cases h0 : n / 10 = 0
    · simp only [h0, if_true]
      refine ⟨[Nat.digitChar (n % 10)], rfl, ⟨n % 10, Nat.mod_lt _ (by decide), rfl⟩, ?_⟩
      intro a rest
      have hn : n % 10 = n := by omega
      rw [List.singleton_append, atoi_digits, if_pos hd.1, hd.2.1, hn]
      simp
    · simp only [h0, if_false]
      obtain ⟨ds, hds, hhead, hval⟩ := ih (n / 10) (Nat.digitChar (n % 10) :: acc) (by omega)
      refine ⟨ds ++ [Nat.digitChar (n % 10)], by rw [hds]; simp, ?_, ?_⟩
      · obtain ⟨k, hk, hk2⟩ := hhead
        refine ⟨k, hk, ?_⟩
        cases ds with
        | nil => simp at hk2
        | cons c cs => simpa using hk2
      · intro a rest
        rw [List.append_assoc, hval, List.singleton_append, atoi_digits, if_pos hd.1, hd.2.1,
          List.length_append, List.length_singleton, pow_succ]
        congr 1
        have : ((n / 10 : Nat) : Int) * 10 + ((n % 10 : Nat) : Int) = (n : Int) := by omega
        push_cast at this ⊢
        linarith

theorem nat_repr_value (n : Nat) :
    ∃ ds : List Char, (Nat.repr n).data = ds ∧
      (∃ k : Nat, k < 10 ∧ ds.head? = some (Nat.digitChar k)) ∧
      atoi_digits ds 0 = (n : Int) := by
  obtain ⟨ds, hds, hhead, hval⟩ := toDigitsCore_value (n + 1) n [] (Nat.lt_succ_self n)
  refine ⟨ds, ?_, hhead, ?_⟩
  · unfold Nat.repr Nat.toDigits
    rw [hds]
    simp [List.asString]
  · have h := hval 0 []
    rw [List.append_nil] at h
    rw [h]
    simp [atoi_digits]

theorem to_int_in_range (v : Int) (h1 : INT_MIN ≤ v) (h2 : v ≤ INT_MAX) : to_int v = v := by
  unfold INT_MIN at h1
  unfold INT_MAX at h2
  unfold to_int
  omega

theorem atoi_decimal (v : Int) (h1 : INT_MIN ≤ v) (h2 : v ≤ INT_MAX) :
    atoi (toString v) = v := by
  have hr1 : INT_MIN ≤ v := h1
  have hr2 : v ≤ INT_MAX := h2
  unfold INT_MIN at h1
  unfold INT_MAX at h2
  cases v with
  | ofNat n =>
    obtain ⟨ds, hds, ⟨k, hk, hhead⟩, hval⟩ := nat_repr_value n
    have hd := digitChar_digit k hk
    have hdata : (toString (Int.ofNat n)).data = ds := hds
    cases ds with
    | nil => simp at hhead
    | cons c cs =>
      have hc : c = Nat.digitChar k := by simpa using hhead
      have hsp : isspace c = false := by rw [hc]; exact hd.2.2.1
      have hm : c ≠ '-' := by rw [hc]; exact hd.2.2.2.1
      have hp : c ≠ '+' := by rw [hc]; exact hd.2.2.2.2
      have hs : strtol (toString (Int.ofNat n)) = (n : Int) := by
        unfold strtol
        rw [hdata, List.dropWhile_cons_of_neg (by simp [hsp])]
        have hv : (match c :: cs with
            | '-' :: ds => - atoi_digits ds 0
            | '+' :: ds => atoi_digits ds 0
            | ds => atoi_digits ds 0) = (n : Int) := by
          split
          · rename_i heq; exact absurd (List.cons.inj heq).1 hm
          · rename_i heq; exact absurd (List.cons.inj heq).1 hp
          · exact hval
        simp only [hv]
        unfold LONG_MAX LONG_MIN
        have : (Int.ofNat n) = (n : Int) := rfl
        rw [this] at h2
        rw [if_neg (by omega), if_neg (by omega)]
      rw [atoi, hs]
      exact to_int_in_range _ hr1 hr2
  | negSucc m =>
    obtain ⟨ds, hds, _, hval⟩ := nat_repr_value (m + 1)
    have hdata : (toString (Int.negSucc m)).data = '-' :: ds := by
      show ("-" ++ Nat.repr (m + 1)).data = '-' :: ds
      rw [String.data_append, hds]
      rfl
    have hs : strtol (toString (Int.negSucc m)) = Int.negSucc m := by
      unfold strtol
      rw [hdata, List.dropWhile_cons_of_neg (by decide)]
      simp only [hval]
      unfold LONG_MAX LONG_MIN
      have e : Int.negSucc m = -((m : Int) + 1) := Int.negSucc_eq m
      rw [e] at h1
      rw [if_neg (by push_cast; omega), if_neg (by push_cast; omega), e]
      push_cast
      ring
    rw [atoi, hs]
    exact to_int_in_range _ hr1 hr2

theorem lsrevs_body_listable (fs : svn_fs_t) (r : Int) (h : revision_listable fs r) :
    (lsrevs_body fs r).outcome = .next ∧
    ∃ rest : String, (lsrevs_body fs r).stdout = "Revision " ++ toString r ++ "\n" ++ rest := by
  obtain ⟨⟨root, h1⟩, ⟨date, h2⟩, ⟨author, h3⟩, ⟨log, h4⟩⟩ := h
  refine ⟨?_, ?_⟩
  · simp only [lsrevs_body, h1, h2, h3, h4]
  · simp only [lsrevs_body, h1, h2, h3, h4]
    exact ⟨_, rfl⟩

theorem revision_blocks_zero (fs : svn_fs_t) (lower : Int) : revision_blocks fs lower 0 = "" := rfl

theorem revision_blocks_succ (fs : svn_fs_t) (lower : Int) (n : Nat) :
    revision_blocks fs lower (n + 1)
      = (lsrevs_body fs lower).stdout ++ revision_blocks fs (lower + 1) n := by
  unfold revision_blocks
  rw [List.range_succ_eq_map, List.map_cons, join_cons, List.map_map]
  have hf : ((fun (k : Nat) => (lsrevs_body fs (lower + (k : Int))).stdout) ∘ Nat.succ)
      = fun (k : Nat) => (lsrevs_body fs (lower + 1 + (k : Int))).stdout := by
    funext k
    have e : lower + ((Nat.succ k : Nat) : Int) = lower + 1 + (k : Int) := by
      push_cast; ring
    simp only [Function.comp, e]
  rw [hf]
  simp

theorem lsrevs_loop_listable (fs : svn_fs_t) (upper : Int) (n : Nat) :
    ∀ lower : Int, upper + 1 = lower + n →
      (∀ k : Nat, k < n → revision_listable fs (lower + k)) →
      (lsrevs_loop fs upper n lower).stdout = revision_blocks fs lower n ∧
      (lsrevs_loop fs upper n lower).outcome = .next := by
  induction n with
  | zero => intro lower _ _; exact ⟨rfl, rfl⟩
  | succ m ih =>
    intro lower hu hl
    have hle : lower ≤ upper := by push_cast at hu; omega
    have h0 := lsrevs_body_listable fs lower (by simpa using hl 0 (Nat.succ_pos m))
    have hrec := ih (lower + 1) (by push_cast at hu; omega) (fun k hk => by
      have := hl (k + 1) (Nat.succ_lt_succ hk)
      have e : lower + ((k + 1 : Nat) : Int) = lower + 1 + (k : Int) := by push_cast; ring
      rwa [e] at this)
    rw [lsrevs_loop, if_pos hle]
    simp only [h0.1]
    exact ⟨by rw [hrec.1, revision_blocks_succ], hrec.2⟩

theorem lsrevs_loop_fuel (fs : svn_fs_t) (upper : Int) (fuel : Nat) :
    ∀ this : Int, (upper + 1 - this).toNat ≤ fuel →
      lsrevs_loop fs upper fuel this = lsrevs_loop fs upper (upper + 1 - this).toNat this := by
  induction fuel with
  | zero =>
    intro this h
    rw [Nat.le_zero.mp h]
  | succ f ih =>
    intro this h
    by_cases hle : this ≤ upper
    · obtain ⟨m, hm⟩ : ∃ m, (upper + 1 - this).toNat = m + 1 := ⟨(upper - this).toNat, by omega⟩
      have hm2 : (upper + 1 - (this + 1)).toNat = m := by omega
      conv_lhs => rw [lsrevs_loop, if_pos hle, ih (this + 1) (by omega), hm2]
      rw [hm, lsrevs_loop, if_pos hle]
    · have hz : (upper + 1 - this).toNat = 0 := by omega
      conv_lhs => rw [lsrevs_loop, if_neg hle]
      rw [hz, lsrevs_loop]

theorem after_loop_next (w : World) (fs : svn_fs_t) (pre : List FsCall) (r : BlockRun)
    (hr : r.outcome = .next) (hclose : fs.close_fs = none) :
    after_loop w fs pre r = ⟨r.stdout, "", pre ++ r.calls ++ [.svn_fs_close_fs], .exit EXIT_SUCCESS⟩ := by
  simp [after_loop, hr, close_and_return, hclose]

theorem after_loop_error (w : World) (fs : svn_fs_t) (pre : List FsCall) (r : BlockRun)
    (err : svn_error_t) (hr : r.outcome = .error err) :
    after_loop w fs pre r = ⟨r.stdout, w.handle_error err, pre ++ r.calls, .exit EXIT_FAILURE⟩ := by
  simp [after_loop, hr, goto_error]

theorem main_lsrevs_no_arg (w : World) (fs : svn_fs_t) (pre : List FsCall) (y : Int)
    (hy : fs.youngest_rev = .ok y) :
    main_lsrevs w fs pre none none
      = after_loop w fs (pre ++ [.svn_fs_youngest_rev]) (lsrevs_loop fs y (y + 1).toNat 0) := by
  simp [main_lsrevs, hy]

theorem main_lsrevs_lower (w : World) (fs : svn_fs_t) (pre : List FsCall) (a3 : String)
    (h : atoi a3 ≠ -1) :
    main_lsrevs w fs pre (some a3) none
      = after_loop w fs pre (lsrevs_loop fs (atoi a3) 1 (atoi a3)) := by
  simp [main_lsrevs, SVN_INVALID_REVNUM, h]

theorem main_lsrevs_range (w : World) (fs : svn_fs_t) (pre : List FsCall) (a3 a4 : String)
    (h3 : atoi a3 ≠ -1) (h4 : atoi a4 ≠ -1) :
    main_lsrevs w fs pre (some a3) (some a4)
      = after_loop w fs pre
          (lsrevs_loop fs (atoi a4) (atoi a4 + 1 - atoi a3).toNat (atoi a3)) := by
  simp [main_lsrevs, SVN_INVALID_REVNUM, h3, h4]

theorem sample_fs_listable (r : Nat) (hr : r ≤ 1) : revision_listable sample_fs r := by
  interval_cases r
  · exact ⟨⟨_, rfl⟩, ⟨_, rfl⟩, ⟨_, rfl⟩, ⟨_, rfl⟩⟩
  · exact ⟨⟨_, rfl⟩, ⟨_, rfl⟩, ⟨_, rfl⟩, ⟨_, rfl⟩⟩

/-! ## The revisions lsrevs prints -/

/-- C6: `lsrevs` without a revision argument, when every filesystem call
succeeds (the repository opens, the youngest revision `y` is read, for every
revision `0 .. y` the root opens and the three properties are read, the date
being set, and the filesystem closes): the output is the block of
revision 0, then of revision 1, ..., then of revision `y` (`y + 1` blocks,
each starting with its own `Revision r` line), and the exit status is
success. -/
theorem lsrevs_no_argument (w : World) (prog path : String) (fs : svn_fs_t) (y : Nat)
    (hopen : w.repos_open path = .ok fs)
    (hy : fs.youngest_rev = .ok (y : Int))
    (hrev : ∀ r : Nat, r ≤ y → revision_listable fs r)
    (hclose : fs.close_fs = none) :
    (main w [prog, "lsrevs", path]).stdout
      = String.join ((List.range (y + 1)).map
          (fun (r : Nat) => (lsrevs_body fs (r : Int)).stdout)) ∧
    (∀ r : Nat, r ≤ y →
      (lsrevs_body fs r).outcome = .next ∧
      ∃ rest : String,
        (lsrevs_body fs r).stdout = "Revision " ++ toString r ++ "\n" ++ rest) ∧
    (main w [prog, "lsrevs", path]).status = .exit EXIT_SUCCESS := by
  have hloop := lsrevs_loop_listable fs y (y + 1) 0 (by push_cast; ring)
    (fun k hk => by simpa using hrev k (by omega))
  have hfuel : ((y : Int) + 1).toNat = y + 1 := by omega
  rw [main_lsrevs_eq, hopen]
  simp only [List.get?]
  rw [main_lsrevs_no_arg w fs _ y hy, hfuel, after_loop_next w fs _ _ hloop.2 hclose]
  refine ⟨?_, fun r hr => lsrevs_body_listable fs r (hrev r hr), rfl⟩
  simp only [hloop.1, revision_blocks, Int.zero_add]

/-- Witness of C6: the sample repository with youngest revision 1. -/
theorem lsrevs_no_argument_witness :
    (main sample_world ["svnadmin", "lsrevs", "repo"]).stdout
      = String.join ((List.range (1 + 1)).map
          (fun (r : Nat) => (lsrevs_body sample_fs (r : Int)).stdout)) ∧
    (∀ r : Nat, r ≤ 1 →
      (lsrevs_body sample_fs r).outcome = .next ∧
      ∃ rest : String,
        (lsrevs_body sample_fs r).stdout = "Revision " ++ toString r ++ "\n" ++ rest) ∧
    (main sample_world ["svnadmin", "lsrevs", "repo"]).status = .exit EXIT_SUCCESS :=
  lsrevs_no_argument sample_world "svnadmin" "repo" sample_fs 1 rfl rfl
    sample_fs_listable rfl

/-- C7: `lsrevs` with only LOWER_REV, whose value `L` is non-negative and
does not exceed the youngest revision `y` (the repository opens and closes;
for every revision `0 .. y` the root opens and the three properties are read,
the date being set): the output is exactly the block of revision `L`, which
starts with the line `Revision L`, and the exit status is success. -/
theorem lsrevs_lower_only (w : World) (prog path a3 : String) (fs : svn_fs_t) (y L : Nat)
    (hopen : w.repos_open path = .ok fs)
    (_hy : fs.youngest_rev = .ok (y : Int))
    (hrev : ∀ r : Nat, r ≤ y → revision_listable fs r)
    (hclose : fs.close_fs = none)
    (hL : atoi a3 = (L : Int)) (hLy : L ≤ y) :
    (main w [prog, "lsrevs", path, a3]).stdout = (lsrevs_body fs (L : Int)).stdout ∧
    (∃ rest : String,
      (lsrevs_body fs (L : Int)).stdout = "Revision " ++ toString L ++ "\n" ++ rest) ∧
    (main w [prog, "lsrevs", path, a3]).status = .exit EXIT_SUCCESS := by
  have hloop := lsrevs_loop_listable fs L 1 L (by push_cast; ring)
    (fun k hk => by
      have hk0 : k = 0 := by omega
      subst hk0
      simpa using hrev L hLy)
  have hne : atoi a3 ≠ -1 := by rw [hL]; omega
  rw [main_lsrevs_eq, hopen]
  simp only [List.get?]
  rw [main_lsrevs_lower w fs _ a3 hne, hL, after_loop_next w fs _ _ hloop.2 hclose]
  refine ⟨?_, (lsrevs_body_listable fs L (hrev L hLy)).2, rfl⟩
  simp only [hloop.1, revision_blocks_succ, revision_blocks_zero, String.append_empty]

/-- Witness of C7: `lsrevs repo 1` on the sample repository. -/
theorem lsrevs_lower_only_witness :
    (main sample_world ["svnadmin", "lsrevs", "repo", "1"]).stdout
      = (lsrevs_body sample_fs ((1 : Nat) : Int)).stdout ∧
    (∃ rest : String,
      (lsrevs_body sample_fs ((1 : Nat) : Int)).stdout
        = "Revision " ++ toString 1 ++ "\n" ++ rest) ∧
    (main sample_world ["svnadmin", "lsrevs", "repo", "1"]).status = .exit EXIT_SUCCESS :=
  lsrevs_lower_only sample_world "svnadmin" "repo" "1" sample_fs 1 1 rfl rfl
    sample_fs_listable rfl (by decide) (by decide)

/-- C8: `lsrevs` with LOWER_REV and UPPER_REV of non-negative values `L` and
`U` (the values `atoi` reads, which are the decimal values of the arguments
when these fit an `int`), on a repository that opens and closes.  When
`L <= U <= y` (the youngest revision; for every revision `0 .. y` the root
opens and the three properties are read, the date being set) the output is
the blocks of the `U - L + 1` revisions `L`, `L + 1`, ..., `U` in ascending
order, the block of each revision `r` being printed without error and
starting with its own line `Revision r`, and the exit status is success.
When `L > U` no revision is opened, nothing is printed and the exit status is
success. -/
theorem lsrevs_range (w : World) (prog path a3 a4 : String) (more : List String)
    (fs : svn_fs_t) (L U : Nat)
    (hopen : w.repos_open path = .ok fs)
    (hclose : fs.close_fs = none)
    (hL : atoi a3 = (L : Int)) (hU : atoi a4 = (U : Int)) :
    (∀ y : Nat, fs.youngest_rev = .ok (y : Int) →
      (∀ r : Nat, r ≤ y → revision_listable fs r) → L ≤ U → U ≤ y →
      (main w (prog :: "lsrevs" :: path :: a3 :: a4 :: more)).stdout
        = String.join ((List.range (U - L + 1)).map
            (fun (k : Nat) => (lsrevs_body fs ((L + k : Nat) : Int)).stdout)) ∧
      (∀ k : Nat, k < U - L + 1 →
        (lsrevs_body fs ((L + k : Nat) : Int)).outcome = .next ∧
        ∃ rest : String,
          (lsrevs_body fs ((L + k : Nat) : Int)).stdout
            = "Revision " ++ toString (L + k) ++ "\n" ++ rest) ∧
      (main w (prog :: "lsrevs" :: path :: a3 :: a4 :: more)).status = .exit EXIT_SUCCESS) ∧
    (U < L →
      (main w (prog :: "lsrevs" :: path :: a3 :: a4 :: more)).stdout = "" ∧
      (main w (prog :: "lsrevs" :: path :: a3 :: a4 :: more)).calls
        = [.svn_repos_open path, .svn_fs_close_fs] ∧
      (main w (prog :: "lsrevs" :: path :: a3 :: a4 :: more)).status = .exit EXIT_SUCCESS) ∧
    (∀ v : Int, INT_MIN ≤ v → v ≤ INT_MAX →
      (a3 = toString v → (L : Int) = v) ∧ (a4 = toString v → (U : Int) = v)) := by
  have hne3 : atoi a3 ≠ -1 := by rw [hL]; omega
  have hne4 : atoi a4 ≠ -1 := by rw [hU]; omega
  have hmain : main w (prog :: "lsrevs" :: path :: a3 :: a4 :: more)
      = after_loop w fs [.svn_repos_open path]
          (lsrevs_loop fs (U : Int) ((U : Int) + 1 - (L : Int)).toNat (L : Int)) := by
    rw [main_lsrevs_eq, hopen]
    simp only [List.get?]
    rw [main_lsrevs_range w fs _ a3 a4 hne3 hne4, hL, hU]
  rw [hmain]
  refine ⟨fun y _ hrev hLU hUy => ?_, fun hUL => ?_, fun v h1 h2 => ⟨fun h => ?_, fun h => ?_⟩⟩
  · have hfuel : ((U : Int) + 1 - (L : Int)).toNat = U - L + 1 := by omega
    have hloop := lsrevs_loop_listable fs U (U - L + 1) L (by push_cast; omega)
      (fun k hk => by
        have := hrev (L + k) (by omega)
        simpa using this)
    rw [hfuel, after_loop_next w fs _ _ hloop.2 hclose]
    refine ⟨?_, fun k hk => lsrevs_body_listable fs ((L + k : Nat) : Int)
      (hrev (L + k) (by omega)), rfl⟩
    simp only [hloop.1, revision_blocks]
    congr 2
  · have hfuel : ((U : Int) + 1 - (L : Int)).toNat = 0 := by omega
    rw [hfuel, after_loop_next w fs _ _ rfl hclose]
    exact ⟨rfl, rfl, rfl⟩
  · rw [← hL, h, atoi_decimal v h1 h2]
  · rw [← hU, h, atoi_decimal v h1 h2]

set_option maxRecDepth 100000 in
/-- Witness of C8: the ranges `0 1` and `1 0` on the sample repository; the
two blocks of the range `0 1`. -/
theorem lsrevs_range_witness :
    ((main sample_world ("svnadmin" :: "lsrevs" :: "repo" :: "0" :: "1" :: [])).stdout
        = String.join ((List.range (1 - 0 + 1)).map
            (fun (k : Nat) => (lsrevs_body sample_fs ((0 + k : Nat) : Int)).stdout)) ∧
      (∀ k : Nat, k < 1 - 0 + 1 →
        (lsrevs_body sample_fs ((0 + k : Nat) : Int)).outcome = .next ∧
        ∃ rest : String,
          (lsrevs_body sample_fs ((0 + k : Nat) : Int)).stdout
            = "Revision " ++ toString (0 + k) ++ "\n" ++ rest) ∧
      (main sample_world ("svnadmin" :: "lsrevs" :: "repo" :: "0" :: "1" :: [])).status
        = .exit EXIT_SUCCESS) ∧
    ((main sample_world ("svnadmin" :: "lsrevs" :: "repo" :: "1" :: "0" :: [])).stdout = "" ∧
      (main sample_world ("svnadmin" :: "lsrevs" :: "repo" :: "1" :: "0" :: [])).calls
        = [.svn_repos_open "repo", .svn_fs_close_fs] ∧
      (main sample_world ("svnadmin" :: "lsrevs" :: "repo" :: "1" :: "0" :: [])).status
        = .exit EXIT_SUCCESS) ∧
    (main sample_world ("svnadmin" :: "lsrevs" :: "repo" :: "0" :: "1" :: [])).stdout
      = "Revision 0\nCreated: d0\nAuthor: \nLog (0 bytes):\n\n==========================================\n\nRevision 1\nCreated: d1\nAuthor: jrandom\nLog (9 bytes):\nadd a.txt\n==========================================\n a.txt <id1> [5]\n\n" :=
  ⟨(lsrevs_range sample_world "svnadmin" "repo" "0" "1" [] sample_fs 0 1 rfl rfl
      (by decide) (by decide)).1 1 rfl sample_fs_listable (by decide) (by decide),
   (lsrevs_range sample_world "svnadmin" "repo" "1" "0" [] sample_fs 1 0 rfl rfl
      (by decide) (by decide)).2.1 (by decide),
   by decide⟩

theorem lsrevs_loop_first_fails (fs : svn_fs_t) (upper L : Int) (fuel : Nat)
    (err : svn_error_t) (hLU : L ≤ upper) (hfuel : 0 < fuel)
    (hroot : fs.revision_root L = .error err) :
    lsrevs_loop fs upper fuel L = ⟨"", [.svn_fs_revision_root L], .error err⟩ := by
  obtain ⟨f, rfl⟩ : ∃ f, fuel = f + 1 := ⟨fuel - 1, by omega⟩
  have hb : lsrevs_body fs L = ⟨"", [.svn_fs_revision_root L], .error err⟩ := by
    simp only [lsrevs_body, hroot]
  rw [lsrevs_loop, if_pos hLU, hb]

set_option maxRecDepth 100000 in
/-- C9 (as stated, refuted): on the sample repository, whose revision-root
lookup fails for every revision that is negative or greater than the
youngest revision 1, `lsrevs repo -1` prints the blocks of the revisions 0
and 1 and exits with success; `lsrevs repo 5 4`, whose LOWER_REV exceeds
the youngest revision, prints nothing and exits with success too; and
`lsrevs repo 4294967295`, whose LOWER_REV exceeds the youngest revision as
well, is read by `atoi` as -1 and lists the revisions 0 and 1 with success. -/
theorem lsrevs_lower_out_of_range_counterexample :
    (∀ r : Int, r < 0 ∨ 1 < r → sample_fs.revision_root r = .error sample_not_found) ∧
    sample_fs.youngest_rev = .ok 1 ∧
    atoi "-1" = -1 ∧
    (main sample_world ["svnadmin", "lsrevs", "repo", "-1"]).stdout
      = (lsrevs_body sample_fs 0).stdout ++ (lsrevs_body sample_fs 1).stdout ∧
    (lsrevs_body sample_fs 0).stdout
      = "Revision 0\nCreated: d0\nAuthor: \nLog (0 bytes):\n\n==========================================\n\n" ∧
    (lsrevs_body sample_fs 1).stdout
      = "Revision 1\nCreated: d1\nAuthor: jrandom\nLog (9 bytes):\nadd a.txt\n==========================================\n a.txt <id1> [5]\n\n" ∧
    (main sample_world ["svnadmin", "lsrevs", "repo", "-1"]).status = .exit EXIT_SUCCESS ∧
    atoi "5" = 5 ∧ atoi "4" = 4 ∧
    (main sample_world ["svnadmin", "lsrevs", "repo", "5", "4"]).stdout = "" ∧
    (main sample_world ["svnadmin", "lsrevs", "repo", "5", "4"]).status = .exit EXIT_SUCCESS ∧
    atoi "4294967295" = -1 ∧
    (main sample_world ["svnadmin", "lsrevs", "repo", "4294967295"]).stdout
      = (lsrevs_body sample_fs 0).stdout ++ (lsrevs_body sample_fs 1).stdout ∧
    (main sample_world ["svnadmin", "lsrevs", "repo", "4294967295"]).status
      = .exit EXIT_SUCCESS := by
  refine ⟨?_, rfl, by decide, by decide, by decide, by decide, by decide, by decide, by decide,
    by decide, by decide, by decide, by decide, by decide⟩
  intro r hr
  have h0 : r ≠ 0 := by omega
  have h1 : r ≠ 1 := by omega
  simp [sample_fs, h0, h1]

/-- C9 (amended): over a filesystem whose revision-root lookup fails for
every revision that is negative or greater than the youngest revision `y`,
`lsrevs` with a LOWER_REV that `atoi` reads as a value `L` below -1 or above
`y` (the decimal value of LOWER_REV when it fits an `int`), and with no
UPPER_REV or an UPPER_REV read as -1 or as a value not below `L`, prints
nothing, reports the error of the lookup of revision `L` and exits with
failure. -/
theorem lsrevs_lower_out_of_range (w : World) (prog path a3 : String) (more : List String)
    (fs : svn_fs_t) (y : Nat) (L : Int)
    (hopen : w.repos_open path = .ok fs)
    (_hy : fs.youngest_rev = .ok (y : Int))
    (hnf : ∀ r : Int, r < 0 ∨ (y : Int) < r → ∃ err, fs.revision_root r = .error err)
    (hL : atoi a3 = L) (hbad : L < -1 ∨ (y : Int) < L)
    (hupper : more = [] ∨
      ∃ (a4 : String) (tail : List String),
        more = a4 :: tail ∧ (atoi a4 = -1 ∨ L ≤ atoi a4)) :
    (main w (prog :: "lsrevs" :: path :: a3 :: more)).stdout = "" ∧
    (∃ err, fs.revision_root L = .error err ∧
      (main w (prog :: "lsrevs" :: path :: a3 :: more)).stderr = w.handle_error err) ∧
    (main w (prog :: "lsrevs" :: path :: a3 :: more)).status = .exit EXIT_FAILURE ∧
    (∀ v : Int, INT_MIN ≤ v → v ≤ INT_MAX → a3 = toString v → L = v) := by
  have hpin : ∀ v : Int, INT_MIN ≤ v → v ≤ INT_MAX → a3 = toString v → L = v := by
    intro v h1 h2 h
    rw [← hL, h, atoi_decimal v h1 h2]
  subst hL
  obtain ⟨err, herr⟩ := hnf (atoi a3) (by omega)
  have hne : atoi a3 ≠ -1 := by omega
  have hmain : main w (prog :: "lsrevs" :: path :: a3 :: more)
      = ⟨"", w.handle_error err, [.svn_repos_open path] ++ [.svn_fs_revision_root (atoi a3)],
         .exit EXIT_FAILURE⟩ := by
    rw [main_lsrevs_eq, hopen]
    rcases hupper with rfl | ⟨a4, tail, rfl, h4 | h4⟩
    · simp only [List.get?]
      rw [main_lsrevs_lower w fs _ a3 hne,
        lsrevs_loop_first_fails fs _ _ 1 err (le_refl _) Nat.one_pos herr,
        after_loop_error w fs _ _ err rfl]
    · simp only [List.get?]
      have hm : main_lsrevs w fs [.svn_repos_open path] (some a3) (some a4)
          = after_loop w fs [.svn_repos_open path]
              (lsrevs_loop fs (atoi a3) 1 (atoi a3)) := by
        simp [main_lsrevs, SVN_INVALID_REVNUM, hne, h4]
      rw [hm, lsrevs_loop_first_fails fs _ _ 1 err (le_refl _) Nat.one_pos herr,
        after_loop_error w fs _ _ err rfl]
    · simp only [List.get?]
      by_cases h5 : atoi a4 = -1
      · have hm : main_lsrevs w fs [.svn_repos_open path] (some a3) (some a4)
            = after_loop w fs [.svn_repos_open path]
                (lsrevs_loop fs (atoi a3) 1 (atoi a3)) := by
          simp [main_lsrevs, SVN_INVALID_REVNUM, hne, h5]
        rw [hm, lsrevs_loop_first_fails fs _ _ 1 err (le_refl _) Nat.one_pos herr,
          after_loop_error w fs _ _ err rfl]
      · rw [main_lsrevs_range w fs _ a3 a4 hne h5,
          lsrevs_loop_first_fails fs (atoi a4) (atoi a3) _ err h4 (by omega) herr,
          after_loop_error w fs _ _ err rfl]
  rw [hmain]
  exact ⟨rfl, ⟨err, herr, rfl⟩, rfl, hpin⟩

/-- Witness of the amended C9: `lsrevs repo -2` and `lsrevs repo 5` on the
sample repository. -/
theorem lsrevs_lower_out_of_range_witness :
    ((main sample_world ("svnadmin" :: "lsrevs" :: "repo" :: "-2" :: [])).stdout = "" ∧
      (∃ err, sample_fs.revision_root (-2) = .error err ∧
        (main sample_world ("svnadmin" :: "lsrevs" :: "repo" :: "-2" :: [])).stderr
          = sample_world.handle_error err) ∧
      (main sample_world ("svnadmin" :: "lsrevs" :: "repo" :: "-2" :: [])).status
        = .exit EXIT_FAILURE) ∧
    ((main sample_world ("svnadmin" :: "lsrevs" :: "repo" :: "5" :: [])).stdout = "" ∧
      (∃ err, sample_fs.revision_root 5 = .error err ∧
        (main sample_world ("svnadmin" :: "lsrevs" :: "repo" :: "5" :: [])).stderr
          = sample_world.handle_error err) ∧
      (main sample_world ("svnadmin" :: "lsrevs" :: "repo" :: "5" :: [])).status
        = .exit EXIT_FAILURE) :=
  have hnf : ∀ r : Int, r < 0 ∨ ((1 : Nat) : Int) < r →
      ∃ err, sample_fs.revision_root r = .error err := by
    intro r hr
    have h0 : r ≠ 0 := by omega
    have h1 : r ≠ 1 := by omega
    exact ⟨sample_not_found, by simp [sample_fs, h0, h1]⟩
  have h1 := lsrevs_lower_out_of_range sample_world "svnadmin" "repo" "-2" [] sample_fs 1 (-2)
    rfl rfl hnf (by decide) (by decide) (Or.inl rfl)
  have h2 := lsrevs_lower_out_of_range sample_world "svnadmin" "repo" "5" [] sample_fs 1 5
    rfl rfl hnf (by decide) (by decide) (Or.inl rfl)
  ⟨⟨h1.1, h1.2.1, h1.2.2.1⟩, ⟨h2.1, h2.2.1, h2.2.2.1⟩⟩

/-! ## Dispatch of subcommands -/

theorem goto_error_calls (w : World) (out : String) (calls : List FsCall) (err : svn_error_t) :
    (goto_error w out calls err).calls = calls := rfl

theorem close_and_return_calls (w : World) (fs : svn_fs_t) (out : String) (calls : List FsCall) :
    (close_and_return w fs out calls).calls = calls ++ [.svn_fs_close_fs] := by
  unfold close_and_return
  split <;> rfl

theorem after_loop_calls (w : World) (fs : svn_fs_t) (pre : List FsCall) (r : BlockRun) :
    ∃ more, (after_loop w fs pre r).calls = pre ++ more := by
  unfold after_loop
  split
  · exact ⟨r.calls ++ [.svn_fs_close_fs], by rw [close_and_return_calls, List.append_assoc]⟩
  · exact ⟨r.calls, rfl⟩
  · exact ⟨r.calls, rfl⟩

theorem main_lsrevs_calls (w : World) (fs : svn_fs_t) (pre : List FsCall)
    (argv3 argv4 : Option String) :
    ∃ more, (main_lsrevs w fs pre argv3 argv4).calls = pre ++ more := by
  have key : ∀ r : BlockRun, ∃ more,
      (after_loop w fs (pre ++ [.svn_fs_youngest_rev]) r).calls = pre ++ more := by
    intro r
    obtain ⟨m, h⟩ := after_loop_calls w fs (pre ++ [.svn_fs_youngest_rev]) r
    exact ⟨_ :: m, by rw [h, List.append_assoc]; rfl⟩
  unfold main_lsrevs
  simp only
  split
  · exact key _
  · exact after_loop_calls w fs pre _

theorem main_recover_calls (w : World) (progname path : String) :
    ∃ more, (main_recover w progname path).calls = .svn_fs_open_berkeley path :: more := by
  unfold main_recover
  simp only
  repeat' split
  all_goals first
    | exact ⟨_, rfl⟩
    | exact ⟨_, by rw [close_and_return_calls]; rfl⟩

theorem main_short (w : World) (argv : List String) (h : argv.length < 3) :
    main w argv = usage (argv.getD 0 "(null)") 1 := by
  unfold main
  simp only
  rw [if_pos h]

theorem main_unknown (w : World) (a0 a1 a2 : String) (more : List String)
    (h : a1 ∉ ["create", "youngest", "lstxns", "lsrevs", "rmtxn", "createtxn", "recover"]) :
    main w (a0 :: a1 :: a2 :: more) = usage a0 1 := by
  simp only [List.mem_cons, List.mem_singleton, List.not_mem_nil, or_false, not_or] at h
  obtain ⟨h1, h2, h3, h4, h5, h6, h7⟩ := h
  simp [main, h1, h2, h3, h4, h5, h6, h7]

theorem main_missing_argument (w : World) (a0 a1 a2 : String)
    (h : a1 = "rmtxn" ∨ a1 = "createtxn") :
    main w [a0, a1, a2] = usage a0 1 := by
  rcases h with rfl | rfl <;> simp [main]

theorem main_create_eq (w : World) (a0 a2 : String) (more : List String) :
    main w (a0 :: "create" :: a2 :: more) =
      match w.create_berkeley a2 with
      | .error err => goto_error w "" [.svn_fs_create_berkeley a2] err
      | .ok fs => close_and_return w fs "" [.svn_fs_create_berkeley a2] := by
  simp [main]

theorem main_youngest_eq (w : World) (a0 a2 : String) (more : List String) :
    main w (a0 :: "youngest" :: a2 :: more) =
      match w.repos_open a2 with
      | .error err => goto_error w "" [.svn_repos_open a2] err
      | .ok fs =>
        close_and_return w fs
          (toString (match fs.youngest_rev with
            | .ok y => y
            | .error _ => w.indeterminate) ++ "\n")
          [.svn_repos_open a2, .svn_fs_youngest_rev] := by
  simp [main]

theorem main_lstxns_eq (w : World) (a0 a2 : String) (more : List String) :
    main w (a0 :: "lstxns" :: a2 :: more) =
      match w.repos_open a2 with
      | .error err => goto_error w "" [.svn_repos_open a2] err
      | .ok fs =>
        match fs.list_transactions with
        | .error err =>
          goto_error w "" [.svn_repos_open a2, .svn_fs_list_transactions] err
        | .ok txns =>
          after_loop w fs [.svn_repos_open a2, .svn_fs_list_transactions]
            (lstxns_loop fs txns) := by
  simp [main]

theorem main_rmtxn_eq (w : World) (a0 a2 txn_name : String) (more : List String) :
    main w (a0 :: "rmtxn" :: a2 :: txn_name :: more) =
      match w.repos_open a2 with
      | .error err => goto_error w "" [.svn_repos_open a2] err
      | .ok fs =>
        match fs.open_txn txn_name with
        | .error err =>
          goto_error w "" [.svn_repos_open a2, .svn_fs_open_txn txn_name] err
        | .ok txn =>
          match txn.abort_txn with
          | some err =>
            goto_error w ""
              [.svn_repos_open a2, .svn_fs_open_txn txn_name, .svn_fs_abort_txn txn_name] err
          | none =>
            close_and_return w fs ""
              [.svn_repos_open a2, .svn_fs_open_txn txn_name, .svn_fs_abort_txn txn_name] := by
  simp [main]

theorem main_createtxn_eq (w : World) (a0 a2 base_rev : String) (more : List String) :
    main w (a0 :: "createtxn" :: a2 :: base_rev :: more) =
      match w.repos_open a2 with
      | .error err => goto_error w "" [.svn_repos_open a2] err
      | .ok fs =>
        match fs.begin_txn (atoi base_rev) with
        | .error err =>
          goto_error w "" [.svn_repos_open a2, .svn_fs_begin_txn (atoi base_rev)] err
        | .ok txn =>
          match txn.close_txn with
          | some err =>
            goto_error w ""
              [.svn_repos_open a2, .svn_fs_begin_txn (atoi base_rev),
               .svn_fs_close_txn (atoi base_rev)] err
          | none =>
            close_and_return w fs ""
              [.svn_repos_open a2, .svn_fs_begin_txn (atoi base_rev),
               .svn_fs_close_txn (atoi base_rev)] := by
  simp [main]

theorem main_recover_eq (w : World) (a0 a2 : String) (more : List String) :
    main w (a0 :: "recover" :: a2 :: more) = main_recover w a0 a2 := by
  simp [main]

theorem main_known_calls (w : World) (a0 a1 a2 : String) (more : List String)
    (h : a1 ∈ ["create", "youngest", "lstxns", "lsrevs", "rmtxn", "createtxn", "recover"])
    (h3 : a1 = "rmtxn" ∨ a1 = "createtxn" → more ≠ []) :
    ∃ (c : FsCall) (later : List FsCall),
      (main w (a0 :: a1 :: a2 :: more)).calls = c :: later ∧
      (c = .svn_fs_create_berkeley a2 ∨ c = .svn_repos_open a2 ∨ c = .svn_fs_open_berkeley a2) := by
  simp only [List.mem_cons, List.mem_singleton, List.not_mem_nil, or_false] at h
  rcases h with rfl | rfl | rfl | rfl | rfl | rfl | rfl
  · rw [main_create_eq]
    cases w.create_berkeley a2 with
    | error err => exact ⟨_, _, rfl, Or.inl rfl⟩
    | ok fs => exact ⟨_, _, by dsimp only; rw [close_and_return_calls]; rfl, Or.inl rfl⟩
  · rw [main_youngest_eq]
    cases w.repos_open a2 with
    | error err => exact ⟨_, _, rfl, Or.inr (Or.inl rfl)⟩
    | ok fs => exact ⟨_, _, by dsimp only; rw [close_and_return_calls]; rfl, Or.inr (Or.inl rfl)⟩
  · rw [main_lstxns_eq]
    cases w.repos_open a2 with
    | error err => exact ⟨_, _, rfl, Or.inr (Or.inl rfl)⟩
    | ok fs =>
      dsimp only
      cases fs.list_transactions with
      | error err => exact ⟨_, _, rfl, Or.inr (Or.inl rfl)⟩
      | ok txns =>
        dsimp only
        obtain ⟨later, hl⟩ := after_loop_calls w fs
          [.svn_repos_open a2, .svn_fs_list_transactions] (lstxns_loop fs txns)
        exact ⟨_, _, by rw [hl]; rfl, Or.inr (Or.inl rfl)⟩
  · rw [main_lsrevs_eq]
    cases w.repos_open a2 with
    | error err => exact ⟨_, _, rfl, Or.inr (Or.inl rfl)⟩
    | ok fs =>
      dsimp only
      obtain ⟨later, hl⟩ := main_lsrevs_calls w fs [.svn_repos_open a2]
        (more.get? 0) (more.get? 1)
      exact ⟨_, _, by rw [hl]; rfl, Or.inr (Or.inl rfl)⟩
  · obtain ⟨txn_name, tail, rfl⟩ : ∃ t tl, more = t :: tl := by
      cases more with
      | nil => exact absurd rfl (h3 (Or.inl rfl))
      | cons t tl => exact ⟨t, tl, rfl⟩
    rw [main_rmtxn_eq]
    cases w.repos_open a2 with
    | error err => exact ⟨_, _, rfl, Or.inr (Or.inl rfl)⟩
    | ok fs =>
      dsimp only
      cases fs.open_txn txn_name with
      | error err => exact ⟨_, _, rfl, Or.inr (Or.inl rfl)⟩
      | ok txn =>
        dsimp only
        cases txn.abort_txn with
        | some err => exact ⟨_, _, rfl, Or.inr (Or.inl rfl)⟩
        | none => exact ⟨_, _, by dsimp only; rw [close_and_return_calls]; rfl, Or.inr (Or.inl rfl)⟩
  · obtain ⟨base_rev, tail, rfl⟩ : ∃ t tl, more = t :: tl := by
      cases more with
      | nil => exact absurd rfl (h3 (Or.inr rfl))
      | cons t tl => exact ⟨t, tl, rfl⟩
    rw [main_createtxn_eq]
    cases w.repos_open a2 with
    | error err => exact ⟨_, _, rfl, Or.inr (Or.inl rfl)⟩
    | ok fs =>
      dsimp only
      cases fs.begin_txn (atoi base_rev) with
      | error err => exact ⟨_, _, rfl, Or.inr (Or.inl rfl)⟩
      | ok txn =>
        dsimp only
        cases txn.close_txn with
        | some err => exact ⟨_, _, rfl, Or.inr (Or.inl rfl)⟩
        | none => exact ⟨_, _, by dsimp only; rw [close_and_return_calls]; rfl, Or.inr (Or.inl rfl)⟩
  · rw [main_recover_eq]
    obtain ⟨later, hl⟩ := main_recover_calls w a0 a2
    exact ⟨_, _, hl, Or.inr (Or.inr rfl)⟩

theorem usage_one (progname : String) :
    usage progname 1 = ⟨"", usage_text progname, [], .exit 1⟩ := by
  simp [usage]

/-- C10: `main` performs a repository operation exactly when it is given at
least three arguments, `argv[1]` is one of the seven subcommand names (compared
byte for byte) and, for `rmtxn` and `createtxn`, `argv[3]` is present; its
first call then opens or creates the repository at `argv[2]`.  In every other
case no call is made: the usage message goes to stderr, nothing to stdout,
and the exit status is 1. -/
theorem main_dispatch (w : World) (argv : List String) :
    ((main w argv).calls ≠ [] ↔
      (3 ≤ argv.length ∧
        argv.getD 1 "" ∈
          ["create", "youngest", "lstxns", "lsrevs", "rmtxn", "createtxn", "recover"] ∧
        (argv.getD 1 "" = "rmtxn" ∨ argv.getD 1 "" = "createtxn" → 4 ≤ argv.length))) ∧
    ((main w argv).calls ≠ [] →
      ∃ (c : FsCall) (later : List FsCall),
        (main w argv).calls = c :: later ∧
        (c = .svn_fs_create_berkeley (argv.getD 2 "") ∨ c = .svn_repos_open (argv.getD 2 "") ∨
          c = .svn_fs_open_berkeley (argv.getD 2 ""))) ∧
    ((main w argv).calls = [] →
      (main w argv).stdout = "" ∧
      (main w argv).stderr = usage_text (argv.getD 0 "(null)") ∧
      (main w argv).status = .exit 1) := by
  by_cases hlen : argv.length < 3
  · have hm := main_short w argv hlen
    rw [hm, usage_one]
    refine ⟨⟨fun h => absurd rfl h, fun h => by omega⟩, fun h => absurd rfl h,
      fun _ => ⟨rfl, rfl, rfl⟩⟩
  · obtain ⟨a0, a1, a2, more, rfl⟩ : ∃ a0 a1 a2 more, argv = a0 :: a1 :: a2 :: more := by
      match argv, hlen with
      | a0 :: a1 :: a2 :: more, _ => exact ⟨a0, a1, a2, more, rfl⟩
      | [], h => simp at h
      | [_], h => simp at h
      | [_, _], h => simp at h
    simp only [List.getD_cons_zero, List.getD_cons_succ, List.length_cons]
    by_cases hname : a1 ∈
        ["create", "youngest", "lstxns", "lsrevs", "rmtxn", "createtxn", "recover"]
    · by_cases harg : a1 = "rmtxn" ∨ a1 = "createtxn" → more ≠ []
      · obtain ⟨c, later, hc, hfirst⟩ := main_known_calls w a0 a1 a2 more hname harg
        have hne : (main w (a0 :: a1 :: a2 :: more)).calls ≠ [] := by rw [hc]; simp
        refine ⟨⟨fun _ => ⟨by omega, hname, fun h => ?_⟩, fun _ => hne⟩,
          fun _ => ⟨c, later, hc, hfirst⟩, fun h => absurd h hne⟩
        have := harg h
        cases more with
        | nil => exact absurd rfl this
        | cons t tl => simp
      · have hor : a1 = "rmtxn" ∨ a1 = "createtxn" := by
          by_contra hcon
          exact harg (fun h => absurd h hcon)
        have hnil : more = [] := by
          by_contra hcon
          exact harg (fun _ => hcon)
        subst hnil
        rw [main_missing_argument w a0 a1 a2 hor, usage_one]
        refine ⟨⟨fun h => absurd rfl h, fun h => ?_⟩, fun h => absurd rfl h,
          fun _ => ⟨rfl, rfl, rfl⟩⟩
        have := h.2.2 hor
        simp at this
    · rw [main_unknown w a0 a1 a2 more hname, usage_one]
      refine ⟨⟨fun h => absurd rfl h, fun h => absurd h.2.1 hname⟩, fun h => absurd rfl h,
        fun _ => ⟨rfl, rfl, rfl⟩⟩

/-- Witness of C10: `youngest repo` opens the repository; `Youngest repo`
(wrong case) and `rmtxn repo` (no transaction name) only print the usage. -/
theorem main_dispatch_witness :
    (∃ (c : FsCall) (later : List FsCall),
        (main sample_world ["svnadmin", "youngest", "repo"]).calls = c :: later ∧
        (c = .svn_fs_create_berkeley (["svnadmin", "youngest", "repo"].getD 2 "") ∨
          c = .svn_repos_open (["svnadmin", "youngest", "repo"].getD 2 "") ∨
          c = .svn_fs_open_berkeley (["svnadmin", "youngest", "repo"].getD 2 ""))) ∧
    ((main sample_world ["svnadmin", "Youngest", "repo"]).stdout = "" ∧
      (main sample_world ["svnadmin", "Youngest", "repo"]).stderr
        = usage_text (["svnadmin", "Youngest", "repo"].getD 0 "(null)") ∧
      (main sample_world ["svnadmin", "Youngest", "repo"]).status = .exit 1) ∧
    ((main sample_world ["svnadmin", "rmtxn", "repo"]).stdout = "" ∧
      (main sample_world ["svnadmin", "rmtxn", "repo"]).stderr
        = usage_text (["svnadmin", "rmtxn", "repo"].getD 0 "(null)") ∧
      (main sample_world ["svnadmin", "rmtxn", "repo"]).status = .exit 1) :=
  ⟨(main_dispatch sample_world ["svnadmin", "youngest", "repo"]).2.1 (by decide),
   (main_dispatch sample_world ["svnadmin", "Youngest", "repo"]).2.2 (by decide),
   (main_dispatch sample_world ["svnadmin", "rmtxn", "repo"]).2.2 (by decide)⟩


/-! ## The recover subcommand -/

theorem main_recover_locked (w : World) (progname path : String)
    (hopen : ∀ err, (w.open_berkeley path).1 = some err → err.src_err = w.DB_RUNRECOVERY)
    (hfile : w.apr_file_open (w.open_berkeley path).2.db_lockfile = APR_SUCCESS)
    (hlock : w.apr_file_lock = APR_SUCCESS) :
    main_recover w progname path =
      match w.berkeley_recover (w.open_berkeley path).2.db_env with
      | some err =>
        goto_error w ""
          [.svn_fs_open_berkeley path, .apr_file_open (w.open_berkeley path).2.db_lockfile,
           .apr_file_lock, .svn_fs_berkeley_recover (w.open_berkeley path).2.db_env] err
      | none =>
        if w.apr_file_unlock ≠ APR_SUCCESS then
          goto_error w ""
            [.svn_fs_open_berkeley path, .apr_file_open (w.open_berkeley path).2.db_lockfile,
             .apr_file_lock, .svn_fs_berkeley_recover (w.open_berkeley path).2.db_env,
             .apr_file_unlock]
            ⟨w.apr_file_unlock, 0,
             progname ++ ": error unlocking \x60" ++ (w.open_berkeley path).2.db_lockfile
               ++ "\x27"⟩
        else if w.apr_file_close ≠ APR_SUCCESS then
          goto_error w ""
            [.svn_fs_open_berkeley path, .apr_file_open (w.open_berkeley path).2.db_lockfile,
             .apr_file_lock, .svn_fs_berkeley_recover (w.open_berkeley path).2.db_env,
             .apr_file_unlock, .apr_file_close]
            ⟨w.apr_file_close, 0,
             progname ++ ": error closing \x60" ++ (w.open_berkeley path).2.db_lockfile
               ++ "\x27"⟩
        else
          close_and_return w (w.open_berkeley path).2 ""
            [.svn_fs_open_berkeley path, .apr_file_open (w.open_berkeley path).2.db_lockfile,
             .apr_file_lock, .svn_fs_berkeley_recover (w.open_berkeley path).2.db_env,
             .apr_file_unlock, .apr_file_close] := by
  unfold main_recover
  cases h : (w.open_berkeley path).1 with
  | none => simp [hfile, hlock, h]
  | some err => simp [hfile, hlock, h, hopen err h]

theorem main_recover_not_locked (w : World) (progname path : String)
    (h : w.apr_file_open (w.open_berkeley path).2.db_lockfile ≠ APR_SUCCESS ∨
      w.apr_file_lock ≠ APR_SUCCESS) :
    (main_recover w progname path).status = .exit EXIT_FAILURE ∧
    ((main_recover w progname path).calls = [.svn_fs_open_berkeley path] ∨
     (main_recover w progname path).calls
        = [.svn_fs_open_berkeley path, .apr_file_open (w.open_berkeley path).2.db_lockfile] ∨
     (main_recover w progname path).calls
        = [.svn_fs_open_berkeley path, .apr_file_open (w.open_berkeley path).2.db_lockfile,
           .apr_file_lock]) := by
  unfold main_recover
  by_cases hfile : w.apr_file_open (w.open_berkeley path).2.db_lockfile = APR_SUCCESS
  · have hlock : w.apr_file_lock ≠ APR_SUCCESS := by
      rcases h with h | h
      · exact absurd hfile h
      · exact h
    cases ho : (w.open_berkeley path).1 with
    | none => simp [hfile, hlock, goto_error, ho]
    | some err =>
      by_cases hs : err.src_err = w.DB_RUNRECOVERY <;> simp [hfile, hlock, goto_error, hs, ho]
  · cases ho : (w.open_berkeley path).1 with
    | none => simp [hfile, goto_error, ho]
    | some err =>
      by_cases hs : err.src_err = w.DB_RUNRECOVERY <;> simp [hfile, goto_error, hs, ho]

theorem main_recover_open_fails (w : World) (progname path : String) (err : svn_error_t)
    (h : (w.open_berkeley path).1 = some err) (hs : err.src_err ≠ w.DB_RUNRECOVERY) :
    main_recover w progname path = goto_error w "" [.svn_fs_open_berkeley path] err := by
  unfold main_recover
  simp [h, hs]

/-- C11 (evaluated): in a run of `recover` that acquired the exclusive lock,
`apr_file_unlock` is called when the backend recovery succeeds; when the
recovery fails, `main` jumps to `error:` right after it, so the calls end
with the recovery, `apr_file_unlock` is never called and the exit status is
failure. -/
theorem recover_failure_skips_unlock (w : World) (prog path : String) (more : List String)
    (hopen : ∀ err, (w.open_berkeley path).1 = some err → err.src_err = w.DB_RUNRECOVERY)
    (hfile : w.apr_file_open (w.open_berkeley path).2.db_lockfile = APR_SUCCESS)
    (hlock : w.apr_file_lock = APR_SUCCESS) :
    (∀ err, w.berkeley_recover (w.open_berkeley path).2.db_env = some err →
      (main w (prog :: "recover" :: path :: more)).calls
        = [.svn_fs_open_berkeley path, .apr_file_open (w.open_berkeley path).2.db_lockfile,
           .apr_file_lock, .svn_fs_berkeley_recover (w.open_berkeley path).2.db_env] ∧
      FsCall.apr_file_unlock ∉ (main w (prog :: "recover" :: path :: more)).calls ∧
      (main w (prog :: "recover" :: path :: more)).status = .exit EXIT_FAILURE) ∧
    (w.berkeley_recover (w.open_berkeley path).2.db_env = none →
      ∃ rest : List FsCall,
        (main w (prog :: "recover" :: path :: more)).calls
          = [.svn_fs_open_berkeley path, .apr_file_open (w.open_berkeley path).2.db_lockfile,
             .apr_file_lock, .svn_fs_berkeley_recover (w.open_berkeley path).2.db_env,
             .apr_file_unlock] ++ rest) := by
  rw [main_recover_eq, main_recover_locked w prog path hopen hfile hlock]
  refine ⟨fun err herr => ?_, fun hnone => ?_⟩
  · rw [herr]
    simp [goto_error]
  · rw [hnone]
    by_cases hu : w.apr_file_unlock = APR_SUCCESS
    · by_cases hc : w.apr_file_close = APR_SUCCESS
      · exact ⟨[.apr_file_close, .svn_fs_close_fs], by
          simp [hu, hc, close_and_return_calls]⟩
      · exact ⟨[.apr_file_close], by simp [hu, hc, goto_error]⟩
    · exact ⟨[], by simp [hu, goto_error]⟩

/-- Witness of C11: the sample repository with a failing recovery. -/
theorem recover_failure_skips_unlock_witness :
    (main sample_world_recover_fails ("svnadmin" :: "recover" :: "repo" :: [])).calls
      = [.svn_fs_open_berkeley "repo",
         .apr_file_open (sample_world_recover_fails.open_berkeley "repo").2.db_lockfile,
         .apr_file_lock,
         .svn_fs_berkeley_recover (sample_world_recover_fails.open_berkeley "repo").2.db_env] ∧
    FsCall.apr_file_unlock ∉
      (main sample_world_recover_fails ("svnadmin" :: "recover" :: "repo" :: [])).calls ∧
    (main sample_world_recover_fails ("svnadmin" :: "recover" :: "repo" :: [])).status
      = .exit EXIT_FAILURE :=
  (recover_failure_skips_unlock sample_world_recover_fails "svnadmin" "repo" []
    (fun err h => nomatch h) (by decide) (by decide)).1
    sample_failure rfl

/-- C12: in every run of `recover`, if the backend recovery is called at all
then opening the lockfile and `apr_file_lock` (always called with
`APR_FLOCK_EXCLUSIVE`) succeeded, the recovery is the fourth call, right
after opening the filesystem, opening the lockfile and locking it, hence
before any unlock, and it is called once; if opening or locking the
lockfile fails, the recovery is not called and the exit status is failure. -/
theorem recover_only_under_lock (w : World) (prog path : String) (more : List String) :
    (∀ env_path : String,
      FsCall.svn_fs_berkeley_recover env_path
          ∈ (main w (prog :: "recover" :: path :: more)).calls →
        w.apr_file_open (w.open_berkeley path).2.db_lockfile = APR_SUCCESS ∧
        w.apr_file_lock = APR_SUCCESS ∧
        ∃ later : List FsCall,
          (main w (prog :: "recover" :: path :: more)).calls
            = [.svn_fs_open_berkeley path,
               .apr_file_open (w.open_berkeley path).2.db_lockfile,
               .apr_file_lock,
               .svn_fs_berkeley_recover (w.open_berkeley path).2.db_env] ++ later ∧
          ∀ e : String, FsCall.svn_fs_berkeley_recover e ∉ later) ∧
    (w.apr_file_open (w.open_berkeley path).2.db_lockfile ≠ APR_SUCCESS ∨
        w.apr_file_lock ≠ APR_SUCCESS →
      (∀ env_path : String,
        FsCall.svn_fs_berkeley_recover env_path
          ∉ (main w (prog :: "recover" :: path :: more)).calls) ∧
      (main w (prog :: "recover" :: path :: more)).status = .exit EXIT_FAILURE) := by
  rw [main_recover_eq]
  have hnot : w.apr_file_open (w.open_berkeley path).2.db_lockfile ≠ APR_SUCCESS ∨
        w.apr_file_lock ≠ APR_SUCCESS →
      (∀ env_path : String,
        FsCall.svn_fs_berkeley_recover env_path ∉ (main_recover w prog path).calls) ∧
      (main_recover w prog path).status = .exit EXIT_FAILURE := by
    intro h
    obtain ⟨hst, hc | hc | hc⟩ := main_recover_not_locked w prog path h
    all_goals exact ⟨fun e => by rw [hc]; simp, hst⟩
  refine ⟨fun env_path hmem => ?_, hnot⟩
  by_cases hfile : w.apr_file_open (w.open_berkeley path).2.db_lockfile = APR_SUCCESS
  · by_cases hlock : w.apr_file_lock = APR_SUCCESS
    · refine ⟨hfile, hlock, ?_⟩
      by_cases hopen : ∀ err, (w.open_berkeley path).1 = some err →
          err.src_err = w.DB_RUNRECOVERY
      · rw [main_recover_locked w prog path hopen hfile hlock]
        cases w.berkeley_recover (w.open_berkeley path).2.db_env with
        | some err => exact ⟨[], by simp [goto_error], by simp⟩
        | none =>
          by_cases hu : w.apr_file_unlock = APR_SUCCESS
          · by_cases hc : w.apr_file_close = APR_SUCCESS
            · exact ⟨[.apr_file_unlock, .apr_file_close, .svn_fs_close_fs], by
                simp [hu, hc, close_and_return_calls], by simp⟩
            · exact ⟨[.apr_file_unlock, .apr_file_close], by simp [hu, hc, goto_error],
                by simp⟩
          · exact ⟨[.apr_file_unlock], by simp [hu, goto_error], by simp⟩
      · push_neg at hopen
        obtain ⟨err, he, hs⟩ := hopen
        rw [main_recover_open_fails w prog path err he hs] at hmem
        simp [goto_error] at hmem
    · exact absurd hmem ((hnot (Or.inr hlock)).1 env_path)
  · exact absurd hmem ((hnot (Or.inl hfile)).1 env_path)

/-- Witness of C12: on the sample repository the recovery runs under the
lock; with a lockfile that cannot be opened it does not run. -/
theorem recover_only_under_lock_witness :
    (sample_world.apr_file_open (sample_world.open_berkeley "repo").2.db_lockfile = APR_SUCCESS ∧
      sample_world.apr_file_lock = APR_SUCCESS ∧
      ∃ later : List FsCall,
        (main sample_world ("svnadmin" :: "recover" :: "repo" :: [])).calls
          = [.svn_fs_open_berkeley "repo",
             .apr_file_open (sample_world.open_berkeley "repo").2.db_lockfile,
             .apr_file_lock,
             .svn_fs_berkeley_recover (sample_world.open_berkeley "repo").2.db_env] ++ later ∧
        ∀ e : String, FsCall.svn_fs_berkeley_recover e ∉ later) ∧
    ((∀ env_path : String,
        FsCall.svn_fs_berkeley_recover env_path
          ∉ (main { sample_world with apr_file_lock := 11 }
              ("svnadmin" :: "recover" :: "repo" :: [])).calls) ∧
      (main { sample_world with apr_file_lock := 11 }
          ("svnadmin" :: "recover" :: "repo" :: [])).status = .exit EXIT_FAILURE) :=
  ⟨(recover_only_under_lock sample_world "svnadmin" "repo" []).1 "repo/db" (by decide),
   (recover_only_under_lock { sample_world with apr_file_lock := 11 } "svnadmin" "repo" []).2
      (Or.inr (by decide))⟩

/-! ## Error reporting and the small subcommands -/

/-- C13 (evaluated): two runs in which a filesystem operation fails and `main`
still returns `EXIT_SUCCESS` with nothing on stderr.  In `youngest repo` the
call of `svn_fs_youngest_rev` fails; its result is not inspected and the
indeterminate value is printed.  In `lsrevs repo 1` the listing of the root
directory fails inside `print_tree`, which returns the error; `main` drops
it. -/
theorem unchecked_errors_exit_success :
    sample_fs_youngest_fails.youngest_rev = .error sample_failure ∧
    (main sample_world_youngest_fails ["svnadmin", "youngest", "repo"]).calls
      = [.svn_repos_open "repo", .svn_fs_youngest_rev, .svn_fs_close_fs] ∧
    (main sample_world_youngest_fails ["svnadmin", "youngest", "repo"]).stdout = "0\n" ∧
    (main sample_world_youngest_fails ["svnadmin", "youngest", "repo"]).stderr = "" ∧
    (main sample_world_youngest_fails ["svnadmin", "youngest", "repo"]).status
      = .exit EXIT_SUCCESS ∧
    sample_fs_listing_fails.revision_root 1 = .ok (.error sample_failure) ∧
    (print_tree (.error sample_failure) "" 1).err = some sample_failure ∧
    (main sample_world_listing_fails ["svnadmin", "lsrevs", "repo", "1"]).calls
      = [.svn_repos_open "repo", .svn_fs_revision_root 1,
         .svn_fs_revision_prop 1 SVN_PROP_REVISION_DATE,
         .svn_fs_revision_prop 1 SVN_PROP_REVISION_AUTHOR,
         .svn_fs_revision_prop 1 SVN_PROP_REVISION_LOG,
         .svn_fs_dir_entries "", .svn_fs_close_fs] ∧
    (main sample_world_listing_fails ["svnadmin", "lsrevs", "repo", "1"]).stderr = "" ∧
    (main sample_world_listing_fails ["svnadmin", "lsrevs", "repo", "1"]).status
      = .exit EXIT_SUCCESS := by
  refine ⟨rfl, by decide, by decide, by decide, by decide, rfl, by decide, by decide,
    by decide, by decide⟩

/-- C14: when the repository opens and its youngest revision `y` is read,
`youngest` writes to standard output the decimal rendering of `y` followed by
one newline, and nothing else. -/
theorem youngest_prints_revision (w : World) (prog path : String) (more : List String)
    (fs : svn_fs_t) (y : Nat)
    (hopen : w.repos_open path = .ok fs)
    (hy : fs.youngest_rev = .ok (y : Int)) :
    (main w (prog :: "youngest" :: path :: more)).stdout = toString y ++ "\n" := by
  rw [main_youngest_eq, hopen]
  simp only [hy]
  unfold close_and_return
  split <;> rfl

/-- Witness of C14: the sample repository, whose youngest revision is 1. -/
theorem youngest_prints_revision_witness :
    (main sample_world ("svnadmin" :: "youngest" :: "repo" :: [])).stdout
      = toString 1 ++ "\n" :=
  youngest_prints_revision sample_world "svnadmin" "repo" [] sample_fs 1 rfl rfl

/-- C15: `rmtxn REPOS_PATH TXN_NAME` on a repository that opens.  If the
transaction named `TXN_NAME` opens, the calls are: open the repository, open
the transaction `TXN_NAME`, abort the handle just opened, and, when the abort
succeeds, close the filesystem; no other transaction is opened or aborted.
If it does not open, the calls stop there, nothing is aborted and the exit
status is failure. -/
theorem rmtxn_aborts_named_txn (w : World) (prog path txn_name : String) (more : List String)
    (fs : svn_fs_t) (hopen : w.repos_open path = .ok fs) :
    (∀ txn : svn_fs_txn_t, fs.open_txn txn_name = .ok txn →
      (main w (prog :: "rmtxn" :: path :: txn_name :: more)).calls
        = [.svn_repos_open path, .svn_fs_open_txn txn_name, .svn_fs_abort_txn txn_name]
          ++ (match txn.abort_txn with
              | none => [.svn_fs_close_fs]
              | some _ => [])) ∧
    (∀ err : svn_error_t, fs.open_txn txn_name = .error err →
      (main w (prog :: "rmtxn" :: path :: txn_name :: more)).calls
        = [.svn_repos_open path, .svn_fs_open_txn txn_name] ∧
      (∀ n : String,
        FsCall.svn_fs_abort_txn n ∉ (main w (prog :: "rmtxn" :: path :: txn_name :: more)).calls) ∧
      (main w (prog :: "rmtxn" :: path :: txn_name :: more)).stderr = w.handle_error err ∧
      (main w (prog :: "rmtxn" :: path :: txn_name :: more)).status = .exit EXIT_FAILURE) := by
  rw [main_rmtxn_eq, hopen]
  refine ⟨fun txn htxn => ?_, fun err herr => ?_⟩
  · simp only [htxn]
    cases txn.abort_txn with
    | none => simp [close_and_return_calls]
    | some e => simp [goto_error]
  · simp only [herr]
    simp [goto_error]

/-- Witness of C15: removing the open transaction `2` of the sample
repository, and trying to remove a transaction `9` that does not exist. -/
theorem rmtxn_aborts_named_txn_witness :
    (main sample_world ("svnadmin" :: "rmtxn" :: "repo" :: "2" :: [])).calls
      = [.svn_repos_open "repo", .svn_fs_open_txn "2", .svn_fs_abort_txn "2"]
        ++ (match sample_txn.abort_txn with
            | none => [.svn_fs_close_fs]
            | some _ => []) ∧
    ((main sample_world ("svnadmin" :: "rmtxn" :: "repo" :: "9" :: [])).calls
        = [.svn_repos_open "repo", .svn_fs_open_txn "9"] ∧
      (∀ n : String,
        FsCall.svn_fs_abort_txn n
          ∉ (main sample_world ("svnadmin" :: "rmtxn" :: "repo" :: "9" :: [])).calls) ∧
      (main sample_world ("svnadmin" :: "rmtxn" :: "repo" :: "9" :: [])).stderr
        = sample_world.handle_error sample_not_found ∧
      (main sample_world ("svnadmin" :: "rmtxn" :: "repo" :: "9" :: [])).status
        = .exit EXIT_FAILURE) :=
  ⟨(rmtxn_aborts_named_txn sample_world "svnadmin" "repo" "2" [] sample_fs rfl).1
      sample_txn rfl,
   (rmtxn_aborts_named_txn sample_world "svnadmin" "repo" "9" [] sample_fs rfl).2
      sample_not_found rfl⟩

/-- C16: `createtxn REPOS_PATH BASE_REV` on a repository that opens.  When
every call succeeds the calls are exactly: open the repository, begin one
transaction based on the value `atoi` reads from `BASE_REV`, close that
transaction handle, close the filesystem, and the exit status is success.
When the begin fails the calls stop there and the exit status is failure.  In
no run is a transaction aborted (and `main` has no call that commits one).
The value read is the integer value of `BASE_REV` whenever `BASE_REV` is the
decimal form of an integer that fits an `int`. -/
theorem createtxn_begins_and_closes (w : World) (prog path base_rev : String)
    (more : List String) (fs : svn_fs_t) (hopen : w.repos_open path = .ok fs) :
    (∀ txn : svn_fs_txn_t, fs.begin_txn (atoi base_rev) = .ok txn →
      txn.close_txn = none → fs.close_fs = none →
      (main w (prog :: "createtxn" :: path :: base_rev :: more)).calls
        = [.svn_repos_open path, .svn_fs_begin_txn (atoi base_rev),
           .svn_fs_close_txn (atoi base_rev), .svn_fs_close_fs] ∧
      (main w (prog :: "createtxn" :: path :: base_rev :: more)).status
        = .exit EXIT_SUCCESS) ∧
    (∀ err : svn_error_t, fs.begin_txn (atoi base_rev) = .error err →
      (main w (prog :: "createtxn" :: path :: base_rev :: more)).calls
        = [.svn_repos_open path, .svn_fs_begin_txn (atoi base_rev)] ∧
      (main w (prog :: "createtxn" :: path :: base_rev :: more)).stderr = w.handle_error err ∧
      (main w (prog :: "createtxn" :: path :: base_rev :: more)).status
        = .exit EXIT_FAILURE) ∧
    (∀ n : String,
      FsCall.svn_fs_abort_txn n
        ∉ (main w (prog :: "createtxn" :: path :: base_rev :: more)).calls) ∧
    (∀ v : Int, INT_MIN ≤ v → v ≤ INT_MAX → base_rev = toString v → atoi base_rev = v) := by
  rw [main_createtxn_eq, hopen]
  refine ⟨fun txn htxn hct hcf => ?_, fun err herr => ?_, fun n => ?_,
    fun v h1 h2 h => by rw [h, atoi_decimal v h1 h2]⟩
  · simp only [htxn, hct]
    simp [close_and_return, hcf]
  · simp only [herr]
    simp [goto_error]
  · simp only
    cases fs.begin_txn (atoi base_rev) with
    | error err => simp [goto_error]
    | ok txn =>
      cases h : txn.close_txn with
      | some e => simp [h, goto_error]
      | none => simp [h, close_and_return_calls]

/-- Witness of C16: `createtxn repo 1` on the sample repository, and
`createtxn repo 7`, whose base revision does not exist; `createtxn repo
4294967297` begins a transaction on revision 1, the value `atoi` reads. -/
theorem createtxn_begins_and_closes_witness :
    atoi "1" = 1 ∧ atoi "1234" = 1234 ∧ atoi "-12" = -12 ∧ atoi "4294967297" = 1 ∧
    (main sample_world ("svnadmin" :: "createtxn" :: "repo" :: "4294967297" :: [])).calls
      = [.svn_repos_open "repo", .svn_fs_begin_txn 1, .svn_fs_close_txn 1, .svn_fs_close_fs] ∧
    atoi (toString (2147483647 : Int)) = 2147483647 ∧
    ((main sample_world ("svnadmin" :: "createtxn" :: "repo" :: "1" :: [])).calls
        = [.svn_repos_open "repo", .svn_fs_begin_txn (atoi "1"),
           .svn_fs_close_txn (atoi "1"), .svn_fs_close_fs] ∧
      (main sample_world ("svnadmin" :: "createtxn" :: "repo" :: "1" :: [])).status
        = .exit EXIT_SUCCESS) ∧
    ((main sample_world ("svnadmin" :: "createtxn" :: "repo" :: "7" :: [])).calls
        = [.svn_repos_open "repo", .svn_fs_begin_txn (atoi "7")] ∧
      (main sample_world ("svnadmin" :: "createtxn" :: "repo" :: "7" :: [])).stderr
        = sample_world.handle_error sample_not_found ∧
      (main sample_world ("svnadmin" :: "createtxn" :: "repo" :: "7" :: [])).status
        = .exit EXIT_FAILURE) :=
  ⟨by decide, by decide, by decide, by decide, by decide,
   (createtxn_begins_and_closes sample_world "svnadmin" "repo" "2147483647" [] sample_fs
      rfl).2.2.2 2147483647 (by decide) (by decide) (by decide),
   (createtxn_begins_and_closes sample_world "svnadmin" "repo" "1" [] sample_fs rfl).1
      sample_txn rfl rfl rfl,
   (createtxn_begins_and_closes sample_world "svnadmin" "repo" "7" [] sample_fs rfl).2.1
      sample_not_found rfl⟩

/-! ## Errors inside the tree, missing properties, recovery after a failed open -/

/-- C22 (evaluated): the loop body of `print_tree` never returns an error for
a directory entry, whatever happens while the directory is listed: the value
returned by the recursive call is dropped.  So `print_tree` returns
`SVN_NO_ERROR` on a tree whose directory `trunk` cannot be listed (and goes on
with the next sibling), and on a tree where a query fails two levels down,
although it does return the error of a failing query at the top level. -/
theorem print_tree_drops_nested_error :
    (∀ (n s : String) (len : Except svn_error_t Int) (sub : DirAnswer) (path : String)
        (i : Nat),
      (print_tree_body (Entry.mk n (.ok s) (.ok true) len sub) path i).err = none) ∧
    (print_tree (.error sample_failure) "/trunk" 2).err = some sample_failure ∧
    (print_tree sample_root_unlistable "" 1).err = none ∧
    (print_tree sample_root_unlistable "" 1).calls
      = [.svn_fs_dir_entries "",
         .svn_fs_node_id "/a.txt", .svn_fs_is_dir "/a.txt", .svn_fs_file_length "/a.txt",
         .svn_fs_node_id "/trunk", .svn_fs_is_dir "/trunk", .svn_fs_dir_entries "/trunk",
         .svn_fs_node_id "/z", .svn_fs_is_dir "/z", .svn_fs_file_length "/z"] ∧
    (print_tree sample_root_unlistable "" 1).stdout
      = " a.txt <id1> [5]\n trunk/ <id2>\n z <id6> [7]\n" ∧
    (print_tree sample_root_deep_failure "" 1).err = none ∧
    (print_tree sample_root_deep_failure "" 1).stdout
      = " trunk/ <id2>\n  doc/ <id4>\n   README" ∧
    (print_tree (.ok [Entry.mk "README" (.error sample_failure) (.ok false) (.ok 0) (.ok [])])
        "" 1).err = some sample_failure := by
  refine ⟨fun n s len sub path i => by rw [body_dir], by decide, by decide, by decide,
    by decide, by decide, by decide, by decide⟩

/-- C28 (evaluated): the header of revision 0, which has no `svn:date`, cannot
be printed: after the title line `main` reads `datestamp->data` through the null
pointer.  Absent author and log are replaced by the empty string first (block
of revision 1).  The log of revision 1 is counted as 5 bytes while only the
2 bytes before its NUL byte are printed. -/
theorem header_dereferences_missing_date :
    sample_fs_odd_props.revision_prop 0 SVN_PROP_REVISION_DATE = .ok none ∧
    (lsrevs_body sample_fs_odd_props 0).outcome = .segv ∧
    (main sample_world_odd_props ["svnadmin", "lsrevs", "repo", "0"]).status = .segv ∧
    (main sample_world_odd_props ["svnadmin", "lsrevs", "repo", "0"]).stdout = "Revision 0\n" ∧
    sample_fs_odd_props.revision_prop 1 SVN_PROP_REVISION_AUTHOR = .ok none ∧
    sample_fs_odd_props.revision_prop 1 SVN_PROP_REVISION_LOG = .ok (some "ab\x00cd") ∧
    (main sample_world_odd_props ["svnadmin", "lsrevs", "repo", "1"]).stdout
      = "Revision 1\nCreated: d1\nAuthor: \nLog (5 bytes):\nab\n==========================================\n a.txt <id1> [5]\n\n" := by
  refine ⟨rfl, by decide, by decide, by decide, rfl, rfl, by decide⟩

/-- C25: when opening the filesystem fails with an error whose `src_err` is
`DB_RUNRECOVERY`, the run of `recover` is the same as when the open succeeds
with the same filesystem object: it goes on to open and lock the lockfile
and to run the recovery.  When the open fails with any other error, `main`
reports it and exits with failure right after the open, before the lockfile
is opened. -/
theorem recover_after_failed_open (w : World) (prog path : String) (more : List String)
    (err : svn_error_t) (h : (w.open_berkeley path).1 = some err) :
    (err.src_err = w.DB_RUNRECOVERY →
      main w (prog :: "recover" :: path :: more)
        = main { w with open_berkeley := fun _ => (none, (w.open_berkeley path).2) }
            (prog :: "recover" :: path :: more) ∧
      ∃ later : List FsCall,
        (main w (prog :: "recover" :: path :: more)).calls
          = .svn_fs_open_berkeley path
            :: .apr_file_open (w.open_berkeley path).2.db_lockfile :: later) ∧
    (err.src_err ≠ w.DB_RUNRECOVERY →
      (main w (prog :: "recover" :: path :: more)).calls = [.svn_fs_open_berkeley path] ∧
      (main w (prog :: "recover" :: path :: more)).stderr = w.handle_error err ∧
      (main w (prog :: "recover" :: path :: more)).status = .exit EXIT_FAILURE) := by
  refine ⟨fun hs => ⟨?_, ?_⟩, fun hs => ?_⟩
  · rw [main_recover_eq, main_recover_eq]
    unfold main_recover
    simp [h, hs, goto_error, close_and_return]
  · rw [main_recover_eq]
    by_cases hfile : w.apr_file_open (w.open_berkeley path).2.db_lockfile = APR_SUCCESS
    · by_cases hlock : w.apr_file_lock = APR_SUCCESS
      · rw [main_recover_locked w prog path
          (fun e he => by rw [h] at he; cases he; exact hs) hfile hlock]
        cases w.berkeley_recover (w.open_berkeley path).2.db_env with
        | some e => exact ⟨_, rfl⟩
        | none =>
          by_cases hu : w.apr_file_unlock = APR_SUCCESS
          · by_cases hc : w.apr_file_close = APR_SUCCESS
            · exact ⟨_, by simp [hu, hc, close_and_return_calls]; rfl⟩
            · exact ⟨_, by simp [hu, hc, goto_error]; rfl⟩
          · exact ⟨_, by simp [hu, goto_error]; rfl⟩
      · unfold main_recover
        exact ⟨_, by simp [h, hs, hfile, hlock, goto_error]; rfl⟩
    · unfold main_recover
      exact ⟨_, by simp [h, hs, hfile, goto_error]; rfl⟩
  · rw [main_recover_eq, main_recover_open_fails w prog path err h hs]
    exact ⟨rfl, rfl, rfl⟩

/-- Witness of C25: an open failing with `DB_RUNRECOVERY`, and an open failing
with another error. -/
theorem recover_after_failed_open_witness :
    (main sample_world_runrecovery ("svnadmin" :: "recover" :: "repo" :: [])
        = main { sample_world_runrecovery with
                 open_berkeley := fun _ => (none, (sample_world_runrecovery.open_berkeley "repo").2) }
            ("svnadmin" :: "recover" :: "repo" :: []) ∧
      ∃ later : List FsCall,
        (main sample_world_runrecovery ("svnadmin" :: "recover" :: "repo" :: [])).calls
          = .svn_fs_open_berkeley "repo"
            :: .apr_file_open (sample_world_runrecovery.open_berkeley "repo").2.db_lockfile
            :: later) ∧
    ((main sample_world_open_fails ("svnadmin" :: "recover" :: "repo" :: [])).calls
        = [.svn_fs_open_berkeley "repo"] ∧
      (main sample_world_open_fails ("svnadmin" :: "recover" :: "repo" :: [])).stderr
        = sample_world_open_fails.handle_error sample_failure ∧
      (main sample_world_open_fails ("svnadmin" :: "recover" :: "repo" :: [])).status
        = .exit EXIT_FAILURE) :=
  ⟨(recover_after_failed_open sample_world_runrecovery "svnadmin" "repo" []
      sample_runrecovery rfl).1 (by decide),
   (recover_after_failed_open sample_world_open_fails "svnadmin" "repo" []
      sample_failure rfl).2 (by decide)⟩


/-! ## Termination of print_tree and the paths it queries -/

theorem bounded_enough_all :
    (∀ e : Entry, ∀ (stack : Nat) (path : String) (i : Nat), tree_depth_entry e ≤ stack →
        print_tree_body_bounded stack e path i = some (print_tree_body e path i)) ∧
    (∀ es : List Entry, ∀ (stack : Nat) (path : String) (i : Nat), tree_depth_list es ≤ stack →
        print_tree_loop_bounded stack es path i = some (print_tree_loop es path i)) ∧
    (∀ d : DirAnswer, ∀ (stack : Nat) (path : String) (i : Nat), tree_depth d ≤ stack →
        print_tree_bounded stack d path i = some (print_tree d path i)) := by
  apply Entry.induct3
  · intro n a b c d ih stack path i h
    cases a with
    | error ea => rw [print_tree_body_bounded, print_tree_body]
    | ok s =>
      cases b with
      | error eb => rw [print_tree_body_bounded, print_tree_body]
      | ok isd =>
        cases isd with
        | false =>
          cases c with
          | error ec => rw [print_tree_body_bounded, print_tree_body]
          | ok len => rw [print_tree_body_bounded, print_tree_body]
        | true =>
          rw [tree_depth_entry] at h
          rw [print_tree_body_bounded, body_dir, ih stack _ _ h]
  · intro stack path i _
    rw [print_tree_loop_bounded, loop_nil]
  · intro e es ihe ihes stack path i h
    rw [tree_depth_list] at h
    have h1 : tree_depth_entry e ≤ stack := le_trans (Nat.le_max_left _ _) h
    have h2 : tree_depth_list es ≤ stack := le_trans (Nat.le_max_right _ _) h
    rw [print_tree_loop_bounded, ihe stack path i h1, ihes stack path i h2, loop_cons]
    dsimp only
    cases (print_tree_body e path i).err <;> rfl
  · intro e stack path i h
    rw [tree_depth] at h
    cases stack with
    | zero => exact absurd h (by decide)
    | succ s => rw [print_tree_bounded, tree_error]
  · intro es ih stack path i h
    rw [tree_depth] at h
    cases stack with
    | zero => omega
    | succ s =>
      rw [print_tree_bounded, ih s path i (by omega), tree_ok]

theorem bounded_short_all :
    (∀ e : Entry, ∀ (k stack : Nat) (path : String) (i : Nat),
        (∀ p ∈ tree_entry k e, p.2.answers_ok = true) → stack < tree_depth_entry e →
        print_tree_body_bounded stack e path i = none) ∧
    (∀ es : List Entry, ∀ (k stack : Nat) (path : String) (i : Nat),
        (∀ p ∈ tree_list k es, p.2.answers_ok = true) → stack < tree_depth_list es →
        print_tree_loop_bounded stack es path i = none) ∧
    (∀ d : DirAnswer, ∀ (k stack : Nat) (path : String) (i : Nat), d.isOk = true →
        (∀ p ∈ tree_dir k d, p.2.answers_ok = true) → stack < tree_depth d →
        print_tree_bounded stack d path i = none) := by
  apply Entry.induct3
  · intro n a b c d ih k stack path i h hlt
    have hself : (Entry.mk n a b c d).answers_ok = true :=
      h (k, .mk n a b c d) (tree_entry_head k n a b c d)
    cases a with
    | error ea => simp [Entry.answers_ok] at hself
    | ok s =>
      cases b with
      | error eb => simp [Entry.answers_ok] at hself
      | ok isd =>
        cases isd with
        | false => rw [tree_depth_entry] at hlt; exact absurd hlt (Nat.not_lt_zero _)
        | true =>
          cases d with
          | error ed => simp [Entry.answers_ok] at hself
          | ok sub =>
            have hsub : ∀ p ∈ tree_dir (k + 1) (.ok sub), p.2.answers_ok = true := by
              intro p hp
              apply h p
              rw [tree_entry]
              exact List.mem_cons_of_mem _ hp
            rw [tree_depth_entry] at hlt
            rw [print_tree_body_bounded, ih (k + 1) stack _ _ rfl hsub hlt]
  · intro k stack path i _ hlt
    rw [tree_depth_list] at hlt
    exact absurd hlt (Nat.not_lt_zero _)
  · intro e es ihe ihes k stack path i h hlt
    have he : ∀ p ∈ tree_entry k e, p.2.answers_ok = true :=
      fun p hp => h p (by rw [tree_list]; exact List.mem_append_left _ hp)
    have hes : ∀ p ∈ tree_list k es, p.2.answers_ok = true :=
      fun p hp => h p (by rw [tree_list]; exact List.mem_append_right _ hp)
    rw [tree_depth_list] at hlt
    by_cases h1 : stack < tree_depth_entry e
    · rw [print_tree_loop_bounded, ihe k stack path i he h1]
    · have h2 : stack < tree_depth_list es := by
        rcases lt_max_iff.mp hlt with h3 | h3
        · exact absurd h3 h1
        · exact h3
      have hb := body_err e path i
      rw [(reached_eq_tree_all.1 e k he).2] at hb
      have hnone : (print_tree_body e path i).err = none := by
        cases hx : (print_tree_body e path i).err with
        | none => rfl
        | some x => rw [hx] at hb; simp at hb
      rw [print_tree_loop_bounded, bounded_enough_all.1 e stack path i (Nat.le_of_not_lt h1)]
      simp only [hnone]
      rw [ihes k stack path i hes h2]
  · intro e k stack path i h
    simp [Except.isOk, Except.toBool] at h
  · intro es ih k stack path i _ h hlt
    rw [tree_depth] at hlt
    cases stack with
    | zero => rw [print_tree_bounded]
    | succ s =>
      rw [print_tree_bounded,
        ih k s path i (fun p hp => h p (by rw [tree_dir]; exact hp)) (by omega)]


theorem chains_depth_all :
    (∀ e : Entry, ∀ pre : List String,
        (chains_entry pre e).map (fun ce => (ce.1.length - 1, ce.2))
          = reached_entry pre.length e) ∧
    (∀ es : List Entry, ∀ pre : List String,
        (chains_list pre es).map (fun ce => (ce.1.length - 1, ce.2))
          = reached_list pre.length es) ∧
    (∀ d : DirAnswer, ∀ pre : List String,
        (chains_dir pre d).map (fun ce => (ce.1.length - 1, ce.2))
          = reached_dir pre.length d) := by
  apply Entry.induct3
  · intro n a b c d ih pre
    cases a with
    | error ea => rw [chains_entry, reached_entry]; simp
    | ok s =>
      cases b with
      | error eb => rw [chains_entry, reached_entry]; simp
      | ok isd =>
        cases isd with
        | false => rw [chains_entry, reached_entry]; simp
        | true =>
          have h := ih (pre ++ [n])
          rw [List.length_append, List.length_singleton] at h
          rw [chains_entry, reached_entry, ← h]
          simp
  · intro pre
    rw [chains_list, reached_list]; rfl
  · intro e es ihe ihes pre
    rw [chains_list, reached_list, List.map_append, ihe pre]
    cases e.fails with
    | true => simp
    | false => simp [ihes pre]
  · intro e pre
    rw [chains_dir, reached_dir]; rfl
  · intro es ih pre
    rw [chains_dir, reached_dir]
    exact ih pre

theorem chains_extend_all :
    (∀ e : Entry, ∀ pre : List String, ∀ ce ∈ chains_entry pre e,
        ∃ t : List String, t ≠ [] ∧ ce.1 = pre ++ t) ∧
    (∀ es : List Entry, ∀ pre : List String, ∀ ce ∈ chains_list pre es,
        ∃ t : List String, t ≠ [] ∧ ce.1 = pre ++ t) ∧
    (∀ d : DirAnswer, ∀ pre : List String, ∀ ce ∈ chains_dir pre d,
        ∃ t : List String, t ≠ [] ∧ ce.1 = pre ++ t) := by
  apply Entry.induct3
  · intro n a b c d ih pre ce hce
    cases a with
    | error ea =>
      rw [chains_entry] at hce
      exact ⟨[n], by simp, by simp at hce; rw [hce]⟩
    | ok s =>
      cases b with
      | error eb =>
        rw [chains_entry] at hce
        exact ⟨[n], by simp, by simp at hce; rw [hce]⟩
      | ok isd =>
        cases isd with
        | false =>
          rw [chains_entry] at hce
          exact ⟨[n], by simp, by simp at hce; rw [hce]⟩
        | true =>
          rw [chains_entry] at hce
          rcases List.mem_cons.mp hce with h | h
          · exact ⟨[n], by simp, by rw [h]⟩
          · obtain ⟨t, _, ht⟩ := ih (pre ++ [n]) ce h
            exact ⟨n :: t, by simp, by rw [ht]; simp⟩
  · intro pre ce hce
    rw [chains_list] at hce
    simp at hce
  · intro e es ihe ihes pre ce hce
    rw [chains_list] at hce
    rcases List.mem_append.mp hce with h | h
    · exact ihe pre ce h
    · cases hf : e.fails with
      | true => rw [hf] at h; simp at h
      | false => rw [hf] at h; exact ihes pre ce (by simpa using h)
  · intro e pre ce hce
    rw [chains_dir] at hce
    simp at hce
  · intro es ih pre ce hce
    rw [chains_dir] at hce
    exact ih pre ce hce

theorem intercalate_slash (a : List Char) (ms : List (List Char)) :
    List.intercalate ['/'] (a :: ms) = a ++ (ms.map (fun m => '/' :: m)).flatten := by
  induction ms generalizing a with
  | nil => simp [List.intercalate]
  | cons m ms ih =>
    have h := ih m
    simp only [List.intercalate, List.intersperse_cons_cons, List.flatten_cons, List.map_cons] at h ⊢
    rw [h]
    simp

theorem chain_path_data (names : List String) (P : String) :
    (chain_path P names).data = P.data ++ (names.map (fun n => '/' :: n.data)).flatten := by
  induction names generalizing P with
  | nil => simp [chain_path]
  | cons n ns ih =>
    have h := ih (P ++ "/" ++ n)
    rw [chain_path] at h ⊢
    rw [List.foldl_cons, h]
    simp [String.data_append]

theorem double_slash_append (m rest : List Char) (hm : '/' ∉ m) :
    double_slash (m ++ rest) = double_slash rest := by
  induction m with
  | nil => rfl
  | cons x m ih =>
    have hx : x ≠ '/' := fun h => hm (by rw [h]; exact List.mem_cons_self _ _)
    have hm2 : '/' ∉ m := fun h => hm (List.mem_cons_of_mem _ h)
    have ih2 := ih hm2
    cases hcase : m ++ rest with
    | nil =>
      have h1 : rest = [] := (List.append_eq_nil.mp hcase).2
      rw [List.cons_append, hcase, h1]; rfl
    | cons b t =>
      rw [List.cons_append, hcase, double_slash, ← hcase, ih2]
      simp [hx]

theorem slashed_no_double (ms : List (List Char)) (h : ∀ m ∈ ms, m ≠ [] ∧ '/' ∉ m) :
    double_slash (ms.map (fun m => '/' :: m)).flatten = false := by
  induction ms with
  | nil => rfl
  | cons m ms ih =>
    obtain ⟨hne, hns⟩ := h m (List.mem_cons_self _ _)
    have ih2 := ih (fun x hx => h x (List.mem_cons_of_mem _ hx))
    cases m with
    | nil => exact absurd rfl hne
    | cons x m =>
      have hx : x ≠ '/' := fun h => hns (by rw [h]; exact List.mem_cons_self _ _)
      rw [List.map_cons, List.flatten_cons, List.cons_append, List.cons_append, double_slash,
        ← List.cons_append, double_slash_append _ _ hns, ih2]
      simp [hx]

theorem slashed_last (ms : List (List Char)) (hne : ms ≠ [])
    (h : ∀ m ∈ ms, m ≠ [] ∧ '/' ∉ m) :
    (ms.map (fun m => '/' :: m)).flatten.getLast? ≠ some '/' := by
  induction ms with
  | nil => exact absurd rfl hne
  | cons m ms ih =>
    obtain ⟨hmne, hns⟩ := h m (List.mem_cons_self _ _)
    cases ms with
    | nil =>
      simp only [List.map_cons, List.map_nil, List.flatten_cons, List.flatten_nil,
        List.append_nil]
      rw [← List.singleton_append, List.getLast?_append_of_ne_nil _ hmne]
      intro hl
      exact hns (List.mem_of_getLast?_eq_some hl)
    | cons m2 ms2 =>
      have ih2 := ih (by simp) (fun x hx => h x (List.mem_cons_of_mem _ hx))
      rw [List.map_cons, List.flatten_cons, List.getLast?_append_of_ne_nil _ (by simp)]
      exact ih2

theorem slashed_split (ms : List (List Char)) (h : ∀ m ∈ ms, m ≠ [] ∧ '/' ∉ m) :
    (ms.map (fun m => '/' :: m)).flatten.splitOn '/' = [] :: ms := by
  have h1 := List.splitOn_intercalate ([] :: ms) '/'
    (by
      intro l hl
      rcases List.mem_cons.mp hl with h2 | h2
      · rw [h2]; simp
      · exact (h l h2).2)
    (by simp)
  rw [intercalate_slash, List.nil_append] at h1
  exact h1

theorem chains_names_all :
    (∀ e : Entry, ∀ (pre : List String) (k : Nat), ∀ ce ∈ chains_entry pre e, ∀ n ∈ ce.1,
        n ∈ pre ∨ ∃ p ∈ tree_entry k e, p.2.name = n) ∧
    (∀ es : List Entry, ∀ (pre : List String) (k : Nat), ∀ ce ∈ chains_list pre es, ∀ n ∈ ce.1,
        n ∈ pre ∨ ∃ p ∈ tree_list k es, p.2.name = n) ∧
    (∀ d : DirAnswer, ∀ (pre : List String) (k : Nat), ∀ ce ∈ chains_dir pre d, ∀ n ∈ ce.1,
        n ∈ pre ∨ ∃ p ∈ tree_dir k d, p.2.name = n) := by
  apply Entry.induct3
  · intro n0 a b c d ih pre k ce hce n hn
    have hhead : ce = (pre ++ [n0], Entry.mk n0 a b c d) →
        n ∈ pre ∨ ∃ p ∈ tree_entry k (.mk n0 a b c d), p.2.name = n := by
      intro h
      rw [h] at hn
      rcases List.mem_append.mp hn with h1 | h1
      · exact Or.inl h1
      · refine Or.inr ⟨(k, .mk n0 a b c d), tree_entry_head k n0 a b c d, ?_⟩
        simp at h1
        rw [h1]; rfl
    cases a with
    | error ea =>
      rw [chains_entry] at hce
      exact hhead (by simpa using hce)
    | ok s =>
      cases b with
      | error eb =>
        rw [chains_entry] at hce
        exact hhead (by simpa using hce)
      | ok isd =>
        cases isd with
        | false =>
          rw [chains_entry] at hce
          exact hhead (by simpa using hce)
        | true =>
          rw [chains_entry] at hce
          rcases List.mem_cons.mp hce with h | h
          · exact hhead h
          · rcases ih (pre ++ [n0]) (k + 1) ce h n hn with h1 | ⟨p, hp, hpn⟩
            · rcases List.mem_append.mp h1 with h2 | h2
              · exact Or.inl h2
              · refine Or.inr ⟨(k, .mk n0 (.ok s) (.ok true) c d),
                  tree_entry_head k n0 _ _ c d, ?_⟩
                simp at h2
                rw [h2]; rfl
            · refine Or.inr ⟨p, ?_, hpn⟩
              rw [tree_entry]
              exact List.mem_cons_of_mem _ hp
  · intro pre k ce hce
    rw [chains_list] at hce
    simp at hce
  · intro e es ihe ihes pre k ce hce n hn
    rw [chains_list] at hce
    rcases List.mem_append.mp hce with h | h
    · rcases ihe pre k ce h n hn with h1 | ⟨p, hp, hpn⟩
      · exact Or.inl h1
      · exact Or.inr ⟨p, by rw [tree_list]; exact List.mem_append_left _ hp, hpn⟩
    · cases hf : e.fails with
      | true => rw [hf] at h; simp at h
      | false =>
        rw [hf] at h
        rcases ihes pre k ce (by simpa using h) n hn with h1 | ⟨p, hp, hpn⟩
        · exact Or.inl h1
        · exact Or.inr ⟨p, by rw [tree_list]; exact List.mem_append_right _ hp, hpn⟩
  · intro e pre k ce hce
    rw [chains_dir] at hce
    simp at hce
  · intro es ih pre k ce hce n hn
    rw [chains_dir] at hce
    rcases ih pre k ce hce n hn with h1 | ⟨p, hp, hpn⟩
    · exact Or.inl h1
    · exact Or.inr ⟨p, by rw [tree_dir]; exact hp, hpn⟩

theorem filter_entry_calls (P : String) (l : List (List String × Entry)) :
    (l.flatMap (fun ce => entry_calls (chain_path P ce.1) ce.2)).filter FsCall.is_dir_entries
      = (l.filter (fun ce => ce.2.entered)).map
          (fun ce => FsCall.svn_fs_dir_entries (chain_path P ce.1)) := by
  induction l with
  | nil => rfl
  | cons ce l ih =>
    rw [List.flatMap_cons, List.filter_append, ih]
    obtain ⟨names, e⟩ := ce
    match e with
    | .mk _ (.error _) _ _ _ => simp [entry_calls, Entry.entered, FsCall.is_dir_entries]
    | .mk _ (.ok _) (.error _) _ _ => simp [entry_calls, Entry.entered, FsCall.is_dir_entries]
    | .mk _ (.ok _) (.ok true) _ _ => simp [entry_calls, Entry.entered, FsCall.is_dir_entries]
    | .mk _ (.ok _) (.ok false) _ _ => simp [entry_calls, Entry.entered, FsCall.is_dir_entries]

theorem entered_count (d : DirAnswer) (hok : queries_succeed d) :
    ((chains_dir [] d).filter (fun ce => ce.2.entered)).length = directory_count d := by
  have h1 := chains_depth_all.2.2 d []
  have h2 := (reached_eq_tree_all.2.2 d 0 hok.1 hok.2).1
  rw [List.length_nil, h2] at h1
  have h3 : (chains_dir [] d).filter (fun ce => ce.2.entered)
      = (chains_dir [] d).filter (fun ce => ce.2.is_directory) := by
    apply List.filter_congr
    intro ce hce
    have hmem : (ce.1.length - 1, ce.2) ∈ tree_dir 0 d := by
      rw [← h1]
      exact List.mem_map.mpr ⟨ce, hce, rfl⟩
    have hans := hok.2 _ hmem
    obtain ⟨names, e⟩ := ce
    match e, hans with
    | .mk _ (.ok _) (.ok true) _ (.ok _), _ => rfl
    | .mk _ (.ok _) (.ok false) (.ok _) _, _ => rfl
  rw [h3, directory_count, ← h1, List.filter_map, List.length_map]
  rfl

/-- C26: `print_tree` terminates on every finite tree of filesystem answers.
Run with room for `stack` nested calls of itself, it completes with the
result of `print_tree` as soon as `stack` reaches the depth of the tree (the
number of directory levels, the starting directory being the first), whether
or not queries fail; the `svn_fs_dir_entries` calls are one for the starting
path and then exactly one for each entry the loop enters as a directory, in the
order the entries are reached; and when every query succeeds, that is one call
more than the tree has directory entries, and no room below the depth of the
tree is enough: the recursion depth equals the depth of the tree. -/
theorem print_tree_terminates (d : DirAnswer) (path : String) (i : Nat) :
    (∀ stack : Nat, tree_depth d ≤ stack →
        print_tree_bounded stack d path i = some (print_tree d path i)) ∧
    (print_tree d path i).calls.filter FsCall.is_dir_entries
      = .svn_fs_dir_entries path ::
        ((chains_dir [] d).filter (fun ce => ce.2.entered)).map
          (fun ce => FsCall.svn_fs_dir_entries (chain_path path ce.1)) ∧
    (queries_succeed d →
      (∀ stack : Nat, print_tree_bounded stack d path i
          = if tree_depth d ≤ stack then some (print_tree d path i) else none) ∧
      ((print_tree d path i).calls.filter FsCall.is_dir_entries).length
        = 1 + directory_count d) := by
  have hcalls : (print_tree d path i).calls.filter FsCall.is_dir_entries
      = .svn_fs_dir_entries path ::
        ((chains_dir [] d).filter (fun ce => ce.2.entered)).map
          (fun ce => FsCall.svn_fs_dir_entries (chain_path path ce.1)) := by
    have h := (calls_chains_all path).2.2 d [] i
    have hp : chain_path path [] = path := rfl
    rw [hp] at h
    rw [h, List.filter_cons_of_pos (by rfl), filter_entry_calls]
  refine ⟨fun stack h => bounded_enough_all.2.2 d stack path i h, hcalls, fun hok => ⟨?_, ?_⟩⟩
  · intro stack
    by_cases h : tree_depth d ≤ stack
    · rw [if_pos h]; exact bounded_enough_all.2.2 d stack path i h
    · rw [if_neg h]
      exact bounded_short_all.2.2 d 0 stack path i hok.1 hok.2 (Nat.lt_of_not_le h)
  · rw [hcalls, List.length_cons, List.length_map, entered_count d hok]
    omega

/-- Witness of C26: the tree with a directory `trunk` holding a directory
`doc` has depth 3; room for 3 nested calls completes the listing, room for 2
does not, and `svn_fs_dir_entries` is called on the starting path, on `/trunk`
and on `/trunk/doc`. -/
theorem print_tree_terminates_witness :
    queries_succeed sample_root2 ∧ tree_depth sample_root2 = 3 ∧
    directory_count sample_root2 = 2 ∧
    print_tree_bounded 3 sample_root2 "" 1 = some (print_tree sample_root2 "" 1) ∧
    print_tree_bounded 2 sample_root2 "" 1 = none ∧
    (print_tree sample_root2 "" 1).calls.filter FsCall.is_dir_entries
      = [.svn_fs_dir_entries "", .svn_fs_dir_entries "/trunk",
         .svn_fs_dir_entries "/trunk/doc"] ∧
    ((print_tree sample_root2 "" 1).calls.filter FsCall.is_dir_entries).length
      = 1 + directory_count sample_root2 :=
  have hok : queries_succeed sample_root2 := ⟨by decide, by decide⟩
  ⟨hok, by decide, by decide,
   (print_tree_terminates sample_root2 "" 1).1 3 (by decide),
   ((print_tree_terminates sample_root2 "" 1).2.2 hok).1 2,
   by decide,
   ((print_tree_terminates sample_root2 "" 1).2.2 hok).2⟩

/-- C29: the filesystem calls of `print_tree` started on the path `P` are
`svn_fs_dir_entries P` followed, for each entry reached through the names
`n1, ..., nk` in the order the entries are reached, by the calls for that entry,
all of them on the path `P/n1/.../nk` (`P` followed by a slash and a name for
each level).  When every entry name of the tree is non-empty and holds no
slash, then for the starting path `""` used by `main` every such path splits at
its slashes into one empty piece followed by the names `n1, ..., nk`: it begins
with a slash that is not followed by another one, and it has no empty
component, no doubled slash and no trailing slash. -/
theorem print_tree_paths (d : DirAnswer) (P : String) (i : Nat)
    (hnames : ∀ p ∈ tree_dir 0 d, good_name p.2.name) :
    (print_tree d P i).calls
      = .svn_fs_dir_entries P ::
        (chains_dir [] d).flatMap (fun ce => entry_calls (chain_path P ce.1) ce.2) ∧
    (chains_dir [] d).map (fun ce => (ce.1.length - 1, ce.2)) = reached_dir 0 d ∧
    (∀ names : List String,
        (chain_path P names).data
          = P.data ++ (names.map (fun n => '/' :: n.data)).flatten) ∧
    ∀ ce ∈ chains_dir [] d,
      ce.1 ≠ [] ∧
      (chain_path "" ce.1).data.splitOn '/' = [] :: ce.1.map (fun n => n.data) ∧
      (∀ c ∈ ((chain_path "" ce.1).data.splitOn '/').tail, c ≠ []) ∧
      (chain_path "" ce.1).data.head? = some '/' ∧
      (chain_path "" ce.1).data.tail.head? ≠ some '/' ∧
      double_slash (chain_path "" ce.1).data = false ∧
      (chain_path "" ce.1).data.getLast? ≠ some '/' := by
  refine ⟨(calls_chains_all P).2.2 d [] i, chains_depth_all.2.2 d [],
    fun names => chain_path_data names P, fun ce hce => ?_⟩
  obtain ⟨t, htne, ht⟩ := chains_extend_all.2.2 d [] ce hce
  have hne : ce.1 ≠ [] := by rw [ht]; simpa using htne
  have hgood : ∀ m ∈ ce.1.map (fun n => n.data), m ≠ [] ∧ '/' ∉ m := by
    intro m hm
    obtain ⟨n, hn, hnm⟩ := List.mem_map.mp hm
    rcases chains_names_all.2.2 d [] 0 ce hce n hn with h1 | ⟨p, hp, hpn⟩
    · simp at h1
    · have hg := hnames p hp
      rw [hpn] at hg
      rw [← hnm]
      exact hg
  have hdata : (chain_path "" ce.1).data
      = ((ce.1.map (fun n => n.data)).map (fun m => '/' :: m)).flatten := by
    rw [chain_path_data, List.map_map]
    rfl
  have hsplit := slashed_split _ hgood
  refine ⟨hne, ?_, ?_, ?_, ?_, ?_, ?_⟩
  · rw [hdata]; exact hsplit
  · rw [hdata, hsplit]
    intro c hc
    exact (hgood c hc).1
  · rw [hdata]
    cases hc : ce.1 with
    | nil => exact absurd hc hne
    | cons n ns => simp
  · rw [hdata]
    cases hc : ce.1 with
    | nil => exact absurd hc hne
    | cons n ns =>
      have hg := hgood n.data (by rw [hc]; simp)
      cases hn : n.data with
      | nil => exact absurd hn hg.1
      | cons x m =>
        have hx : x ≠ '/' := fun h => hg.2 (by rw [hn, h]; exact List.mem_cons_self _ _)
        simp [hn, hx]
  · rw [hdata]; exact slashed_no_double _ hgood
  · rw [hdata]; exact slashed_last _ (by simpa using hne) hgood

/-- Witness of C29: in the tree with `trunk` holding `doc` holding `README`,
the calls for that file are made on `/trunk/doc/README`. -/
theorem print_tree_paths_witness :
    (∀ p ∈ tree_dir 0 sample_root2, good_name p.2.name) ∧
    (chains_dir [] sample_root2).map (fun ce => ce.1)
      = [["a.txt"], ["trunk"], ["trunk", "b.c"], ["trunk", "doc"],
         ["trunk", "doc", "README"], ["z"]] ∧
    chain_path "" ["trunk", "doc", "README"] = "/trunk/doc/README" ∧
    FsCall.svn_fs_file_length "/trunk/doc/README" ∈ (print_tree sample_root2 "" 1).calls ∧
    (print_tree sample_root2 "" 1).calls
      = .svn_fs_dir_entries "" ::
        (chains_dir [] sample_root2).flatMap
          (fun ce => entry_calls (chain_path "" ce.1) ce.2) ∧
    ∀ ce ∈ chains_dir [] sample_root2,
      ce.1 ≠ [] ∧
      (chain_path "" ce.1).data.splitOn '/' = [] :: ce.1.map (fun n => n.data) ∧
      (∀ c ∈ ((chain_path "" ce.1).data.splitOn '/').tail, c ≠ []) ∧
      (chain_path "" ce.1).data.head? = some '/' ∧
      (chain_path "" ce.1).data.tail.head? ≠ some '/' ∧
      double_slash (chain_path "" ce.1).data = false ∧
      (chain_path "" ce.1).data.getLast? ≠ some '/' :=
  have hnames : ∀ p ∈ tree_dir 0 sample_root2, good_name p.2.name := by decide
  ⟨hnames, by decide, by decide, by decide,
   (print_tree_paths sample_root2 "" 1 hnames).1,
   (print_tree_paths sample_root2 "" 1 hnames).2.2.2⟩

end Svnadmin

namespace LibsvnWc

/-! ## The cached properties and the format version -/

theorem cachable_props_entries (a b c : String)
    (ha : ' ' ∉ a.data) (hb : ' ' ∉ b.data) (hc : ' ' ∉ c.data) :
    space_separated (SVN_WC__CACHABLE_PROPS a b c) = [a, b, c] := by
  have hdata : (SVN_WC__CACHABLE_PROPS a b c).data
      = [' '].intercalate [a.data, b.data, c.data] := by
    simp [SVN_WC__CACHABLE_PROPS, List.intercalate, String.data_append]
  have hsplit : ([' '].intercalate [a.data, b.data, c.data]).splitOn ' '
      = [a.data, b.data, c.data] := List.splitOn_intercalate [a.data, b.data, c.data] ' '
    (by
      intro l hl
      simp only [List.mem_cons, List.mem_singleton, List.not_mem_nil, or_false] at hl
      rcases hl with rfl | rfl | rfl
      · exact ha
      · exact hb
      · exact hc)
    (by simp)
  rw [space_separated, hdata, hsplit]
  rfl

/-- The value svn_props.h gives `SVN_PROP_SPECIAL`, `SVN_PROP_EXTERNALS`,
`SVN_PROP_NEEDS_LOCK` and `SVN_PROP_EXECUTABLE`: with them the list is
`svn:special svn:externals svn:needs-lock`. -/
theorem cachable_props_sample :
    SVN_WC__CACHABLE_PROPS "svn:special" "svn:externals" "svn:needs-lock"
      = "svn:special svn:externals svn:needs-lock" := by decide

/-- C17 (as stated, refuted): with the property names of svn_props.h the
list has the three entries `svn:special`, `svn:externals` and
`svn:needs-lock`; the executable-bit property `svn:executable` is not one of
them. -/
theorem cachable_props_counterexample :
    space_separated (SVN_WC__CACHABLE_PROPS "svn:special" "svn:externals" "svn:needs-lock")
      = ["svn:special", "svn:externals", "svn:needs-lock"] ∧
    "svn:executable"
      ∉ space_separated (SVN_WC__CACHABLE_PROPS "svn:special" "svn:externals" "svn:needs-lock") := by
  decide

/-- C17 (amended): for property names without a space, the list
`SVN_WC__CACHABLE_PROPS` contains the special-file marker, the externals
definition and the lock-required flag property names; the executable-bit
property name, being none of these three, is not in the list. -/
theorem cachable_props_members (special externals needs_lock executable : String)
    (h1 : ' ' ∉ special.data) (h2 : ' ' ∉ externals.data) (h3 : ' ' ∉ needs_lock.data)
    (hx1 : executable ≠ special) (hx2 : executable ≠ externals)
    (hx3 : executable ≠ needs_lock) :
    special ∈ space_separated (SVN_WC__CACHABLE_PROPS special externals needs_lock) ∧
    externals ∈ space_separated (SVN_WC__CACHABLE_PROPS special externals needs_lock) ∧
    needs_lock ∈ space_separated (SVN_WC__CACHABLE_PROPS special externals needs_lock) ∧
    executable ∉ space_separated (SVN_WC__CACHABLE_PROPS special externals needs_lock) := by
  rw [cachable_props_entries special externals needs_lock h1 h2 h3]
  simp [hx1, hx2, hx3]

/-- Witness of the amended C17: the property names of svn_props.h. -/
theorem cachable_props_members_witness :
    "svn:special"
      ∈ space_separated (SVN_WC__CACHABLE_PROPS "svn:special" "svn:externals" "svn:needs-lock") ∧
    "svn:externals"
      ∈ space_separated (SVN_WC__CACHABLE_PROPS "svn:special" "svn:externals" "svn:needs-lock") ∧
    "svn:needs-lock"
      ∈ space_separated (SVN_WC__CACHABLE_PROPS "svn:special" "svn:externals" "svn:needs-lock") ∧
    "svn:executable"
      ∉ space_separated (SVN_WC__CACHABLE_PROPS "svn:special" "svn:externals" "svn:needs-lock") :=
  cachable_props_members "svn:special" "svn:externals" "svn:needs-lock" "svn:executable"
    (by decide) (by decide) (by decide) (by decide) (by decide) (by decide)

/-- C18: a stored format version is handled exactly when it does not exceed
`SVN_WC__VERSION`, which is 6: every version from 1 to 6 is accepted, every
version above 6 is rejected with `FormatUnsupported`, and the documented
versions start at 1, so there is no version 0 among them. -/
theorem format_version_handled :
    SVN_WC__VERSION = 6 ∧
    (∀ v : Int, handled v ↔ v ≤ SVN_WC__VERSION) ∧
    (∀ v : Int, 1 ≤ v → v ≤ 6 → open_format v = .ok ()) ∧
    (∀ v : Int, 6 < v → open_format v = .error .FormatUnsupported) ∧
    (0 : Int) ∉ documented_formats ∧
    (∀ v ∈ documented_formats, 1 ≤ v ∧ open_format v = .ok ()) := by
  have hgt : ∀ v : Int, 6 < v → open_format v = .error .FormatUnsupported := by
    intro v hv
    have h : v > SVN_WC__VERSION := hv
    simp [open_format, h]
  have hle : ∀ v : Int, v ≤ 6 → open_format v = .ok () := by
    intro v hv
    have h : ¬ v > SVN_WC__VERSION := by
      show ¬ v > 6
      omega
    simp [open_format, h]
  refine ⟨rfl, fun v => ⟨fun h => ?_, fun h => hle v h⟩, fun v _ h => hle v h, hgt,
    by decide, ?_⟩
  · by_contra hcon
    have h6 : 6 < v := by
      have : ¬ v ≤ 6 := hcon
      omega
    have herr := hgt v h6
    rw [show open_format v = .ok () from h] at herr
    cases herr
  · intro v hv
    simp only [documented_formats, List.mem_cons, List.mem_singleton, List.not_mem_nil,
      or_false] at hv
    rcases hv with rfl | rfl | rfl | rfl | rfl | rfl <;> exact ⟨by decide, rfl⟩

/-- Witness of C18: version 3 is accepted, version 7 is rejected. -/
theorem format_version_handled_witness :
    open_format 3 = .ok () ∧ open_format 7 = .error .FormatUnsupported :=
  ⟨format_version_handled.2.2.1 3 (by decide) (by decide),
   format_version_handled.2.2.2.1 7 (by decide)⟩

theorem cachable_props_data (a b c : String) :
    (SVN_WC__CACHABLE_PROPS a b c).data = a.data ++ ' ' :: (b.data ++ ' ' :: c.data) := by
  simp [SVN_WC__CACHABLE_PROPS, String.data_append]

/-- C24: for three property names that are non-empty and hold no space,
splitting `SVN_WC__CACHABLE_PROPS` at the spaces gives exactly the three
entries `SVN_PROP_SPECIAL`, `SVN_PROP_EXTERNALS`, `SVN_PROP_NEEDS_LOCK` in
that order; none of them is empty, and the list neither starts nor ends with
a space. -/
theorem cachable_props_well_formed (special externals needs_lock : String)
    (h1 : special ≠ "") (h2 : externals ≠ "") (h3 : needs_lock ≠ "")
    (s1 : ' ' ∉ special.data) (s2 : ' ' ∉ externals.data) (s3 : ' ' ∉ needs_lock.data) :
    space_separated (SVN_WC__CACHABLE_PROPS special externals needs_lock)
      = [special, externals, needs_lock] ∧
    (space_separated (SVN_WC__CACHABLE_PROPS special externals needs_lock)).length = 3 ∧
    "" ∉ space_separated (SVN_WC__CACHABLE_PROPS special externals needs_lock) ∧
    (SVN_WC__CACHABLE_PROPS special externals needs_lock).data.head? ≠ some ' ' ∧
    (SVN_WC__CACHABLE_PROPS special externals needs_lock).data.getLast? ≠ some ' ' := by
  have hsplit := cachable_props_entries special externals needs_lock s1 s2 s3
  refine ⟨hsplit, by rw [hsplit]; rfl, ?_, ?_, ?_⟩
  · rw [hsplit]
    simp only [List.mem_cons, List.mem_singleton, List.not_mem_nil, or_false, not_or]
    exact ⟨fun h => h1 h.symm, fun h => h2 h.symm, fun h => h3 h.symm⟩
  · rw [cachable_props_data]
    obtain ⟨l⟩ := special
    cases l with
    | nil => exact absurd rfl h1
    | cons x xs =>
      simp only [List.cons_append, List.head?_cons, ne_eq, Option.some.injEq]
      intro hx
      exact s1 (by rw [hx]; exact List.mem_cons_self _ _)
  · rw [cachable_props_data]
    obtain ⟨l⟩ := needs_lock
    cases l with
    | nil => exact absurd rfl h3
    | cons x xs =>
      intro hlast
      have hmem : ' ' ∈ x :: xs := by
        have hne : x :: xs ≠ [] := by simp
        have h := List.getLast?_eq_getLast (x :: xs) hne
        have hl : (special.data ++ ' ' :: (externals.data ++ ' ' :: (x :: xs))).getLast?
            = (x :: xs).getLast? := by
          have e : special.data ++ ' ' :: (externals.data ++ ' ' :: (x :: xs))
              = (special.data ++ ' ' :: (externals.data ++ [' '])) ++ (x :: xs) := by simp
          rw [e, List.getLast?_append_of_ne_nil _ hne]
        rw [hl, h] at hlast
        have := List.getLast_mem hne
        rw [Option.some.injEq] at hlast
        rw [hlast] at this
        exact this
      exact s3 hmem

/-- Witness of C24: the property names of svn_props.h. -/
theorem cachable_props_well_formed_witness :
    space_separated (SVN_WC__CACHABLE_PROPS "svn:special" "svn:externals" "svn:needs-lock")
      = ["svn:special", "svn:externals", "svn:needs-lock"] ∧
    (space_separated
        (SVN_WC__CACHABLE_PROPS "svn:special" "svn:externals" "svn:needs-lock")).length = 3 ∧
    "" ∉ space_separated (SVN_WC__CACHABLE_PROPS "svn:special" "svn:externals" "svn:needs-lock") ∧
    (SVN_WC__CACHABLE_PROPS "svn:special" "svn:externals" "svn:needs-lock").data.head?
      ≠ some ' ' ∧
    (SVN_WC__CACHABLE_PROPS "svn:special" "svn:externals" "svn:needs-lock").data.getLast?
      ≠ some ' ' :=
  cachable_props_well_formed "svn:special" "svn:externals" "svn:needs-lock"
    (by decide) (by decide) (by decide) (by decide) (by decide) (by decide)

end LibsvnWc

namespace StreamTest

/-! ## The test read stream -/

theorem to_apr_size_t_nonneg (x : Int) (h : 0 ≤ x) : to_apr_size_t x = x.toNat := by
  unfold to_apr_size_t
  rw [if_neg (by omega)]

theorem read_handler_loop_shape (n : Nat) : ∀ btn : stream_baton_t,
    (read_handler_loop n btn).1.length = n ∧
    (read_handler_loop n btn).2.capacity_left = btn.capacity_left - (n : Int) ∧
    (read_handler_loop n btn).2.max_read = btn.max_read := by
  induction n with
  | zero => intro btn; simp [read_handler_loop]
  | succ m ih =>
    intro btn
    obtain ⟨h1, h2, h3⟩ := ih
      { btn with current := (btn.current + 1) &&& 0x3f,
                 capacity_left := btn.capacity_left - 1 }
    simp only [read_handler_loop, List.length_cons, h1, h2, h3]
    refine ⟨trivial, ?_, trivial⟩
    push_cast
    ring

theorem land_0x3f (x : Nat) : x &&& 0x3f = x % 64 :=
  Nat.and_pow_two_sub_one_eq_mod x 6

theorem read_handler_loop_bytes (n : Nat) : ∀ btn : stream_baton_t, btn.current < 64 →
    (read_handler_loop n btn).1 = (List.range n).map (fun k => (btn.current + k) % 64 + 1) ∧
    (read_handler_loop n btn).2.current = (btn.current + n) % 64 := by
  induction n with
  | zero =>
    intro btn h
    simp [read_handler_loop, Nat.mod_eq_of_lt h]
  | succ m ih =>
    intro btn h
    obtain ⟨h1, h2⟩ := ih
      { btn with current := (btn.current + 1) &&& 0x3f,
                 capacity_left := btn.capacity_left - 1 }
      (by simp only [land_0x3f]; omega)
    simp only [land_0x3f] at h1 h2
    simp only [read_handler_loop, land_0x3f, h1, h2, List.range_succ_eq_map, List.map_cons,
      List.map_map]
    refine ⟨?_, by omega⟩
    congr 1
    · simp [Nat.mod_eq_of_lt h]
    · apply List.map_congr_left
      intro k _
      simp only [Function.comp]
      omega

theorem read_handler_len (btn : stream_baton_t) (n : Nat) (hc : 0 ≤ btn.capacity_left) :
    (read_handler btn n).len = min n (min btn.max_read btn.capacity_left.toNat) := by
  simp only [read_handler, to_apr_size_t_nonneg _ hc]
  split <;> split <;> omega

theorem read_handler_eq (btn : stream_baton_t) (n : Nat) :
    (read_handler btn n).buffer = (read_handler_loop (read_handler btn n).len btn).1 ∧
    (read_handler btn n).baton = (read_handler_loop (read_handler btn n).len btn).2 :=
  ⟨rfl, rfl⟩

/-- C20: a call of `read_handler` with requested length `n` on a baton with
`capacity_left >= 0` delivers exactly `min (n, max_read, capacity_left)`
bytes (so at most `max_read`), lowers `capacity_left` by that number, which
stays non-negative, and leaves `max_read` alone; `data_available_handler`
reports data exactly when `capacity_left > 0`. -/
theorem read_handler_delivers (btn : stream_baton_t) (n : Nat)
    (hc : 0 ≤ btn.capacity_left) :
    (read_handler btn n).len = min n (min btn.max_read btn.capacity_left.toNat) ∧
    (read_handler btn n).buffer.length = (read_handler btn n).len ∧
    (read_handler btn n).len ≤ btn.max_read ∧
    (read_handler btn n).baton.capacity_left
      = btn.capacity_left - ((read_handler btn n).len : Int) ∧
    0 ≤ (read_handler btn n).baton.capacity_left ∧
    (read_handler btn n).baton.max_read = btn.max_read ∧
    (data_available_handler btn = true ↔ 0 < btn.capacity_left) := by
  have hlen := read_handler_len btn n hc
  obtain ⟨hb, hbt⟩ := read_handler_eq btn n
  obtain ⟨h1, h2, h3⟩ := read_handler_loop_shape (read_handler btn n).len btn
  refine ⟨hlen, by rw [hb, h1], by omega, by rw [hbt, h2], by rw [hbt, h2]; omega,
    by rw [hbt, h3], ?_⟩
  simp [data_available_handler]

/-- Witness of C20: a request of 10 bytes on a stream with 25 bytes left and
chunks of at most 19 bytes. -/
theorem read_handler_delivers_witness :
    (read_handler ⟨25, 0, 19⟩ 10).len = min 10 (min 19 (25 : Int).toNat) ∧
    (read_handler ⟨25, 0, 19⟩ 10).buffer.length = (read_handler ⟨25, 0, 19⟩ 10).len ∧
    (read_handler ⟨25, 0, 19⟩ 10).len ≤ 19 ∧
    (read_handler ⟨25, 0, 19⟩ 10).baton.capacity_left
      = 25 - ((read_handler ⟨25, 0, 19⟩ 10).len : Int) ∧
    0 ≤ (read_handler ⟨25, 0, 19⟩ 10).baton.capacity_left ∧
    (read_handler ⟨25, 0, 19⟩ 10).baton.max_read = 19 ∧
    (data_available_handler ⟨25, 0, 19⟩ = true ↔ 0 < (25 : Int)) :=
  read_handler_delivers ⟨25, 0, 19⟩ 10 (by decide)

theorem read_until_empty_bytes (req : Nat → Nat) (hreq : ∀ j, 1 ≤ req j) (fuel : Nat) :
    ∀ (rem j : Nat) (btn : stream_baton_t),
      btn.capacity_left = (rem : Int) → btn.current < 64 → 1 ≤ btn.max_read →
      rem + 1 ≤ fuel →
      read_until_empty req fuel j btn
        = some ((List.range rem).map (fun k => (btn.current + k) % 64 + 1)) := by
  induction fuel with
  | zero => intro rem j btn _ _ _ h; omega
  | succ f ih =>
    intro rem j btn hcap hcur hmr hfuel
    have hc : 0 ≤ btn.capacity_left := by omega
    obtain ⟨hlen, _, _, hcap2, _, hmr2, _⟩ := read_handler_delivers btn (req j) hc
    obtain ⟨hb, hbt⟩ := read_handler_eq btn (req j)
    obtain ⟨hbytes, hcur2⟩ := read_handler_loop_bytes (read_handler btn (req j)).len btn hcur
    have hrj := hreq j
    rw [read_until_empty]
    by_cases hz : (read_handler btn (req j)).len = 0
    · have hrem : rem = 0 := by omega
      simp [hz, hrem]
    · have hd : (read_handler btn (req j)).len ≤ rem := by omega
      obtain ⟨rest, hrest⟩ : ∃ rest, rem = (read_handler btn (req j)).len + rest :=
        ⟨rem - (read_handler btn (req j)).len, by omega⟩
      have hrec := ih rest (j + 1) (read_handler btn (req j)).baton
        (by rw [hcap2, hcap, hrest]; push_cast; ring)
        (by rw [hbt, hcur2]; exact Nat.mod_lt _ (by decide))
        (by rw [hmr2]; exact hmr)
        (by omega)
      simp only [hz, if_false, hrec, Option.map_some']
      rw [hb, hbytes, hrest, List.range_add, List.map_append, List.map_map, hbt, hcur2]
      congr 2
      apply List.map_congr_left
      intro k _
      simp only [Function.comp]
      omega

/-- C19: for every capacity and every `max_read >= 1`, reading the stream of
`create_test_read_stream (capacity, max_read)` with requests of at least one
byte each until a read delivers nothing ends within `capacity + 1` reads, and
the concatenated chunks are exactly `capacity` bytes, the byte at offset `k`
being `(k mod 64) + 1`. -/
theorem test_read_stream_content (capacity max_read : Nat) (hmr : 1 ≤ max_read)
    (req : Nat → Nat) (hreq : ∀ j, 1 ≤ req j) (fuel : Nat) (hfuel : capacity + 1 ≤ fuel) :
    read_until_empty req fuel 0 (create_test_read_stream (capacity : Int) max_read)
      = some ((List.range capacity).map (fun k => k % 64 + 1)) ∧
    ((List.range capacity).map (fun k => k % 64 + 1)).length = capacity := by
  have h := read_until_empty_bytes req hreq fuel capacity 0
    (create_test_read_stream (capacity : Int) max_read) rfl
    (by show (0 : Nat) < 64; decide) hmr hfuel
  refine ⟨?_, by simp⟩
  rw [h]
  simp [create_test_read_stream]

/-- Witness of C19: 70 bytes read in requests of 10 bytes from chunks of at
most 19 bytes; the last bytes are 64, 1, 2, ..., 6. -/
theorem test_read_stream_content_witness :
    read_until_empty (fun _ => 10) 71 0 (create_test_read_stream ((70 : Nat) : Int) 19)
      = some ((List.range 70).map (fun k => k % 64 + 1)) ∧
    ((List.range 70).map (fun k => k % 64 + 1)).length = 70 :=
  test_read_stream_content 70 19 (by decide) (fun _ => 10) (fun _ => by show 1 ≤ 10; decide) 71
    (by decide)

/-! ## generate_test_bytes -/

theorem generate_test_bytes_loop_spec (n : Nat) : ∀ st : GenState,
    st.rep = 1 → st.rep_iter = 1 → st.c < 127 →
    generate_test_bytes_loop n st
      = { buffer := st.buffer ++ (List.range n).map (fun k => (st.c + k) % 127),
          rep := 1, rep_iter := 1, c := (st.c + n) % 127 } := by
  induction n with
  | zero =>
    intro st h1 h2 h3
    obtain ⟨b, r, ri, c⟩ := st
    simp only at h1 h2 h3
    subst h1 h2
    simp [generate_test_bytes_loop, Nat.mod_eq_of_lt h3]
  | succ m ih =>
    intro st h1 h2 h3
    have hne : st.c ≠ 127 := by omega
    have hstep : generate_test_bytes_step st
        = { buffer := st.buffer ++ [st.c], rep := 1, rep_iter := 1, c := (st.c + 1) % 127 } := by
      simp [generate_test_bytes_step, h1, h2, hne]
    rw [generate_test_bytes_loop, hstep, ih _ rfl rfl (Nat.mod_lt _ (by decide))]
    simp only [List.range_succ_eq_map, List.map_cons, List.map_map, List.append_assoc,
      List.singleton_append, GenState.mk.injEq, List.append_cancel_left_eq, List.cons.injEq,
      true_and]
    refine ⟨⟨by simp [Nat.mod_eq_of_lt h3], ?_⟩, by omega⟩
    apply List.map_congr_left
    intro k _
    simp only [Function.comp]
    omega

/-- C27: for every `n >= 0`, `generate_test_bytes (n)` returns exactly `n`
bytes, the byte at offset `k` being `k mod 127`; after any number of passes
`c` is below 127 (so never 127) and `repeat` is still 1. -/
theorem generate_test_bytes_cycle (n : Nat) :
    generate_test_bytes (n : Int) = (List.range n).map (fun k => k % 127) ∧
    (generate_test_bytes (n : Int)).length = n ∧
    (∀ k : Nat, k < n → (generate_test_bytes (n : Int))[k]? = some (k % 127)) ∧
    (∀ m : Nat, (generate_test_bytes_run (m : Int)).c < 127 ∧
      (generate_test_bytes_run (m : Int)).c ≠ 127 ∧
      (generate_test_bytes_run (m : Int)).rep = 1) := by
  have hrun : ∀ m : Nat, generate_test_bytes_run (m : Int)
      = { buffer := (List.range m).map (fun k => k % 127), rep := 1, rep_iter := 1,
          c := m % 127 } := by
    intro m
    have h := generate_test_bytes_loop_spec m { buffer := [], rep := 1, rep_iter := 1, c := 0 }
      rfl rfl (by decide)
    simpa [generate_test_bytes_run] using h
  have hb : generate_test_bytes (n : Int) = (List.range n).map (fun k => k % 127) := by
    rw [generate_test_bytes, hrun]
  refine ⟨hb, by rw [hb]; simp, fun k hk => by rw [hb]; simp [hk], fun m => ?_⟩
  rw [hrun]
  have : m % 127 < 127 := Nat.mod_lt _ (by decide)
  exact ⟨this, by show m % 127 ≠ 127; omega, rfl⟩

/-- Witness of C27: 130 bytes; the byte at offset 128 is 1. -/
theorem generate_test_bytes_cycle_witness :
    (generate_test_bytes ((130 : Nat) : Int))[128]? = some (128 % 127) :=
  (generate_test_bytes_cycle 130).2.2.1 128 (by decide)

/-! ## The lines of the test stream -/

theorem cycle_from_add (off a b : Nat) :
    cycle_from off (a + b) = cycle_from off a ++ cycle_from (off + a) b := by
  unfold cycle_from
  rw [List.range_add, List.map_append, List.map_map]
  congr 1
  apply List.map_congr_left
  intro k _
  simp only [Function.comp]
  omega

theorem cycle_from_shift (off n : Nat) : cycle_from (off + 64) n = cycle_from off n := by
  unfold cycle_from
  apply List.map_congr_left
  intro k _
  omega

theorem cycle_from_length (off n : Nat) : (cycle_from off n).length = n := by
  simp [cycle_from]

theorem cycle_from_one (off : Nat) : cycle_from off 1 = [off % 64 + 1] := by
  simp [cycle_from, List.range_succ]

theorem no_newline_first : ∀ x ∈ cycle_from 0 9, ¬ ((fun b => b == 10) x = true) := by
  decide

theorem no_newline_rest (n : Nat) (hn : n ≤ 63) :
    ∀ x ∈ cycle_from 10 n, ¬ ((fun b => b == 10) x = true) := by
  intro x hx
  simp only [cycle_from, List.mem_map, List.mem_range] at hx
  obtain ⟨k, hk, rfl⟩ := hx
  simp only [beq_iff_eq]
  omega

theorem cycle_from_10_split (n : Nat) (hn : 64 ≤ n) :
    cycle_from 10 n = cycle_from 10 63 ++ 10 :: cycle_from 10 (n - 64) := by
  have e : n = 63 + (1 + (n - 64)) := by omega
  conv_lhs => rw [e]
  rw [cycle_from_add, cycle_from_add, cycle_from_one]
  have h74 : cycle_from (10 + 63 + 1) (n - 64) = cycle_from 10 (n - 64) :=
    cycle_from_shift 10 (n - 64)
  rw [h74]
  rfl

theorem lines_of_rest (n : Nat) :
    lines_of (cycle_from 10 n)
      = List.replicate (n / 64) (cycle_from 10 63) ++ [cycle_from 10 (n % 64)] := by
  induction n using Nat.strong_induction_on with
  | _ n ih =>
    by_cases hn : 64 ≤ n
    · have hdiv : n / 64 = (n - 64) / 64 + 1 := by omega
      have hmod : n % 64 = (n - 64) % 64 := by omega
      rw [cycle_from_10_split n hn, lines_of,
        List.splitOnP_first _ _ (no_newline_rest 63 (le_refl _)) 10 (by decide)]
      have := ih (n - 64) (by omega)
      rw [lines_of] at this
      rw [this, hdiv, hmod, List.replicate_succ, List.cons_append]
    · have hdiv : n / 64 = 0 := by omega
      have hmod : n % 64 = n := by omega
      rw [lines_of, List.splitOnP_eq_single _ _ (no_newline_rest n (by omega)), hdiv, hmod]
      rfl

theorem lines_of_stream (N : Nat) (hN : 10 ≤ N) :
    lines_of (cycle_from 0 N)
      = cycle_from 0 9
        :: (List.replicate ((N - 10) / 64) (cycle_from 10 63)
            ++ [cycle_from 10 ((N - 10) % 64)]) := by
  have e : N = 9 + (1 + (N - 10)) := by omega
  conv_lhs => rw [e]
  rw [cycle_from_add, cycle_from_add, cycle_from_one]
  have h : lines_of (cycle_from 0 9 ++ ([(0 + 9) % 64 + 1] ++ cycle_from (0 + 9 + 1) (N - 10)))
      = cycle_from 0 9 :: lines_of (cycle_from 10 (N - 10)) := by
    rw [lines_of]
    exact List.splitOnP_first _ _ no_newline_first 10 (by decide) _
  rw [h, lines_of_rest]

theorem cycle_from_succ (off n : Nat) :
    cycle_from off (n + 1) = (off % 64 + 1) :: cycle_from (off + 1) n := by
  have e : n + 1 = 1 + n := by omega
  rw [e, cycle_from_add, cycle_from_one]
  rfl

theorem expect_line_content_loop_cycle (n : Nat) : ∀ (off : Nat) (c : Int),
    c = ((off % 64 : Nat) : Int) → expect_line_content_loop (cycle_from off n) c = true := by
  induction n with
  | zero => intro off c _; rfl
  | succ m ih =>
    intro off c hc
    rw [cycle_from_succ, expect_line_content_loop]
    have h1 : ((off % 64 + 1 : Nat) : Int) = c + 1 := by rw [hc]; push_cast; ring
    rw [if_pos h1]
    apply ih
    have h2 : (c + 1).toNat = off % 64 + 1 := by rw [hc]; omega
    rw [h2, land_0x3f]
    congr 1
    omega

theorem expect_line_content_cycle (off n : Nat) (hoff : off < 64) :
    expect_line_content (cycle_from off n) (off + 1) n = true := by
  rw [expect_line_content, if_pos (cycle_from_length off n)]
  apply expect_line_content_loop_cycle
  rw [Nat.mod_eq_of_lt hoff]
  push_cast
  ring

theorem buffered_wrapper_checks_cons (N read : Nat) (line : List Nat) (l : List (List Nat))
    (hl : l ≠ []) :
    buffered_wrapper_checks N read (line :: l)
      = ((if read = 0 then expect_line_content line 1 (10 - 1)
          else expect_line_content line (10 + 1) 63)
         && buffered_wrapper_checks N (read + (line.length + 1)) l) := by
  cases l with
  | nil => exact absurd rfl hl
  | cons next rest => rw [buffered_wrapper_checks]

theorem buffered_wrapper_checks_rest (N : Nat) (m : Nat) : ∀ read : Nat, 0 < read →
    read + 64 * m ≤ N → N - (read + 64 * m) < 64 →
    buffered_wrapper_checks N read
      (List.replicate m (cycle_from 10 63) ++ [cycle_from 10 (N - (read + 64 * m))]) = true := by
  induction m with
  | zero =>
    intro read hr _ _
    have hne : read ≠ 0 := by omega
    simp only [List.replicate_zero, List.nil_append, buffered_wrapper_checks, if_neg hne,
      Nat.mul_zero, Nat.add_zero]
    exact expect_line_content_cycle 10 (N - read) (by decide)
  | succ k ih =>
    intro read hr hle hlt
    have hne : read ≠ 0 := by omega
    rw [List.replicate_succ, List.cons_append, buffered_wrapper_checks_cons _ _ _ _ (by simp),
      if_neg hne, cycle_from_length]
    have h1 : expect_line_content (cycle_from 10 63) (10 + 1) 63 = true :=
      expect_line_content_cycle 10 63 (by decide)
    have e : N - (read + 64 * (k + 1)) = N - (read + (63 + 1) + 64 * k) := by omega
    rw [h1, Bool.true_and, e]
    exact ih (read + (63 + 1)) (by omega) (by omega) (by omega)

/-- C23: for every stream length `N >= 10` the bytes of the test stream
(chunks of at most 19 bytes, as in `test_stream_buffered_wrapper`), split
at the newline bytes, are: a first line of 9 bytes starting with byte 1; then
`(N - 10) / 64` complete lines, each the 63 bytes of the cycle from byte 11
on; and a last, unterminated line with the `N - (10 + 64 * ((N - 10) / 64))`
bytes that are left.  These are the lines the checks of
`test_stream_buffered_wrapper` accept.  For `N = 100000` that is 1562 lines of
63 bytes and a last line of 22 bytes. -/
theorem test_stream_lines (N : Nat) (hN : 10 ≤ N) (req : Nat → Nat) (hreq : ∀ j, 1 ≤ req j)
    (fuel : Nat) (hfuel : N + 1 ≤ fuel) :
    (∃ bytes : List Nat,
      read_until_empty req fuel 0 (create_test_read_stream (N : Int) 19) = some bytes ∧
      lines_of bytes
        = cycle_from 0 9
          :: (List.replicate ((N - 10) / 64) (cycle_from 10 63)
              ++ [cycle_from 10 ((N - 10) % 64)]) ∧
      buffered_wrapper_checks N 0 (lines_of bytes) = true) ∧
    ((cycle_from 0 9).length = 9 ∧ (cycle_from 0 9).head? = some 1) ∧
    ((cycle_from 10 63).length = 63 ∧ (cycle_from 10 63).head? = some 11 ∧
      expect_line_content (cycle_from 10 63) 11 63 = true) ∧
    (cycle_from 10 ((N - 10) % 64)).length = N - (10 + 64 * ((N - 10) / 64)) ∧
    ((100000 - 10) / 64 = 1562 ∧ (100000 - 10) % 64 = 22) := by
  have hbytes := read_until_empty_bytes req hreq fuel N 0
    (create_test_read_stream (N : Int) 19) rfl (by show (0 : Nat) < 64; decide)
    (by show 1 ≤ 19; decide) hfuel
  have hb : (List.range N).map (fun k => ((create_test_read_stream (N : Int) 19).current + k) % 64 + 1)
      = cycle_from 0 N := rfl
  rw [hb] at hbytes
  have hlines := lines_of_stream N hN
  have hr : (N - 10) % 64 = N - (10 + 64 * ((N - 10) / 64)) := by omega
  refine ⟨⟨cycle_from 0 N, hbytes, hlines, ?_⟩, ⟨by decide, by decide⟩,
    ⟨by decide, by decide, expect_line_content_cycle 10 63 (by decide)⟩,
    by rw [cycle_from_length, hr], by decide, by decide⟩
  rw [hlines, buffered_wrapper_checks_cons _ _ _ _ (by simp), if_pos rfl, cycle_from_length]
  have h1 : expect_line_content (cycle_from 0 9) 1 (10 - 1) = true :=
    expect_line_content_cycle 0 9 (by decide)
  rw [h1, Bool.true_and, hr]
  have e : N - (10 + 64 * ((N - 10) / 64)) = N - ((0 + (9 + 1)) + 64 * ((N - 10) / 64)) := by
    omega
  rw [e]
  exact buffered_wrapper_checks_rest N ((N - 10) / 64) (0 + (9 + 1)) (by omega) (by omega)
    (by omega)

/-- Witness of C23: a stream of 100 bytes read in requests of 7 bytes: lines
of 9, 63 and 26 bytes. -/
theorem test_stream_lines_witness :
    ∃ bytes : List Nat,
      read_until_empty (fun _ => 7) 101 0 (create_test_read_stream ((100 : Nat) : Int) 19)
        = some bytes ∧
      lines_of bytes
        = cycle_from 0 9
          :: (List.replicate ((100 - 10) / 64) (cycle_from 10 63)
              ++ [cycle_from 10 ((100 - 10) % 64)]) ∧
      buffered_wrapper_checks 100 0 (lines_of bytes) = true :=
  (test_stream_lines 100 (by decide) (fun _ => 7) (fun _ => by show 1 ≤ 7; decide) 101
    (by decide)).1

/-! ## Streams over a string buffer -/

theorem read_test_loop_done (buf_size fuel len : Nat) (stream : stringbuf_stream)
    (outbuf : List Nat) (h : len ≠ buf_size) :
    read_test_loop buf_size fuel len stream outbuf = some outbuf := by
  cases fuel <;> simp [read_test_loop, h]

theorem read_test_loop_spec (s : List Nat) (B : Nat) (hB : 1 ≤ B) (fuel : Nat) :
    ∀ p : Nat, p ≤ s.length → (s.length - p) / B + 1 ≤ fuel →
      read_test_loop B fuel B { buf := s, pos := p } (s.take p) = some s := by
  induction fuel with
  | zero => intro p _ h; exact absurd h (Nat.not_succ_le_zero _)
  | succ f ih =>
    intro p hp hf
    rw [read_test_loop, if_pos rfl]
    simp only [svn_stream_read_full]
    have hlen : ((s.drop p).take B).length = min B (s.length - p) := by
      simp [List.length_take, List.length_drop]
    have hout : s.take p ++ (s.drop p).take B = s.take (p + B) := (List.take_add s p B).symm
    by_cases hfull : B ≤ s.length - p
    · have hmin : min B (s.length - p) = B := Nat.min_eq_left hfull
      rw [hlen, hout, hmin]
      apply ih (p + B) (by omega)
      have hdiv : (s.length - p) / B = (s.length - (p + B)) / B + 1 := by
        have e : s.length - p = (s.length - (p + B)) + B := by omega
        rw [e, Nat.add_div_right _ (by omega)]
      omega
    · have hmin : min B (s.length - p) = s.length - p := Nat.min_eq_right (by omega)
      rw [hlen, hout, hmin, read_test_loop_done _ _ _ _ _ (by omega)]
      congr 1
      apply List.take_of_length_le
      omega

theorem write_test_loop_spec (s : List Nat) (B : Nat) (hB : 1 ≤ B) (fuel : Nat) :
    ∀ amt : Nat, amt ≤ s.length → s.length - amt ≤ fuel →
      write_test_loop B s fuel amt { buf := s.take amt, pos := 0 }
        = some { buf := s, pos := 0 } := by
  induction fuel with
  | zero =>
    intro amt ha hf
    have : amt = s.length := by omega
    subst this
    simp [write_test_loop]
  | succ f ih =>
    intro amt ha hf
    rw [write_test_loop]
    by_cases hlt : amt < s.length
    · rw [if_pos hlt]
      simp only [svn_stream_write]
      by_cases hB2 : B < s.length - amt
      · rw [if_pos hB2, ← List.take_add]
        exact ih (amt + B) (by omega) (by omega)
      · rw [if_neg hB2, ← List.take_add]
        exact ih (amt + (s.length - amt)) (by omega) (by omega)
    · rw [if_neg hlt]
      have : amt = s.length := by omega
      subst this
      simp

/-- C21: on the byte channel over a string buffer, for every byte string `s`
and every buffer size of at least one byte: the reading loop of
`test_stream_from_string` over a stream on `s` ends and has collected exactly
`s`; the writing loop, writing `s` in consecutive chunks to a stream over an
empty buffer, ends and leaves that buffer equal to `s`.  The size of the
test is `TEST_BUF_SIZE = 10`. -/
theorem stringbuf_stream_roundtrip (s : List Nat) (buf_size : Nat) (hB : 1 ≤ buf_size)
    (fuel : Nat) (hfuel : s.length + 1 ≤ fuel) :
    read_test_loop buf_size fuel buf_size (svn_stream_from_stringbuf s) [] = some s ∧
    (write_test_loop buf_size s fuel 0 (svn_stream_from_stringbuf [])).map (fun st => st.buf)
      = some s ∧
    1 ≤ TEST_BUF_SIZE := by
  have hdiv : s.length / buf_size ≤ s.length := Nat.div_le_self _ _
  refine ⟨?_, ?_, by decide⟩
  · exact read_test_loop_spec s buf_size hB fuel 0 (Nat.zero_le _) (by
      rw [Nat.sub_zero]; omega)
  · have h := write_test_loop_spec s buf_size hB fuel 0 (Nat.zero_le _) (by omega)
    simp only [List.take_zero] at h
    rw [svn_stream_from_stringbuf, h]
    rfl

/-- Witness of C21: the 17 bytes of `This is a string.` with the buffer size
of the test. -/
theorem stringbuf_stream_roundtrip_witness :
    read_test_loop TEST_BUF_SIZE 18 TEST_BUF_SIZE
        (svn_stream_from_stringbuf
          [84, 104, 105, 115, 32, 105, 115, 32, 97, 32, 115, 116, 114, 105, 110, 103, 46]) []
      = some [84, 104, 105, 115, 32, 105, 115, 32, 97, 32, 115, 116, 114, 105, 110, 103, 46] ∧
    (write_test_loop TEST_BUF_SIZE
        [84, 104, 105, 115, 32, 105, 115, 32, 97, 32, 115, 116, 114, 105, 110, 103, 46]
        18 0 (svn_stream_from_stringbuf [])).map (fun st => st.buf)
      = some [84, 104, 105, 115, 32, 105, 115, 32, 97, 32, 115, 116, 114, 105, 110, 103, 46] ∧
    1 ≤ TEST_BUF_SIZE :=
  stringbuf_stream_roundtrip
    [84, 104, 105, 115, 32, 105, 115, 32, 97, 32, 115, 116, 114, 105, 110, 103, 46]
    TEST_BUF_SIZE (by decide) 18 (by decide)

end StreamTest
